import Mathlib

/-!
# InsurAi front end: the audit-log view, the forms and the profile

A shallow embedding of the audit-log view model of `AdminAuditLogs.jsx`: the filter and sort
pipeline of `applyFilters`, the analytics snapshot computed from the filtered list, the pages
of the table and their controls, the export, the state of the component with its arrays held
in a small heap, and the operations that act on that state. It is followed by the handlers
of the agent login form (`AgentLogin.jsx`) and of the HR registration form
(`HRRegister.jsx`), and by the token decoding of the employee profile
(`EmployeeProfile.jsx`).

JavaScript values are embedded as `JsVal` and, for parsed response bodies, `Json`; a thrown
`TypeError` is a result in `Except`. Built-ins whose result depends on the platform (Unicode
case mapping, `Date.parse`, local calendar arithmetic) are fields of `Env`; `isoEnv` is a
concrete platform in UTC. `JSON.parse` is a parameter of the handlers that call it; `parseJson`
is a reader for the texts of the examples. The patterns of the forms are values of `Regex`.
-/

namespace InsurAi

/-! ## JavaScript values -/

/-- A JSON field value as the code sees it: a missing key reads as `undefined`.
Numbers are the integer-valued ones; objects and arrays are outside the model. -/
inductive JsVal where
  | undefined
  | null
  | bool (b : Bool)
  | num (n : Int)
  | str (s : String)
  deriving DecidableEq, Repr

/-- The only exception the modelled code can raise: calling a method on a value that has none. -/
inductive JsError where
  | typeError
  deriving DecidableEq, Repr

instance instDecidableEqExcept {ε α : Type} [DecidableEq ε] [DecidableEq α] :
    DecidableEq (Except ε α)
  | .ok a, .ok b =>
    if h : a = b then isTrue (by rw [h]) else isFalse (by intro h1; cases h1; exact h rfl)
  | .error a, .error b =>
    if h : a = b then isTrue (by rw [h]) else isFalse (by intro h1; cases h1; exact h rfl)
  | .ok _, .error _ => isFalse (by intro h; cases h)
  | .error _, .ok _ => isFalse (by intro h; cases h)

/-- One audit-log entry, with every key the component reads
(`log.userName` is read by the table row, `log.user_name` everywhere else). -/
structure Entry where
  id : JsVal
  timestamp : JsVal
  user_name : JsVal
  userName : JsVal
  role : JsVal
  action : JsVal
  details : JsVal
  deriving DecidableEq, Repr

/-- Platform built-ins. A time value is a number of milliseconds since the epoch;
`none` stands for `NaN` (an invalid date). -/
structure Env where
  /-- Result of `String.prototype.toLowerCase`. -/
  toLowerCase : String → String
  /-- Result of `Date.parse` on a string. -/
  dateParse : String → Option Int
  /-- Time value of a date holding `t` after `d.setDate(d.getDate() - n)`: the same local
  wall-clock time `n` calendar days earlier, `none` when out of the representable range. -/
  minusDays : Int → Int → Option Int
  /-- Result of `getHours()` on a valid date: the hour of the day in local time. -/
  getHours : Int → Fin 24
  /-- Result of `toLocaleDateString('en-US', { weekday: 'short' })` on a valid date: the name
  of the local day of the week. -/
  weekdayShort : Int → String

/-- Result of `s.includes(t)`: `t` occurs in `s` as a contiguous run of characters. -/
def includes (s t : String) : Bool :=
  decide (t.data <:+: s.data)

/-- Largest magnitude of a time value (`TimeClip`). -/
def maxTime : Int := 8640000000000000

/-- Time value of `new Date(v)` for a primitive `v`. -/
def newDate (env : Env) : JsVal → Option Int
  | .undefined => none
  | .null => some 0
  | .bool b => some (if b then 1 else 0)
  | .num n => if -maxTime ≤ n ∧ n ≤ maxTime then some n else none
  | .str s => env.dateParse s

/-- Result of `x - y` on two dates: `NaN` when either is invalid. -/
def dateDiff (x y : Option Int) : Option Int :=
  match x, y with
  | some a, some b => some (a - b)
  | _, _ => none

/-- Result of `x >= y` on two dates: `false` when either is invalid. -/
def dateGe (x y : Option Int) : Bool :=
  match x, y with
  | some a, some b => decide (b ≤ a)
  | _, _ => false

/-! ## `parseInt` -/

/-- White space and line terminators skipped by `parseInt`. -/
def isJsWhiteSpace (c : Char) : Bool :=
  let n := c.toNat
  n = 9 || n = 10 || n = 11 || n = 12 || n = 13 || n = 32 || n = 160 || n = 5760 ||
  (8192 ≤ n && n ≤ 8202) || n = 8232 || n = 8233 || n = 8239 || n = 8287 || n = 12288 ||
  n = 65279

/-- Value of a character as a digit in the given radix (10 or 16). -/
def digitValue (radix : Nat) (c : Char) : Option Nat :=
  let n := c.toNat
  if 48 ≤ n ∧ n ≤ 57 then some (n - 48)
  else if radix = 16 ∧ 97 ≤ n ∧ n ≤ 102 then some (n - 87)
  else if radix = 16 ∧ 65 ≤ n ∧ n ≤ 70 then some (n - 55)
  else none

/-- Reads the longest prefix of digits; `none` when there is no digit at all. -/
def readDigits (radix : Nat) : List Char → Option Nat → Option Nat
  | [], acc => acc
  | c :: cs, acc =>
    match digitValue radix c with
    | some d => readDigits radix cs (some (acc.getD 0 * radix + d))
    | none => acc

/-- Digits after the sign: a `0x` or `0X` prefix selects radix 16. -/
def parseIntBody : List Char → Option Nat
  | '0' :: 'x' :: cs => readDigits 16 cs none
  | '0' :: 'X' :: cs => readDigits 16 cs none
  | cs => readDigits 10 cs none

/-- Result of `parseInt(s)` with no radix argument; `none` stands for `NaN`. -/
def parseInt (s : String) : Option Int :=
  match s.data.dropWhile isJsWhiteSpace with
  | '-' :: cs => (parseIntBody cs).map fun n => -(n : Int)
  | '+' :: cs => (parseIntBody cs).map fun n => (n : Int)
  | cs => (parseIntBody cs).map fun n => (n : Int)

/-! ## `Array.prototype.filter` and `Array.prototype.sort` -/

/-- The array `filter` with a callback that may throw: the callback runs on the elements
in order and the first exception aborts the call. -/
def filterE {α : Type} (p : α → Except JsError Bool) : List α → Except JsError (List α)
  | [] => .ok []
  | a :: l =>
    match p a with
    | .error e => .error e
    | .ok b =>
      match filterE p l with
      | .error e => .error e
      | .ok r => .ok (if b then a :: r else r)

/-- The number the sort sees for a comparator result: `NaN` counts as `+0`. -/
def sortCompare {α : Type} (cmp : α → α → Option Int) (a b : α) : Int :=
  (cmp a b).getD 0

/-- The array `sort` with a comparator. The sort is stable: for a consistent comparator
(every comparison a number, the order total) the result is the one every conforming engine
returns. For an inconsistent comparator the order is implementation-defined and this is one
possible outcome; the result is a permutation in every case. -/
def jsSort {α : Type} (cmp : α → α → Option Int) (l : List α) : List α :=
  l.insertionSort fun a b => sortCompare cmp a b ≤ 0

/-! ## Filter state and the predicates of `applyFilters` -/

/-- The value of `sortConfig`. -/
structure SortConfig where
  key : String
  direction : String
  deriving DecidableEq, Repr

/-- The filter fields of the component state. -/
structure FilterState where
  filterRole : String
  filterAction : String
  dateRange : String
  searchTerm : String
  sortConfig : SortConfig
  deriving DecidableEq, Repr

/-- Callback `log.role === filterRole`. -/
def roleMatches (filterRole : String) (log : Entry) : Bool :=
  decide (log.role = .str filterRole)

/-- Callback `log.action.toLowerCase().includes(filterAction.toLowerCase())`:
throws unless `log.action` is a string. -/
def actionMatches (env : Env) (filterAction : String) (log : Entry) : Except JsError Bool :=
  match log.action with
  | .str a => .ok (includes (env.toLowerCase a) (env.toLowerCase filterAction))
  | _ => .error .typeError

/-- Value of `v?.toLowerCase().includes(searchLower)` as a condition: `undefined` (falsy) for a
nullish `v`, the test for a string, an exception for any other value. -/
def optIncludes (env : Env) (v : JsVal) (searchLower : String) : Except JsError Bool :=
  match v with
  | .undefined => .ok false
  | .null => .ok false
  | .str s => .ok (includes (env.toLowerCase s) searchLower)
  | _ => .error .typeError

/-- Callback of the search filter: `user_name`, then `details`, then `action`, joined by `||`,
each operand evaluated only when the ones before it are falsy. -/
def searchMatches (env : Env) (searchLower : String) (log : Entry) : Except JsError Bool :=
  match optIncludes env log.user_name searchLower with
  | .error e => .error e
  | .ok true => .ok true
  | .ok false =>
    match optIncludes env log.details searchLower with
    | .error e => .error e
    | .ok true => .ok true
    | .ok false => optIncludes env log.action searchLower

/-- The date `cutoff` after `cutoff.setDate(cutoff.getDate() - parseInt(dateRange))`. -/
def cutoffDate (env : Env) (now : Int) (dateRange : String) : Option Int :=
  match parseInt dateRange with
  | some days => env.minusDays now days
  | none => none

/-- Callback `new Date(log.timestamp) >= cutoff` (the `catch` branch is never taken:
`new Date` does not throw on a primitive). -/
def dateMatches (env : Env) (cutoff : Option Int) (log : Entry) : Bool :=
  dateGe (newDate env log.timestamp) cutoff

/-- Comparator passed to `filtered.sort`. -/
def compareLogs (env : Env) (sortConfig : SortConfig) (a b : Entry) : Option Int :=
  if sortConfig.key = "timestamp" then
    if sortConfig.direction = "desc" then
      dateDiff (newDate env b.timestamp) (newDate env a.timestamp)
    else
      dateDiff (newDate env a.timestamp) (newDate env b.timestamp)
  else some 0

/-- The role filter: `if (filterRole) filtered = filtered.filter(...)`. -/
def roleFilter (filterRole : String) (filtered : List Entry) : List Entry :=
  if filterRole ≠ "" then filtered.filter (roleMatches filterRole) else filtered

/-- The action filter: `if (filterAction) filtered = filtered.filter(...)`. -/
def actionFilter (env : Env) (filterAction : String) (filtered : List Entry) :
    Except JsError (List Entry) :=
  if filterAction ≠ "" then filterE (actionMatches env filterAction) filtered else .ok filtered

/-- The free-text filter: `if (searchTerm) { const searchLower = ...; filtered = ... }`. -/
def searchFilter (env : Env) (searchTerm : String) (filtered : List Entry) :
    Except JsError (List Entry) :=
  if searchTerm ≠ "" then filterE (searchMatches env (env.toLowerCase searchTerm)) filtered
  else .ok filtered

/-- The date-range filter: `if (dateRange && dateRange !== "all") { ... }`, with the clock
reading `now`. -/
def dateRangeFilter (env : Env) (now : Int) (dateRange : String) (filtered : List Entry) :
    List Entry :=
  if dateRange ≠ "" ∧ dateRange ≠ "all" then
    filtered.filter (dateMatches env (cutoffDate env now dateRange))
  else filtered

/-- The value of `filtered` when `applyFilters` reaches `setFilteredLogs(filtered)`, as a
function of the raw list, the filter fields and the clock; an exception when a callback
throws. -/
def filterAndSort (env : Env) (now : Int) (f : FilterState) (logs : List Entry) :
    Except JsError (List Entry) :=
  ((actionFilter env f.filterAction (roleFilter f.filterRole logs)).bind
      (searchFilter env f.searchTerm)).map
    fun filtered => jsSort (compareLogs env f.sortConfig) (dateRangeFilter env now f.dateRange filtered)

/-! ## The filters as the specification words them -/

/-- The value is a string whose lower-cased form contains `needle`; an absent or non-string
value contains nothing. -/
def fieldContains (env : Env) (needle : String) : JsVal → Bool
  | .str s => includes (env.toLowerCase s) needle
  | _ => false

/-- The role filter is inactive or the role is exactly the selected one. -/
def satisfiesRole (f : FilterState) (e : Entry) : Bool :=
  decide (f.filterRole = "") || decide (e.role = .str f.filterRole)

/-- The action filter is inactive or the action contains the text, case-insensitively. -/
def satisfiesAction (env : Env) (f : FilterState) (e : Entry) : Bool :=
  decide (f.filterAction = "") || fieldContains env (env.toLowerCase f.filterAction) e.action

/-- The search is inactive or one of user name, action and details contains the term,
case-insensitively. -/
def satisfiesSearch (env : Env) (f : FilterState) (e : Entry) : Bool :=
  decide (f.searchTerm = "") ||
    (fieldContains env (env.toLowerCase f.searchTerm) e.user_name ||
      fieldContains env (env.toLowerCase f.searchTerm) e.action ||
      fieldContains env (env.toLowerCase f.searchTerm) e.details)

/-- The date range is inactive (`""` or `"all"`) or the timestamp is a valid date not before
the cutoff. -/
def satisfiesDateRange (env : Env) (now : Int) (f : FilterState) (e : Entry) : Bool :=
  decide (f.dateRange = "") || decide (f.dateRange = "all") ||
    dateGe (newDate env e.timestamp) (cutoffDate env now f.dateRange)

/-- Specification 4.1: an entry satisfies every active filter
(role AND action-substring AND search AND date-range). -/
def satisfiesFilters (env : Env) (now : Int) (f : FilterState) (e : Entry) : Bool :=
  satisfiesRole f e && satisfiesAction env f e && satisfiesSearch env f e &&
    satisfiesDateRange env now f e

/-- The value is a string or is absent (`undefined` or `null`). -/
def JsVal.isOptionalString : JsVal → Bool
  | .str _ => true
  | .undefined => true
  | .null => true
  | _ => false

/-- The value is a string. -/
def JsVal.isString : JsVal → Bool
  | .str _ => true
  | _ => false

/-- The entry has the field types of the data model for the fields the filters call methods
on: `action` is a string, user name and `details` are strings or absent. -/
def Entry.conforms (e : Entry) : Bool :=
  e.action.isString && e.user_name.isOptionalString && e.details.isOptionalString

/-- The outcome is the value `true`. -/
def okTrue : Except JsError Bool → Bool
  | .ok true => true
  | _ => false

/-- Two callbacks run one after the other on an entry: the second sees only what the first
keeps. -/
def fuse (p q : Entry → Except JsError Bool) (e : Entry) : Except JsError Bool :=
  match p e with
  | .error x => .error x
  | .ok false => .ok false
  | .ok true => q e

/-- What the four filters of `applyFilters` do with one entry, in the order they run. -/
def keepE (env : Env) (now : Int) (f : FilterState) : Entry → Except JsError Bool :=
  fuse
    (fuse
      (fuse (fun e => .ok (decide (f.filterRole = "") || roleMatches f.filterRole e))
        (fun e => if f.filterAction ≠ "" then actionMatches env f.filterAction e else .ok true))
      (fun e =>
        if f.searchTerm ≠ "" then searchMatches env (env.toLowerCase f.searchTerm) e
        else .ok true))
    (fun e => .ok (decide (¬(f.dateRange ≠ "" ∧ f.dateRange ≠ "all")) ||
      dateMatches env (cutoffDate env now f.dateRange) e))

/-- Time value of the entry's timestamp, `0` when it is not a valid date. -/
def timeOf (env : Env) (e : Entry) : Int :=
  (newDate env e.timestamp).getD 0

/-! ## The analytics read by the role chart -/

/-- A value stored in a counting object: a number, or the text that `+ 1` produces when the
key names a property every object inherits (`(acc[k] || 0)` is then a function or an object
and `+` concatenates). -/
inductive CountVal where
  | num (n : Nat)
  | text
  deriving DecidableEq, Repr

/-- Names of the properties an object literal inherits from `Object.prototype`. -/
def objectPrototypeKeys : List String :=
  ["constructor", "hasOwnProperty", "isPrototypeOf", "propertyIsEnumerable", "toLocaleString",
    "toString", "valueOf", "__proto__", "__defineGetter__", "__defineSetter__",
    "__lookupGetter__", "__lookupSetter__"]

/-- The string a value becomes when used as a property key (for a number of magnitude
below 10^21, which is written in plain decimal). -/
def toPropertyKey : JsVal → String
  | .undefined => "undefined"
  | .null => "null"
  | .bool true => "true"
  | .bool false => "false"
  | .num n => toString n
  | .str s => s

/-- An object used as a counter, as its own properties in insertion order. -/
abbrev CountObj := List (String × CountVal)

/-- Statement `acc[k] = (acc[k] || 0) + 1`. -/
def bump (k : String) : CountObj → CountObj
  | [] =>
    if k = "__proto__" then []
    else if k ∈ objectPrototypeKeys then [(k, .text)]
    else [(k, .num 1)]
  | (k1, v) :: rest =>
    if k1 = k then
      (k1, match v with
        | .num n => .num (n + 1)
        | .text => .text) :: rest
    else (k1, v) :: bump k rest

/-- The reduction `list.reduce((acc, log) => { acc[key(log)] = ...; return acc; }, {})`. -/
def countBy (key : Entry → JsVal) (list : List Entry) : CountObj :=
  list.foldl (fun acc log => bump (toPropertyKey (key log)) acc) []

/-- Field `analytics.totalLogs`. -/
def totalLogs (filteredLogs : List Entry) : Nat :=
  if filteredLogs.length = 0 then 0 else filteredLogs.length

/-- Field `analytics.rolesCount`. -/
def rolesCount (filteredLogs : List Entry) : CountObj :=
  if filteredLogs.length = 0 then [] else countBy (fun log => log.role) filteredLogs

/-! ## A concrete platform -/

/-- Lower-casing of the ASCII letters; every other character is left as it is. -/
def asciiLower (s : String) : String :=
  String.mk (s.data.map Char.toLower)

/-- Value of a run of decimal digits; `none` when a character is not a digit. -/
def decimal : List Char → Option Nat
  | [] => some 0
  | cs => cs.foldl (fun acc c => match acc, digitValue 10 c with
      | some a, some d => some (a * 10 + d)
      | _, _ => none) (some 0)

/-- Number of days in a month of the proleptic Gregorian calendar. -/
def daysInMonth (y m : Nat) : Nat :=
  if m = 2 then (if y % 4 = 0 ∧ (y % 100 ≠ 0 ∨ y % 400 = 0) then 29 else 28)
  else if m = 4 ∨ m = 6 ∨ m = 9 ∨ m = 11 then 30 else 31

/-- Days from 1970-01-01 to the given date, for years from 1 on. -/
def daysFromCivil (y m d : Nat) : Int :=
  let y1 := if m ≤ 2 then y - 1 else y
  let era := y1 / 400
  let yoe := y1 % 400
  let mp := if m ≤ 2 then m + 9 else m - 3
  let doy := (153 * mp + 2) / 5 + d - 1
  let doe := yoe * 365 + yoe / 4 - yoe / 100 + doy
  ((era * 146097 + doe : Nat) : Int) - 719468

/-- Time value of the fields of a UTC date-time, `none` when a field is out of range. -/
def utcTime (y mo d h mi s ms : Nat) : Option Int :=
  if 1 ≤ y ∧ 1 ≤ mo ∧ mo ≤ 12 ∧ 1 ≤ d ∧ d ≤ daysInMonth y mo ∧ h ≤ 23 ∧ mi ≤ 59 ∧ s ≤ 59 then
    some (daysFromCivil y mo d * 86400000 + ((h * 3600000 + mi * 60000 + s * 1000 + ms : Nat) : Int))
  else none

/-- Reads the ISO forms `YYYY-MM-DDTHH:mm:ssZ` and `YYYY-MM-DDTHH:mm:ss.sssZ`; any other
string counts as unparsable. -/
def parseIso (str : String) : Option Int :=
  match str.data with
  | [y1, y2, y3, y4, '-', m1, m2, '-', d1, d2, 'T', h1, h2, ':', n1, n2, ':', s1, s2, 'Z'] =>
    match decimal [y1, y2, y3, y4], decimal [m1, m2], decimal [d1, d2], decimal [h1, h2],
        decimal [n1, n2], decimal [s1, s2] with
    | some y, some mo, some d, some h, some mi, some s => utcTime y mo d h mi s 0
    | _, _, _, _, _, _ => none
  | [y1, y2, y3, y4, '-', m1, m2, '-', d1, d2, 'T', h1, h2, ':', n1, n2, ':', s1, s2, '.',
      f1, f2, f3, 'Z'] =>
    match decimal [y1, y2, y3, y4], decimal [m1, m2], decimal [d1, d2], decimal [h1, h2],
        decimal [n1, n2], decimal [s1, s2], decimal [f1, f2, f3] with
    | some y, some mo, some d, some h, some mi, some s, some ms => utcTime y mo d h mi s ms
    | _, _, _, _, _, _, _ => none
  | _ => none

/-- Number of the UTC day a time value falls on, counted from 1970-01-01. -/
def utcDay (t : Int) : Int :=
  t / 86400000

/-- Year, month and day of a day number in the proleptic Gregorian calendar. -/
def civilFromDays (day : Int) : Int × Nat × Nat :=
  let z := day + 719468
  let era := z / 146097
  let doe := (z - era * 146097).toNat
  let yoe := (doe - doe / 1460 + doe / 36524 - doe / 146096) / 365
  let doy := doe - (365 * yoe + yoe / 4 - yoe / 100)
  let mp := (5 * doy + 2) / 153
  let d := doy - (153 * mp + 2) / 5 + 1
  let m := if mp < 10 then mp + 3 else mp - 9
  ((yoe : Int) + era * 400 + (if m ≤ 2 then 1 else 0), m, d)

/-- Decimal digits of a number, padded with zeros on the left to the given width. -/
def padZero (width n : Nat) : String :=
  String.mk (List.replicate (width - (Nat.toDigits 10 n).length) '0' ++ Nat.toDigits 10 n)

/-- The year as `toISOString` writes it: four digits from 0 to 9999, otherwise a sign and six
digits. -/
def isoYear (y : Int) : String :=
  if 0 ≤ y ∧ y ≤ 9999 then padZero 4 y.toNat
  else (if y < 0 then "-" else "+") ++ padZero 6 y.natAbs

/-- Value of `d.toISOString().split('T')[0]` for a valid date with time value `t`: the UTC
calendar date as `YYYY-MM-DD`. -/
def isoDate (t : Int) : String :=
  isoYear (civilFromDays (utcDay t)).1 ++ "-" ++ padZero 2 (civilFromDays (utcDay t)).2.1 ++
    "-" ++ padZero 2 (civilFromDays (utcDay t)).2.2

/-- English short names of the days of the week, from Sunday. -/
def weekdayNames : List String := ["Sun", "Mon", "Tue", "Wed", "Thu", "Fri", "Sat"]

/-- Short name of the day of the week of a day number (1970-01-01 was a Thursday). -/
def weekdayOfDay (day : Int) : String :=
  weekdayNames.getD ((day + 4) % 7).toNat ""

/-- Hour of the day of a time read on a clock that shows `t` as milliseconds since the local
epoch. -/
def hourOfDay (t : Int) : Fin 24 :=
  ⟨((t % 86400000) / 3600000).toNat % 24, Nat.mod_lt _ (by decide)⟩

/-- A platform whose local time zone is UTC: a calendar day is 86400000 ms. It agrees with a
JavaScript engine on ASCII text and on ISO date-times in UTC. -/
def isoEnv : Env where
  toLowerCase := asciiLower
  dateParse := parseIso
  minusDays := fun t n =>
    let r := t - n * 86400000
    if -maxTime ≤ r ∧ r ≤ maxTime then some r else none
  getHours := hourOfDay
  weekdayShort := fun t => weekdayOfDay (utcDay t)

/-- Start of summer time in Central Europe in 2024: 2024-03-31T01:00:00Z. -/
def summerTimeStart : Int := 1711846800000

/-- Offset of local time from UTC in a zone that is at UTC+1 before `summerTimeStart` and at
UTC+2 from then on. -/
def zoneOffset (t : Int) : Int :=
  if t < summerTimeStart then 3600000 else 7200000

/-- Local time of an instant in that zone. -/
def zoneLocal (t : Int) : Int :=
  t + zoneOffset t

/-- Instant of a local time in that zone; a local time the clocks skip is read with the
offset in force before the change. -/
def zoneUtc (l : Int) : Int :=
  if l - 7200000 < summerTimeStart then l - 3600000 else l - 7200000

/-- A platform in that zone: `setDate` moves the local calendar day and keeps the local time
of day, so a day across the change has 23 hours. -/
def summerEnv : Env where
  toLowerCase := asciiLower
  dateParse := parseIso
  minusDays := fun t n =>
    let r := zoneUtc (zoneLocal t - n * 86400000)
    if -maxTime ≤ r ∧ r ≤ maxTime then some r else none
  getHours := fun t => hourOfDay (zoneLocal t)
  weekdayShort := fun t => weekdayOfDay (utcDay (zoneLocal t))


/-! ## The analytics snapshot

Each field of the `useMemo` value is a function of `filteredLogs`; the guard
`if (!filteredLogs.length)` of the snapshot is repeated in each of them. -/

/-- Bucket of `hourlyActivity`. -/
structure HourBucket where
  hour : String
  count : Nat
  deriving DecidableEq, Repr

/-- Bucket of `dailyActivity`. -/
structure DayBucket where
  date : String
  count : Nat
  fullDate : String
  deriving DecidableEq, Repr

/-- Element of `topUsers`. -/
structure TopUser where
  user : String
  count : CountVal
  deriving DecidableEq, Repr

/-- Value of `mostActiveAction`. The count is a number: it is replaced only by a count that
compared greater than a number. -/
structure ActiveAction where
  action : String
  count : Nat
  deriving DecidableEq, Repr

/-- Field `analytics.actionsCount`. -/
def actionsCount (filteredLogs : List Entry) : CountObj :=
  if filteredLogs.length = 0 then [] else countBy (fun log => log.action) filteredLogs

/-- The key is an array index: the canonical decimal form of an integer below 2^32 - 1. -/
def arrayIndex (k : String) : Option Nat :=
  match k.data with
  | [] => none
  | ['0'] => some 0
  | '0' :: _ => none
  | cs =>
    match decimal cs with
    | some n => if n ≤ 4294967294 then some n else none
    | none => none

/-- Result of `Object.entries(o)`: the array-index keys in ascending numeric order, then the
other keys in insertion order. -/
def objectEntries (o : CountObj) : List (String × CountVal) :=
  (o.filter fun p => (arrayIndex p.1).isSome).insertionSort
      (fun a b => (arrayIndex a.1).getD 0 ≤ (arrayIndex b.1).getD 0) ++
    o.filter fun p => !(arrayIndex p.1).isSome

/-- Callback of the `hourLogs` filter: `new Date(log.timestamp).getHours() === hour`, false
for an invalid date, whose hour is `NaN`. -/
def inHour (env : Env) (hour : Nat) (log : Entry) : Bool :=
  match newDate env log.timestamp with
  | some t => decide ((env.getHours t).val = hour)
  | none => false

/-- Field `analytics.hourlyActivity`. -/
def hourlyActivity (env : Env) (filteredLogs : List Entry) : List HourBucket :=
  if filteredLogs.length = 0 then []
  else (List.range 24).map fun hour =>
    ⟨String.mk (Nat.toDigits 10 hour) ++ ":00", (filteredLogs.filter (inHour env hour)).length⟩

/-- Callback of the `dayLogs` filter: the date part of `toISOString()` equals `dateStr`;
`toISOString` throws on an invalid date and the `catch` returns false. -/
def onDate (env : Env) (dateStr : String) (log : Entry) : Bool :=
  match newDate env log.timestamp with
  | some t => decide (isoDate t = dateStr)
  | none => false

/-- Bucket `i` of `dailyActivity`; `none` when `date.toISOString()` throws because the bucket
date is out of range. -/
def dayBucket (env : Env) (now : Int) (filteredLogs : List Entry) (i : Nat) : Option DayBucket :=
  match env.minusDays now (6 - (i : Int)) with
  | some date =>
    some ⟨env.weekdayShort date, (filteredLogs.filter (onDate env (isoDate date))).length,
      isoDate date⟩
  | none => none

/-- The results of a run of calls in order, `none` when one of the calls throws. -/
def allSome {α : Type} : List (Option α) → Option (List α)
  | [] => some []
  | none :: _ => none
  | some a :: rest => (allSome rest).map fun r => a :: r

/-- Field `analytics.dailyActivity`, computed when the clock reads `now`; `none` when a
bucket throws. -/
def dailyActivity (env : Env) (now : Int) (filteredLogs : List Entry) :
    Option (List DayBucket) :=
  if filteredLogs.length = 0 then some []
  else allSome ((List.range 7).map (dayBucket env now filteredLogs))

/-- The comparator `([, a], [, b]) => b - a`: not a number when a count is text. -/
def compareCounts (x y : String × CountVal) : Option Int :=
  match x.2, y.2 with
  | .num a, .num b => some ((b : Int) - (a : Int))
  | _, _ => none

/-- Field `analytics.topUsers`. -/
def topUsers (filteredLogs : List Entry) : List TopUser :=
  if filteredLogs.length = 0 then []
  else ((jsSort compareCounts
      (objectEntries (countBy (fun log => log.user_name) filteredLogs))).take 5).map
    fun p => ⟨p.1, p.2⟩

/-- Result of `String.prototype.trim`. -/
def jsTrim (s : String) : String :=
  String.mk ((s.data.dropWhile isJsWhiteSpace).reverse.dropWhile isJsWhiteSpace).reverse

/-- Callback `log.user_name && typeof log.user_name === 'string' &&
log.user_name.trim() !== ''`. -/
def hasUserName (log : Entry) : Bool :=
  match log.user_name with
  | .str s => decide (s ≠ "") && decide (jsTrim s ≠ "")
  | _ => false

/-- Callback `log.user_name.trim()`, which runs on entries that passed `hasUserName` only. -/
def trimmedUserName (log : Entry) : String :=
  match log.user_name with
  | .str s => jsTrim s
  | _ => ""

/-- Field `analytics.uniqueUsers`: the size of the `Set` of the trimmed names. -/
def uniqueUsers (filteredLogs : List Entry) : Nat :=
  if filteredLogs.length = 0 then 0
  else ((filteredLogs.filter hasUserName).map trimmedUserName).dedup.length

/-- Field `analytics.mostActiveHour`. -/
def mostActiveHour (env : Env) (filteredLogs : List Entry) : HourBucket :=
  (hourlyActivity env filteredLogs).foldl
    (fun max hour => if hour.count > max.count then hour else max) ⟨"0:00", 0⟩

/-- Step of the `mostActiveAction` reduction: `count > max.count` is false for a text count,
which converts to `NaN`. -/
def moreActive (max : ActiveAction) (p : String × CountVal) : ActiveAction :=
  match p.2 with
  | .num count => if count > max.count then ⟨p.1, count⟩ else max
  | .text => max

/-- Field `analytics.mostActiveAction`. -/
def mostActiveAction (filteredLogs : List Entry) : ActiveAction :=
  (objectEntries (actionsCount filteredLogs)).foldl moreActive ⟨"", 0⟩

/-- The value of `analytics`. -/
structure Analytics where
  totalLogs : Nat
  actionsCount : CountObj
  rolesCount : CountObj
  hourlyActivity : List HourBucket
  dailyActivity : List DayBucket
  topUsers : List TopUser
  uniqueUsers : Nat
  mostActiveHour : HourBucket
  mostActiveAction : ActiveAction
  /-- Present, as the empty array, in the snapshot of the empty list only. -/
  activityTrend : Option (List Entry)
  deriving DecidableEq, Repr

/-- The `useMemo` callback computing `analytics` from `filteredLogs` when the clock reads
`now`; `none` when it throws. -/
def analytics (env : Env) (now : Int) (filteredLogs : List Entry) : Option Analytics :=
  match dailyActivity env now filteredLogs with
  | none => none
  | some daily =>
    some {
      totalLogs := totalLogs filteredLogs
      actionsCount := actionsCount filteredLogs
      rolesCount := rolesCount filteredLogs
      hourlyActivity := hourlyActivity env filteredLogs
      dailyActivity := daily
      topUsers := topUsers filteredLogs
      uniqueUsers := uniqueUsers filteredLogs
      mostActiveHour := mostActiveHour env filteredLogs
      mostActiveAction := mostActiveAction filteredLogs
      activityTrend := if filteredLogs.length = 0 then some [] else none }

/-- Sum of the values of a counting object, `none` when a value is not a number. -/
def sumValues : CountObj → Option Nat
  | [] => some 0
  | (_, .num n) :: rest => (sumValues rest).map fun total => n + total
  | (_, .text) :: _ => none

/-! ## Component state

Arrays are mutable objects: the state holds references into a heap of arrays, so that two
state variables can hold the same array and an in-place `sort` is a write to the heap.
Entries are never assigned to by the component and are held by value. -/

/-- The arrays allocated so far; a reference to an array is its position in this list. -/
abbrev Heap := List (List Entry)

/-- Content of the array behind a reference. -/
def Heap.read (h : Heap) (r : Nat) : List Entry :=
  h.getD r []

/-- A new array with the given content, and the reference to it. -/
def Heap.alloc (h : Heap) (a : List Entry) : Heap × Nat :=
  (h ++ [a], h.length)

/-- In-place update of the array behind a reference. -/
def Heap.write (h : Heap) (r : Nat) (a : List Entry) : Heap :=
  h.set r a

/-- Fixed page size, `useState(15)` with no setter. -/
def logsPerPage : Nat := 15

/-- The `useState` variables of the component. -/
structure State extends FilterState where
  heap : Heap
  logs : Nat
  filteredLogs : Nat
  loading : Bool
  selectedLog : Option Entry
  currentPage : Int
  viewMode : String
  autoRefresh : Bool
  error : String
  deriving DecidableEq, Repr

/-- Content of the raw list `logs`. -/
def State.logsList (s : State) : List Entry :=
  s.heap.read s.logs

/-- Content of `filteredLogs`. -/
def State.filteredList (s : State) : List Entry :=
  s.heap.read s.filteredLogs

/-- The state built by the `useState` initialisers: `logs` and `filteredLogs` start as two
distinct empty arrays. -/
def initialState : State where
  filterRole := ""
  filterAction := ""
  dateRange := "30"
  searchTerm := ""
  sortConfig := ⟨"timestamp", "desc"⟩
  heap := [[], []]
  logs := 0
  filteredLogs := 1
  loading := true
  selectedLog := none
  currentPage := 1
  viewMode := "table"
  autoRefresh := false
  error := ""

/-- Value of `totalPages`: `Math.ceil(filteredLogs.length / logsPerPage)`. -/
def totalPages (s : State) : Int :=
  ((s.filteredList.length + logsPerPage - 1) / logsPerPage : Nat)

/-- Result of `l.slice(start, stop)`: a negative index counts from the end, and both ends
are clamped to the list. -/
def jsSlice {α : Type} (l : List α) (start stop : Int) : List α :=
  let len : Int := l.length
  let first := if start < 0 then max (len + start) 0 else min start len
  let last := if stop < 0 then max (len + stop) 0 else min stop len
  (l.drop first.toNat).take (last - first).toNat

/-- Value of `currentLogs`, the rows of the current page. -/
def currentLogs (s : State) : List Entry :=
  jsSlice s.filteredList (s.currentPage * logsPerPage - logsPerPage) (s.currentPage * logsPerPage)

/-- The `value`s of the options of the User Role select. -/
def roleOptions : List String := ["", "ADMIN", "HR", "AGENT", "EMPLOYEE"]

/-- The `value`s of the options of the Date Range select. -/
def dateRangeOptions : List String := ["1", "7", "30", "90", "all"]

/-- The local variable `filtered` of `applyFilters` together with the heap. -/
structure Local where
  heap : Heap
  filtered : Nat
  deriving DecidableEq, Repr

/-- Content of the array `filtered` refers to. -/
def Local.value (l : Local) : List Entry :=
  l.heap.read l.filtered

/-- Assignment `filtered = <a newly built array>` (a spread copy or the result of `filter`). -/
def Local.assignNew (l : Local) (a : List Entry) : Local :=
  ⟨(l.heap.alloc a).1, (l.heap.alloc a).2⟩

/-- Statement `filtered.sort(cmp)`: the array is reordered in place. -/
def Local.sortInPlace (l : Local) (cmp : Entry → Entry → Option Int) : Local :=
  ⟨l.heap.write l.filtered (jsSort cmp l.value), l.filtered⟩

/-- The working array of `applyFilters` is one it allocated itself: `filtered` refers to
an array that did not exist in the heap `h0` the call started from, and every array of `h0`
still has the content it had. -/
def Local.Fresh (h0 : Heap) (l : Local) : Prop :=
  h0.length ≤ l.filtered ∧ l.filtered < l.heap.length ∧
    ∀ r, r < h0.length → l.heap.read r = h0.read r

/-- The function `applyFilters`: the state after the call, or the exception that leaves the
call before any setter has run. -/
def applyFilters (env : Env) (now : Int) (s : State) : Except JsError State :=
  let l0 : Local := Local.assignNew ⟨s.heap, s.logs⟩ s.logsList
  let l1 := if s.filterRole ≠ "" then l0.assignNew (l0.value.filter (roleMatches s.filterRole))
    else l0
  match (if s.filterAction ≠ "" then
      (filterE (actionMatches env s.filterAction) l1.value).map l1.assignNew
    else .ok l1) with
  | .error e => .error e
  | .ok l2 =>
    match (if s.searchTerm ≠ "" then
        (filterE (searchMatches env (env.toLowerCase s.searchTerm)) l2.value).map l2.assignNew
      else .ok l2) with
    | .error e => .error e
    | .ok l3 =>
      let l4 := if s.dateRange ≠ "" ∧ s.dateRange ≠ "all" then
          l3.assignNew (l3.value.filter (dateMatches env (cutoffDate env now s.dateRange)))
        else l3
      let l5 := l4.sortInPlace (compareLogs env s.sortConfig)
      .ok { s with heap := l5.heap, filteredLogs := l5.filtered, currentPage := 1 }

/-- The function `resetFilters`: `filteredLogs` is set to the array `logs` itself. -/
def resetFilters (s : State) : State :=
  { s with
    filterRole := "", filterAction := "", searchTerm := "", dateRange := "30",
    filteredLogs := s.logs, currentPage := 1 }

/-- The function `handleSort`, which only sets `sortConfig`. -/
def handleSort (key : String) (s : State) : State :=
  { s with
    sortConfig :=
      ⟨key, if s.sortConfig.key = key ∧ s.sortConfig.direction = "desc" then "asc" else "desc"⟩ }

/-- The start of `fetchLogs`, up to the `await`. -/
def fetchLogsStart (s : State) : State :=
  { s with loading := true, error := "" }

/-- The rest of `fetchLogs` once the request has settled: `some data` for a successful
response holding the array `data`, `none` for any failure. On success both state variables
receive the same array. -/
def fetchLogsSettle (response : Option (List Entry)) (s : State) : State :=
  match response with
  | some data =>
    { s with
      heap := (s.heap.alloc data).1, logs := (s.heap.alloc data).2,
      filteredLogs := (s.heap.alloc data).2, loading := false }
  | none =>
    { s with
      error := "Failed to load audit logs. Please check your connection and try again.",
      loading := false }

/-- What can happen to the mounted component. -/
inductive Event where
  /-- A call of `fetchLogs` (mount, the Refresh button, the auto-refresh timer). -/
  | fetchStart
  /-- The request of an earlier `fetchLogs` settles. -/
  | fetchSettle (response : Option (List Entry))
  /-- Click on Apply Filters at clock time `now`. -/
  | applyClick (now : Int)
  /-- Click on Reset All, Clear All or Reset Filters. -/
  | resetClick
  /-- Click on the Timestamp header; the effect on `sortConfig` then runs at time `now`. -/
  | sortClick (now : Int)
  /-- Choice of an option of the User Role select. -/
  | setFilterRole (v : String)
  /-- Typing in the Action Type input. -/
  | setFilterAction (v : String)
  /-- Choice of an option of the Date Range select. -/
  | setDateRange (v : String)
  /-- Typing in the Search input. -/
  | setSearchTerm (v : String)
  /-- Click on a table row. -/
  | selectRow (log : Entry)
  /-- Either Close button of the detail view. -/
  | closeDetail
  | pageFirst
  | pagePrev
  | pageNumber (i : Int)
  | pageNext
  | pageLast
  /-- The Table View and Analytics buttons. -/
  | setViewMode (analytics : Bool)
  | setAutoRefresh (b : Bool)
  deriving DecidableEq, Repr

/-- The table with its header and rows is rendered. -/
def tableShown (s : State) : Bool :=
  decide (s.viewMode = "table") && !s.loading && decide (0 < s.filteredList.length)

/-- The pagination controls are rendered. -/
def paginationShown (s : State) : Bool :=
  tableShown s && decide (1 < totalPages s)

/-- A handler that throws leaves the state as it was. -/
def orKeep (s : State) (r : Except JsError State) : State :=
  match r with
  | .ok s1 => s1
  | .error _ => s

/-- The state after an event. A control that is not rendered or is disabled, or a value a
select does not offer, does nothing. -/
def step (env : Env) (ev : Event) (s : State) : State :=
  match ev with
  | .fetchStart => fetchLogsStart s
  | .fetchSettle response => fetchLogsSettle response s
  | .applyClick now => orKeep s (applyFilters env now s)
  | .resetClick => resetFilters s
  | .sortClick now =>
    if tableShown s then
      orKeep (handleSort "timestamp" s) (applyFilters env now (handleSort "timestamp" s))
    else s
  | .setFilterRole v => if v ∈ roleOptions then { s with filterRole := v } else s
  | .setFilterAction v => { s with filterAction := v }
  | .setDateRange v => if v ∈ dateRangeOptions then { s with dateRange := v } else s
  | .setSearchTerm v => { s with searchTerm := v }
  | .selectRow log =>
    if tableShown s ∧ log ∈ currentLogs s then { s with selectedLog := some log } else s
  | .closeDetail => { s with selectedLog := none }
  | .pageFirst =>
    if paginationShown s ∧ s.currentPage ≠ 1 then { s with currentPage := 1 } else s
  | .pagePrev =>
    if paginationShown s ∧ s.currentPage ≠ 1 then { s with currentPage := s.currentPage - 1 } else s
  | .pageNumber i =>
    if paginationShown s ∧ max 1 (s.currentPage - 2) ≤ i ∧ i ≤ min (totalPages s) (s.currentPage + 2)
    then { s with currentPage := i } else s
  | .pageNext =>
    if paginationShown s ∧ s.currentPage ≠ totalPages s then
      { s with currentPage := s.currentPage + 1 } else s
  | .pageLast =>
    if paginationShown s ∧ s.currentPage ≠ totalPages s then
      { s with currentPage := totalPages s } else s
  | .setViewMode analytics => { s with viewMode := if analytics then "analytics" else "table" }
  | .setAutoRefresh b => { s with autoRefresh := b }

/-- The state once the component has mounted: the effect on `token` has called `fetchLogs`
and the effect on `sortConfig` has run `applyFilters` on the empty list. -/
def mountedState (env : Env) (now : Int) : State :=
  orKeep (fetchLogsStart initialState) (applyFilters env now (fetchLogsStart initialState))

/-- States the mounted component can be in. -/
inductive Reachable (env : Env) : State → Prop where
  | mount (now : Int) : Reachable env (mountedState env now)
  | step (ev : Event) (s : State) : Reachable env s → Reachable env (step env ev s)

/-! ## Example data -/

/-- Clock reading 2024-03-10T00:00:00Z. -/
def exNow : Int := 1710028800000

/-- An administrator signing in on 1 March 2024. -/
def exAdminLogin : Entry where
  id := .num 1
  timestamp := .str "2024-03-01T09:00:00Z"
  user_name := .str "alice"
  userName := .undefined
  role := .str "ADMIN"
  action := .str "LOGIN"
  details := .str "Signed in"

/-- An HR user updating a claim on 2 March 2024, without details. -/
def exHrUpdate : Entry where
  id := .num 2
  timestamp := .str "2024-03-02T10:30:00Z"
  user_name := .str "bob"
  userName := .undefined
  role := .str "HR"
  action := .str "UPDATE_CLAIM"
  details := .null

/-- An administrator signing out on 3 March 2024, the `details` key missing. -/
def exAdminLogout : Entry where
  id := .num 3
  timestamp := .str "2024-03-03T08:15:00Z"
  user_name := .str "carol"
  userName := .undefined
  role := .str "ADMIN"
  action := .str "LOGOUT"
  details := .undefined

/-- The raw list of the role scenario: roles ADMIN, HR, ADMIN. -/
def exLogs : List Entry := [exAdminLogin, exHrUpdate, exAdminLogout]

/-- The filter fields after mount: no role, action or search filter, last 30 days, latest
first. -/
def exFilters : FilterState := ⟨"", "", "30", "", ⟨"timestamp", "desc"⟩⟩

/-- The component after mount and a first successful fetch of `exLogs`. -/
def exLoaded : State :=
  step isoEnv (.fetchSettle (some exLogs)) (mountedState isoEnv exNow)

/-- The loaded component after the user has picked All Time and the role HR, before any
click on Apply Filters. -/
def exEdited : State :=
  step isoEnv (.setFilterRole "HR") (step isoEnv (.setDateRange "all") exLoaded)

/-- The finite choices of the Date Range select, each `value` with the number of days it
stands for. -/
def finiteDateRanges : List (String × Int) :=
  [("1", 1), ("7", 7), ("30", 30), ("90", 90)]

/-- An entry whose timestamp is not a date. -/
def exUndated : Entry where
  id := .num 4
  timestamp := .str "not-a-date"
  user_name := .str "dave"
  userName := .undefined
  role := .str "AGENT"
  action := .str "VIEW_CLAIMS"
  details := .null

/-- Two different entries recorded at the same instant. -/
def exTwinA : Entry where
  id := .num 10
  timestamp := .str "2024-03-05T12:00:00Z"
  user_name := .str "erin"
  userName := .undefined
  role := .str "AGENT"
  action := .str "LOGIN"
  details := .null

/-- The second entry of that instant. -/
def exTwinB : Entry where
  id := .num 11
  timestamp := .str "2024-03-05T12:00:00Z"
  user_name := .str "frank"
  userName := .undefined
  role := .str "EMPLOYEE"
  action := .str "LOGIN"
  details := .null

/-- The filter fields with the sort direction replaced. -/
def FilterState.withDirection (f : FilterState) (direction : String) : FilterState :=
  { f with sortConfig := ⟨"timestamp", direction⟩ }

/-- The trimmed user name an entry contributes to the specification's set of users: none
for an absent or non-string name and for a name that is empty after trimming. -/
def namedUser (e : Entry) : Option String :=
  match e.user_name with
  | .str s => if jsTrim s = "" then none else some (jsTrim s)
  | _ => none

/-- Sixteen entries, one more than a page holds. -/
def exSixteen : List Entry :=
  (List.range 16).map fun i => { exAdminLogin with id := .num i }

/-- The component on page 2 of 2: after mount, sixteen entries have been fetched and the user
has clicked Next. -/
def exPageTwo : State :=
  step isoEnv .pageNext (step isoEnv (.fetchSettle (some exSixteen)) (mountedState isoEnv exNow))

/-- Thirty-seven entries, numbered 1 to 37 in their `id`. -/
def exThirtySeven : List Entry :=
  (List.range 37).map fun i => { exAdminLogin with id := .num (i + 1) }

/-- The component after mount and a fetch of the thirty-seven entries. -/
def exThreePages : State :=
  step isoEnv (.fetchSettle (some exThirtySeven)) (mountedState isoEnv exNow)

/-- An entry whose action code is the word `constructor`. -/
def exInheritedAction : Entry :=
  { exAdminLogin with action := .str "constructor" }

/-- An entry whose role label is the word `__proto__`. -/
def exInheritedRole : Entry :=
  { exAdminLogin with role := .str "__proto__" }

/-- An entry whose user name is the word `constructor`. -/
def exInheritedUser : Entry :=
  { exAdminLogin with user_name := .str "constructor" }

/-- An entry whose user name is the word `__proto__`. -/
def exProtoUser : Entry :=
  { exAdminLogin with user_name := .str "__proto__" }

/-- An entry without an action: the backend sent `null`. -/
def exNoAction : Entry :=
  { exAdminLogin with action := .null }

/-- The loaded component whose raw list holds the entry without an action, when the user has
typed `login` into the Action Type input. -/
def exActionTyped : State :=
  step isoEnv (.setFilterAction "login")
    (step isoEnv (.fetchSettle (some [exNoAction, exHrUpdate])) (mountedState isoEnv exNow))

/-- Clock reading 2024-03-31T23:30:00Z, which is 01:30 on Monday 1 April in the zone of
`summerEnv`, the night after the clocks went forward. -/
def summerNow : Int := 1711927800000

/-- An entry recorded at noon UTC on Sunday 31 March 2024. -/
def exSummerEntry : Entry :=
  { exAdminLogin with timestamp := .str "2024-03-31T12:00:00Z" }

/-- The number a counting object holds for a key: 0 for a key it does not have or whose
value is text. -/
def countOf : CountObj → String → Nat
  | [], _ => 0
  | (k1, v) :: rest, k =>
    if k1 = k then
      match v with
      | .num n => n
      | .text => 0
    else countOf rest k

/-- The number in a count, 0 for text. -/
def CountVal.toNat : CountVal → Nat
  | .num n => n
  | .text => 0

/-- Every value of the counting object is a positive number. -/
def AllCounts (o : CountObj) : Prop :=
  ∀ p ∈ o, ∃ n, 0 < n ∧ p.2 = CountVal.num n

/-- The counting object holds, for the keys `ks` counted so far, each key once with the
number of its occurrences. -/
def Counts (o : CountObj) (ks : List String) : Prop :=
  (o.map Prod.fst).Nodup ∧ AllCounts o ∧ (∀ k, k ∈ o.map Prod.fst ↔ k ∈ ks) ∧
    ∀ k, countOf o k = ks.count k

/-! ## Pagination controls, CSV export and the cells that show the user name -/

/-- The page numbers of the numbered buttons, in the order the loop
`for (let i = startPage; i <= endPage; i++)` pushes them. -/
def pageNumbers (currentPage totalPages : Int) : List Int :=
  let startPage := max 1 (currentPage - 2)
  let endPage := min totalPages (currentPage + 2)
  (List.range (endPage - startPage + 1).toNat).map fun (k : Nat) => startPage + (k : Int)

/-- The page numbers of the numbered buttons the component renders: the loop runs inside the
pagination block, which is rendered in the table view, when not loading, for a non-empty
filtered list with `totalPages > 1`. -/
def renderedPageNumbers (s : State) : List Int :=
  if paginationShown s then pageNumbers s.currentPage (totalPages s) else []

/-- The current page is one of the pages of the filtered list. -/
def PageInRange (s : State) : Prop :=
  1 ≤ s.currentPage ∧ s.currentPage ≤ totalPages s

/-- One element of `csvHeaders`: the column title and the key the column reads. -/
structure CsvHeader where
  label : String
  key : String
  deriving DecidableEq, Repr

/-- The constant `csvHeaders`. -/
def csvHeaders : List CsvHeader :=
  [⟨"Timestamp", "timestamp"⟩, ⟨"User Name", "user_name"⟩, ⟨"Role", "role"⟩,
    ⟨"Action", "action"⟩, ⟨"Details", "details"⟩]

/-- Value of `log[key]` for a key an entry can carry; any other key reads as `undefined`. -/
def Entry.get (log : Entry) (key : String) : JsVal :=
  if key = "id" then log.id
  else if key = "timestamp" then log.timestamp
  else if key = "user_name" then log.user_name
  else if key = "userName" then log.userName
  else if key = "role" then log.role
  else if key = "action" then log.action
  else if key = "details" then log.details
  else .undefined

/-- The props `data`, `headers` and `filename` of the `CSVLink` element. -/
structure CsvLinkProps where
  data : List Entry
  headers : List CsvHeader
  filename : String
  deriving DecidableEq, Repr

/-- The props the component passes to `CSVLink` in a render at clock time `now`. -/
def csvLink (now : Int) (s : State) : CsvLinkProps where
  data := s.filteredList
  headers := csvHeaders
  filename := "audit_logs_" ++ isoDate now ++ ".csv"

/-- The cells of the row the export derives from an entry: one read of `log[key]` per header. -/
def csvRow (headers : List CsvHeader) (log : Entry) : List JsVal :=
  headers.map fun h => log.get h.key

/-- Truthiness of a value, as `||` and `&&` test it. -/
def JsVal.truthy : JsVal → Bool
  | .undefined => false
  | .null => false
  | .bool b => b
  | .num n => decide (n ≠ 0)
  | .str s => decide (s ≠ "")

/-- The user cell of a table row: `{log.userName || 'Unknown User'}`. -/
def rowUserName (log : Entry) : JsVal :=
  if log.userName.truthy then log.userName else .str "Unknown User"

/-- The USER NAME field of the detail view: `{selectedLog.user_name}`. -/
def detailUserName (selectedLog : Entry) : JsVal :=
  selectedLog.user_name

/-- The component on page 2 of the sixteen entries when a refresh brings the three entries of
`exLogs`. -/
def exShrunk : State :=
  step isoEnv (.fetchSettle (some exLogs)) (step isoEnv .fetchStart exPageTwo)

/-- An entry as a backend that writes the name under the key `userName` sends it. -/
def exCamelUser : Entry :=
  { exAdminLogin with user_name := .undefined, userName := .str "alice" }

/-- The filter fields of a search for `term` alone: no role or action filter, all time. -/
def searchOnly (term : String) : FilterState :=
  ⟨"", "", "all", term, ⟨"timestamp", "desc"⟩⟩

/-! ## Regular expressions

The patterns of the forms use character classes, concatenation, groups and the quantifiers
`*`, `+`, `{n}` and `{n,}`, with no backreference and no look-around, so `test` succeeds
exactly when some way of reading the string along the pattern does. The engine reads a string
by UTF-16 code units: a character outside the Basic Multilingual Plane is two code units,
neither of which is in a class listed here and both of which are in the complement of one, so
reading such a string by characters gives the same result on these patterns. -/

/-- A character class `[...]`: the ranges listed between the brackets (a single character
is a range of one), complemented for `[^...]`. -/
structure CharClass where
  ranges : List (Char × Char)
  negated : Bool
  deriving DecidableEq, Repr

/-- The character is in the class. -/
def CharClass.test (k : CharClass) (c : Char) : Bool :=
  (k.ranges.any fun r => decide (r.1.toNat ≤ c.toNat ∧ c.toNat ≤ r.2.toNat)) != k.negated

/-- The body of a pattern. -/
inductive Regex where
  /-- Matches no string: what is left of a pattern after a character it does not allow. -/
  | never
  /-- Matches the empty string only. -/
  | empty
  | cls (k : CharClass)
  | seq (a b : Regex)
  | alt (a b : Regex)
  | star (a : Regex)
  deriving DecidableEq, Repr

/-- The pattern `a+`. -/
def Regex.plus (a : Regex) : Regex :=
  .seq a (.star a)

/-- The pattern `a{n}`. -/
def Regex.times : Nat → Regex → Regex
  | 0, _ => .empty
  | n + 1, a => .seq a (Regex.times n a)

/-- The pattern `a{n,}`. -/
def Regex.atLeast : Nat → Regex → Regex
  | 0, a => .star a
  | n + 1, a => .seq a (Regex.atLeast n a)

/-- The pattern of one literal character. -/
def Regex.chr (c : Char) : Regex :=
  .cls ⟨[(c, c)], false⟩

/-- The pattern matches the empty string. -/
def Regex.nullable : Regex → Bool
  | .never => false
  | .empty => true
  | .cls _ => false
  | .seq a b => a.nullable && b.nullable
  | .alt a b => a.nullable || b.nullable
  | .star _ => true

/-- What is left of the pattern once the character `c` has been read. -/
def Regex.deriv : Regex → Char → Regex
  | .never, _ => .never
  | .empty, _ => .never
  | .cls k, c => if k.test c then .empty else .never
  | .seq a b, c =>
    if a.nullable then .alt (.seq (a.deriv c) b) (b.deriv c) else .seq (a.deriv c) b
  | .alt a b, c => .alt (a.deriv c) (b.deriv c)
  | .star a, c => .seq (a.deriv c) (.star a)

/-- The pattern matches the whole of the string. -/
def Regex.matches (r : Regex) : List Char → Bool
  | [] => r.nullable
  | c :: s => (r.deriv c).matches s

/-- The pattern matches some initial part of the string. -/
def Regex.matchesStart (r : Regex) : List Char → Bool
  | [] => r.nullable
  | c :: s => r.nullable || (r.deriv c).matchesStart s

/-- The pattern matches some part of the string, starting at any position. -/
def Regex.search (r : Regex) : List Char → Bool
  | [] => r.nullable
  | c :: s => r.matchesStart (c :: s) || r.search s

/-- Result of `/^body$/.test(s)`. -/
def testAnchored (body : Regex) (s : String) : Bool :=
  body.matches s.data

/-- Result of `/body/.test(s)`. -/
def testAnywhere (body : Regex) (s : String) : Bool :=
  body.search s.data

/-- Result of `s.replace(/k/g, '')` for a character class `k`: every character of the class
is removed. -/
def removeAll (k : CharClass) (s : String) : List Char :=
  s.data.filter fun c => !k.test c

/-- The class `\d`. -/
def digitClass : CharClass := ⟨[('0', '9')], false⟩

/-- The class `\D`. -/
def nonDigitClass : CharClass := ⟨[('0', '9')], true⟩

/-- Value of `s.length`: the number of UTF-16 code units. -/
def jsLength (s : String) : Nat :=
  (s.data.map fun c => if c.toNat < 65536 then 1 else 2).sum

/-! ## JSON values -/

/-- A value `JSON.parse` can return. Numbers are the integer-valued ones; the fields of an
object are in the order of their keys, each key once. -/
inductive Json where
  | null
  | bool (b : Bool)
  | num (n : Int)
  | str (s : String)
  | arr (items : List Json)
  | obj (fields : List (String × Json))

/-- Truthiness of a parsed value. -/
def Json.truthy : Json → Bool
  | .null => false
  | .bool b => b
  | .num n => decide (n ≠ 0)
  | .str s => decide (s ≠ "")
  | .arr _ => true
  | .obj _ => true

/-- Value of `v.key` or `v?.key` on a parsed value for a key that no prototype defines and
that is neither `length` nor an index (`email`, `password`, `message`, `token`, `agentId`,
`name`): the field of an object, `none` (that is `undefined`) in every other case. -/
def Json.field (v : Json) (key : String) : Option Json :=
  match v with
  | .obj fields => fields.lookup key
  | _ => none

/-- A value a state variable or a storage call can receive: `undefined`, a parsed value, or
a built-in function. -/
inductive Val where
  | undefined
  | json (v : Json)
  | builtin (name : String)

/-- Truthiness of a value. -/
def Val.truthy : Val → Bool
  | .undefined => false
  | .json v => v.truthy
  | .builtin _ => true

/-- Result of `a || b`. -/
def Val.or (a b : Val) : Val :=
  if a.truthy then a else b

/-- An optional parsed value as a value: `none` is `undefined`. -/
def Val.ofOption : Option Json → Val
  | some v => .json v
  | none => .undefined

/-! ## A reader for JSON texts

`JSON.parse` is a parameter of the handlers below. `parseJson` is a reader that agrees with it
on the texts it accepts: `null`, `true`, `false`, integers, strings with the simple escapes,
arrays and objects without a repeated key. It rejects the texts that need fractions, exponents
or `\\u` escapes; the examples do not use them. -/

/-- White space between JSON tokens. -/
def isJsonSpace (c : Char) : Bool :=
  c = ' ' || c = '\t' || c = '\n' || c = '\r'

/-- The characters of a string token after its opening quote, and the rest of the text. -/
def readJsonString : List Char → Option (List Char × List Char)
  | [] => none
  | '"' :: rest => some ([], rest)
  | '\\' :: e :: rest =>
    let c : Option Char :=
      if e = '"' then some '"' else if e = '\\' then some '\\' else if e = '/' then some '/'
      else if e = 'n' then some '\n' else if e = 't' then some '\t'
      else if e = 'r' then some '\r' else if e = 'b' then some (Char.ofNat 8)
      else if e = 'f' then some (Char.ofNat 12) else none
    match c, readJsonString rest with
    | some c, some (s, rest1) => some (c :: s, rest1)
    | _, _ => none
  | c :: rest =>
    if c.toNat < 32 ∨ c = '\\' then none
    else (readJsonString rest).map fun p => (c :: p.1, p.2)

/-- An integer token: an optional minus sign and digits without a leading zero. -/
def readJsonNumber (cs : List Char) : Option (Int × List Char) :=
  let negative := cs.head? = some '-'
  let body := if negative then cs.drop 1 else cs
  let digits := body.takeWhile Char.isDigit
  let rest := body.dropWhile Char.isDigit
  if digits = [] ∨ (digits.head? = some '0' ∧ digits.length ≠ 1) then none
  else if rest.head? = some '.' ∨ rest.head? = some 'e' ∨ rest.head? = some 'E' then none
  else
    match decimal digits with
    | some n => some (if negative then -(n : Int) else (n : Int), rest)
    | none => none

/-- The elements of an array after the first one, up to the closing bracket. -/
def readJsonItems (value : List Char → Option (Json × List Char)) :
    Nat → List Char → Option (List Json × List Char)
  | 0, _ => none
  | n + 1, cs =>
    match cs.dropWhile isJsonSpace with
    | ']' :: rest => some ([], rest)
    | ',' :: rest =>
      match value rest with
      | some (v, rest1) => (readJsonItems value n rest1).map fun p => (v :: p.1, p.2)
      | none => none
    | _ => none

/-- One `"key": value` member of an object. -/
def readJsonMember (value : List Char → Option (Json × List Char)) (cs : List Char) :
    Option ((String × Json) × List Char) :=
  match cs.dropWhile isJsonSpace with
  | '"' :: rest =>
    match readJsonString rest with
    | some (k, rest1) =>
      match rest1.dropWhile isJsonSpace with
      | ':' :: rest2 => (value rest2).map fun p => ((String.mk k, p.1), p.2)
      | _ => none
    | none => none
  | _ => none

/-- The members of an object after the first one, up to the closing brace. -/
def readJsonMembers (value : List Char → Option (Json × List Char)) :
    Nat → List Char → Option (List (String × Json) × List Char)
  | 0, _ => none
  | n + 1, cs =>
    match cs.dropWhile isJsonSpace with
    | '}' :: rest => some ([], rest)
    | ',' :: rest =>
      match readJsonMember value rest with
      | some (m, rest1) => (readJsonMembers value n rest1).map fun p => (m :: p.1, p.2)
      | none => none
    | _ => none

/-- One JSON value at the start of the text, with nesting up to `depth`. -/
def readJsonValue : Nat → List Char → Option (Json × List Char)
  | 0, _ => none
  | depth + 1, cs =>
    match cs.dropWhile isJsonSpace with
    | 'n' :: 'u' :: 'l' :: 'l' :: rest => some (.null, rest)
    | 't' :: 'r' :: 'u' :: 'e' :: rest => some (.bool true, rest)
    | 'f' :: 'a' :: 'l' :: 's' :: 'e' :: rest => some (.bool false, rest)
    | '"' :: rest => (readJsonString rest).map fun p => (.str (String.mk p.1), p.2)
    | '[' :: rest =>
      match rest.dropWhile isJsonSpace with
      | ']' :: rest1 => some (.arr [], rest1)
      | _ =>
        match readJsonValue depth rest with
        | some (v, rest1) =>
          (readJsonItems (readJsonValue depth) rest1.length.succ rest1).map fun p =>
            (.arr (v :: p.1), p.2)
        | none => none
    | '{' :: rest =>
      match rest.dropWhile isJsonSpace with
      | '}' :: rest1 => some (.obj [], rest1)
      | _ =>
        match readJsonMember (readJsonValue depth) rest with
        | some (m, rest1) =>
          match readJsonMembers (readJsonValue depth) rest1.length.succ rest1 with
          | some (ms, rest2) =>
            if ((m :: ms).map Prod.fst).Nodup then some (.obj (m :: ms), rest2) else none
          | none => none
        | none => none
    | rest => (readJsonNumber rest).map fun p => (.num p.1, p.2)

/-- The value of a JSON text; `none` for a text that is not read (for `JSON.parse`, a
`SyntaxError`). -/
def parseJson (text : String) : Option Json :=
  match readJsonValue text.data.length.succ text.data with
  | some (v, rest) => if rest.all isJsonSpace then some v else none
  | none => none

/-! ## The agent login form (`AgentLogin.jsx`) -/

/-- The class `[a-zA-Z0-9._%+-]`. -/
def localPartClass : CharClass :=
  ⟨[('a', 'z'), ('A', 'Z'), ('0', '9'), ('.', '.'), ('_', '_'), ('%', '%'), ('+', '+'),
    ('-', '-')], false⟩

/-- The class `[a-zA-Z]`. -/
def letterClass : CharClass := ⟨[('a', 'z'), ('A', 'Z')], false⟩

/-- The class `[a-zA-Z0-9-]`. -/
def labelClass : CharClass := ⟨[('a', 'z'), ('A', 'Z'), ('0', '9'), ('-', '-')], false⟩

/-- The class `[a-zA-Z0-9.-]`. -/
def domainClass : CharClass :=
  ⟨[('a', 'z'), ('A', 'Z'), ('0', '9'), ('.', '.'), ('-', '-')], false⟩

/-- Body of the pattern of the login form,
`^[a-zA-Z0-9._%+-]+@[a-zA-Z][a-zA-Z0-9-]*(\.[a-zA-Z]{2,})+$`. -/
def AgentLogin.emailPattern : Regex :=
  .seq (.plus (.cls localPartClass))
    (.seq (.chr '@')
      (.seq (.cls letterClass)
        (.seq (.star (.cls labelClass))
          (.plus (.seq (.chr '.') (.atLeast 2 (.cls letterClass)))))))

/-- The function `validateEmail` of the login form. -/
def AgentLogin.validateEmail (email : String) : Bool :=
  testAnchored AgentLogin.emailPattern email

/-- The `useState` variables of the login form. The two error variables hold a string, or
whatever truthy value the response body carried. -/
structure LoginState where
  email : String
  password : String
  errorEmail : Json
  errorPassword : Json
  loading : Bool
  showPassword : Bool

/-- The state built by the `useState` initialisers of the login form. -/
def initialLoginState : LoginState :=
  ⟨"", "", .str "", .str "", false, false⟩

/-- The JSON body of the login request. -/
structure LoginRequest where
  email : String
  password : String
  deriving DecidableEq, Repr

/-- How the `fetch` of the login request ends: the promise rejects, or a response arrives
with a status and a body text. -/
inductive LoginResponse where
  | networkError
  | http (status : Nat) (text : String)
  deriving DecidableEq, Repr

/-- What a call of `handleLogin` leaves behind: the state after its setter calls, the request
it issued if any, its writes to `localStorage` in order (each value as passed, before the
store turns it into a string) and the route it navigated to. -/
structure LoginOutcome where
  state : LoginState
  request : Option LoginRequest
  stored : List (String × Val)
  navigated : Option String

/-- The state after the inner `try` block on the body text of a failed response: the setter
calls for the fields `email` and `password` of the parsed body, none when `JSON.parse`
throws. -/
def showFieldErrors (jsonParse : String → Option Json) (text : String) (s : LoginState) :
    LoginState :=
  match jsonParse text with
  | some parsed =>
    let s1 := if (Val.ofOption (parsed.field "email")).truthy then
        { s with errorEmail := (parsed.field "email").getD .null }
      else s
    if (Val.ofOption (parsed.field "password")).truthy then
      { s1 with errorPassword := (parsed.field "password").getD .null }
    else s1
  | none => s

/-- Value of the local `serverError` after the inner `try` and its `catch`:
`parsed?.message || parsed || text`, or `text || "Something went wrong. Please try again."`
when `JSON.parse` throws. -/
def serverError (jsonParse : String → Option Json) (text : String) : Json :=
  match jsonParse text with
  | some parsed =>
    if (Val.ofOption (parsed.field "message")).truthy then (parsed.field "message").getD .null
    else if parsed.truthy then parsed
    else .str text
  | none =>
    if text ≠ "" then .str text else .str "Something went wrong. Please try again."

/-- The function `handleLogin`, run to its end on the form state `s` of the render whose
submit handler it is, with the outcome `response` of its request. The names `errorEmail` and
`errorPassword` in its body are constants of that render: they read `s`, whatever setter has
been called since. -/
def handleLogin (env : Env) (jsonParse : String → Option Json) (response : LoginResponse)
    (s : LoginState) : LoginOutcome :=
  let s1 : LoginState :=
    { s with loading := true, errorEmail := .str "", errorPassword := .str "" }
  if !AgentLogin.validateEmail s.email then
    ⟨{ s1 with errorEmail := .str "Please enter a valid email address", loading := false },
      none, [], none⟩
  else
    let request : LoginRequest := ⟨env.toLowerCase (jsTrim s.email), s.password⟩
    let caught : LoginOutcome :=
      ⟨{ s1 with
          errorPassword := .str "Network error. Please try again later.", loading := false },
        some request, [], none⟩
    match response with
    | .networkError => caught
    | .http status text =>
      if 200 ≤ status ∧ status ≤ 299 then
        match jsonParse text with
        | none => caught
        | some .null => caught
        | some data =>
          ⟨{ s1 with loading := false }, some request,
            [("token", (Val.ofOption (data.field "token")).or (.json (.str ""))),
              ("role", .json (.str "AGENT")),
              ("agentId", Val.ofOption (data.field "agentId")),
              ("agentName", Val.ofOption (data.field "name"))],
            some "/agent/dashboard"⟩
      else
        let s2 := showFieldErrors jsonParse text s1
        let s3 :=
          if !s.errorEmail.truthy && !s.errorPassword.truthy then
            if status = 401 then { s2 with errorPassword := .str "Invalid password." }
            else if status = 404 then { s2 with errorEmail := .str "Agent not found." }
            else { s2 with errorPassword := serverError jsonParse text }
          else s2
        ⟨{ s3 with loading := false }, some request, [], none⟩

/-! ## The HR registration form (`HRRegister.jsx`) -/

/-- Body of the pattern of the registration form,
`^[a-zA-Z0-9._%+-]+@[a-zA-Z0-9.-]+\.[a-zA-Z]{2,}$`. -/
def HrRegister.emailPattern : Regex :=
  .seq (.plus (.cls localPartClass))
    (.seq (.chr '@')
      (.seq (.plus (.cls domainClass))
        (.seq (.chr '.') (.atLeast 2 (.cls letterClass)))))

/-- The function `validateEmail` of the registration form. -/
def HrRegister.validateEmail (email : String) : Bool :=
  testAnchored HrRegister.emailPattern email

/-- Body of the pattern `^[6-9]\d{9}$`. -/
def phonePattern : Regex :=
  .seq (.cls ⟨[('6', '9')], false⟩) (.times 9 (.cls digitClass))

/-- The function `validatePhone`. -/
def validatePhone (phone : String) : Bool :=
  phonePattern.matches (removeAll nonDigitClass phone)

/-- The object `newHr`. -/
structure NewHr where
  name : String
  email : String
  phoneNumber : String
  hrId : String
  password : String
  deriving DecidableEq, Repr

/-- The `useState` variables of the registration form. `success` and `error` hold a string,
or whatever truthy value the response carried. -/
structure HrState where
  newHr : NewHr
  success : Json
  error : Json
  loading : Bool
  showPassword : Bool
  passwordStrength : Nat

/-- The state built by the `useState` initialisers of the registration form. -/
def initialHrState : HrState :=
  ⟨⟨"", "", "", "", ""⟩, .str "", .str "", false, false, 0⟩

/-- The function `checkPasswordStrength`. -/
def checkPasswordStrength (password : String) (s : HrState) : HrState :=
  let strength := 0
  let strength := if jsLength password ≥ 8 then strength + 25 else strength
  let strength :=
    if testAnywhere (.cls ⟨[('A', 'Z')], false⟩) password then strength + 25 else strength
  let strength :=
    if testAnywhere (.cls ⟨[('0', '9')], false⟩) password then strength + 25 else strength
  let strength :=
    if testAnywhere (.cls ⟨[('A', 'Z'), ('a', 'z'), ('0', '9')], true⟩) password then
      strength + 25
    else strength
  { s with passwordStrength := strength }

/-- The function `getPasswordStrengthText`. -/
def getPasswordStrengthText (s : HrState) : String :=
  if s.passwordStrength ≥ 75 then "Strong"
  else if s.passwordStrength ≥ 50 then "Medium"
  else if s.passwordStrength ≥ 25 then "Weak"
  else "Very Weak"

/-- The function `getPasswordStrengthColor`; `themeColors.secondary` is `#8b0086ff`. -/
def getPasswordStrengthColor (s : HrState) : String :=
  if s.passwordStrength ≥ 75 then "#8b0086ff"
  else if s.passwordStrength ≥ 50 then "#ffc107"
  else if s.passwordStrength ≥ 25 then "#dc3545"
  else "#6c757d"

/-- The function `handlePhoneChange` on the text `e.target.value` of the input. The local
`value` holds digits only, one code unit each. -/
def handlePhoneChange (input : String) (s : HrState) : HrState :=
  let value := removeAll nonDigitClass input
  let value := if value.length > 10 then value.take 10 else value
  let formattedValue :=
    if value.length > 5 then String.mk (value.take 5) ++ " " ++ String.mk (value.drop 5)
    else String.mk value
  { s with newHr := { s.newHr with phoneNumber := formattedValue } }

/-- The function `handlePasswordChange` on the text of the input. -/
def handlePasswordChange (input : String) (s : HrState) : HrState :=
  checkPasswordStrength input { s with newHr := { s.newHr with password := input } }

/-- How the `axios.post` of the registration ends: it resolves with the body `data` of the
response, or rejects with `err.response?.data` (`none` is `undefined`). -/
inductive HrResponse where
  | resolved (data : Json)
  | rejected (data : Option Json)

/-- The registration request: the object `newHr` as body and the bearer token. -/
structure HrRequest where
  body : NewHr
  token : String
  deriving DecidableEq, Repr

/-- What a call of `handleRegisterHr` leaves behind: the state after its setter calls and
the request it issued if any. -/
structure HrOutcome where
  state : HrState
  request : Option HrRequest

/-- The function `handleRegisterHr`, run to its end on the form state `s`, with the value
`token` of `localStorage.getItem("token")` and the outcome `response` of its request. -/
def handleRegisterHr (token : Option String) (response : HrResponse) (s : HrState) :
    HrOutcome :=
  let s1 : HrState := { s with loading := true }
  if !HrRegister.validateEmail s.newHr.email then
    ⟨{ s1 with
        error := .str "⚠️ Please enter a valid email address (e.g., user@example.com).",
        loading := false }, none⟩
  else if !validatePhone s.newHr.phoneNumber then
    ⟨{ s1 with
        error := .str "⚠️ Please enter a valid 10-digit phone number.", loading := false }, none⟩
  else
    match token with
    | none =>
      ⟨{ s1 with error := .str "⚠️ Please login as Admin first.", loading := false }, none⟩
    | some t =>
      if t = "" then
        ⟨{ s1 with error := .str "⚠️ Please login as Admin first.", loading := false }, none⟩
      else
        match response with
        | .resolved data =>
          ⟨{ s1 with
              success := if data.truthy then data else .str "HR staff registered successfully!",
              error := .str "", newHr := ⟨"", "", "", "", ""⟩, passwordStrength := 0,
              loading := false }, some ⟨s.newHr, t⟩⟩
        | .rejected data =>
          ⟨{ s1 with
              error := if (Val.ofOption data).truthy then data.getD .null
                else .str "Failed to register HR staff",
              success := .str "", loading := false }, some ⟨s.newHr, t⟩⟩

/-! ## The employee profile (`EmployeeProfile.jsx`) -/

/-- Result of `s.split(sep)` for a separator of one character. -/
def jsSplit (sep : Char) : List Char → List (List Char)
  | [] => [[]]
  | c :: cs =>
    if c = sep then [] :: jsSplit sep cs
    else
      match jsSplit sep cs with
      | [] => [[c]]
      | seg :: rest => (c :: seg) :: rest

/-- Value of a character of the base64 alphabet. -/
def base64Value (c : Char) : Option Nat :=
  let n := c.toNat
  if 65 ≤ n ∧ n ≤ 90 then some (n - 65)
  else if 97 ≤ n ∧ n ≤ 122 then some (n - 71)
  else if 48 ≤ n ∧ n ≤ 57 then some (n + 4)
  else if c = '+' then some 62
  else if c = '/' then some 63
  else none

/-- The bytes of a run of six-bit values: three bytes for each four values; of a rest of
three values the last two bits are dropped, of a rest of two values the last four. -/
def base64Bytes : List Nat → List Nat
  | a :: b :: c :: d :: rest =>
    (a * 4 + b / 16) :: (b % 16 * 16 + c / 4) :: (c % 4 * 64 + d) :: base64Bytes rest
  | [a, b, c] => [a * 4 + b / 16, b % 16 * 16 + c / 4]
  | [a, b] => [a * 4 + b / 16]
  | _ => []

/-- Result of `atob(s)`, the bytes of the binary string it returns; `none` when it throws.
ASCII white space is removed, then one or two `=` at the end of a text whose length is a
multiple of four; what is left must be of the base64 alphabet and its length must not leave a
rest of one. -/
def atob (s : List Char) : Option (List Nat) :=
  let data := s.filter fun c => !(c = '\t' || c = '\n' || c.toNat = 12 || c = '\r' || c = ' ')
  let data :=
    if data.length % 4 = 0 then
      if data.reverse.take 2 = ['=', '='] then data.take (data.length - 2)
      else if data.reverse.take 1 = ['='] then data.take (data.length - 1)
      else data
    else data
  if data.length % 4 = 1 then none
  else (allSome (data.map base64Value)).map base64Bytes

/-- The callback `(c) => "%" + ("00" + c.charCodeAt(0).toString(16)).slice(-2)` on every byte
of the binary string, joined. -/
def percentEncode (bytes : List Nat) : List Char :=
  (bytes.map fun b => ['%', Nat.digitChar (b / 16), Nat.digitChar (b % 16)]).flatten

/-- One escape `%hh` at the start of the text: its byte and the rest. -/
def readEscape : List Char → Option (Nat × List Char)
  | '%' :: h :: l :: rest =>
    match digitValue 16 h, digitValue 16 l with
    | some a, some b => some (a * 16 + b, rest)
    | _, _ => none
  | _ => none

/-- The `k` continuation bytes of a UTF-8 sequence, each written as an escape, added to the
bits `acc` read so far. -/
def readContinuation : Nat → Nat → List Char → Option (Nat × List Char)
  | 0, acc, cs => some (acc, cs)
  | k + 1, acc, cs =>
    match readEscape cs with
    | some (b, rest) =>
      if 128 ≤ b ∧ b < 192 then readContinuation k (acc * 64 + b % 64) rest else none
    | none => none

/-- The character of a UTF-8 sequence with lead byte `b`, and the rest of the text; `none`
when the sequence is malformed, overlong, a surrogate or beyond U+10FFFF. -/
def readSequence (b : Nat) (cs : List Char) : Option (Char × List Char) :=
  if b < 128 then some (Char.ofNat b, cs)
  else if b < 192 then none
  else if b < 224 then
    match readContinuation 1 (b % 32) cs with
    | some (n, rest) => if 128 ≤ n then some (Char.ofNat n, rest) else none
    | none => none
  else if b < 240 then
    match readContinuation 2 (b % 16) cs with
    | some (n, rest) =>
      if 2048 ≤ n ∧ ¬ (55296 ≤ n ∧ n ≤ 57343) then some (Char.ofNat n, rest) else none
    | none => none
  else if b < 248 then
    match readContinuation 3 (b % 8) cs with
    | some (n, rest) => if 65536 ≤ n ∧ n ≤ 1114111 then some (Char.ofNat n, rest) else none
    | none => none
  else none

/-- Result of `decodeURIComponent(s)` read from the start with `fuel` steps; `none` when it
throws a `URIError`. -/
def decodeFrom : Nat → List Char → Option (List Char)
  | 0, _ => none
  | _ + 1, [] => some []
  | fuel + 1, c :: cs =>
    if c = '%' then
      match readEscape (c :: cs) with
      | some (b, rest) =>
        match readSequence b rest with
        | some (ch, rest1) => (decodeFrom fuel rest1).map fun r => ch :: r
        | none => none
      | none => none
    else (decodeFrom fuel cs).map fun r => c :: r

/-- Result of `decodeURIComponent(s)`. -/
def decodeURIComponent (s : List Char) : Option (List Char) :=
  decodeFrom s.length.succ s

/-- The function `parseJwt`: the parsed payload, `null` from the `catch` when a step throws.
A token without a second segment makes `base64Url` `undefined`, and the call of `replace`
on it throws. -/
def parseJwt (jsonParse : String → Option Json) (token : String) : Json :=
  match (jsSplit '.' token.data).get? 1 with
  | none => .null
  | some base64Url =>
    let base64 := (base64Url.map fun c => if c = '-' then '+' else c).map fun c =>
      if c = '_' then '/' else c
    match atob base64 with
    | none => .null
    | some bytes =>
      match decodeURIComponent (percentEncode bytes) with
      | none => .null
      | some jsonPayload =>
        match jsonParse (String.mk jsonPayload) with
        | none => .null
        | some payload => payload

/-- Value of `payload?.sub`: `undefined` for `null`, the field of an object, the method
`String.prototype.sub` for a string (every string inherits it), and `undefined` for a number,
a boolean or an array, whose prototypes define no `sub`. -/
def readSub (payload : Json) : Val :=
  match payload with
  | .str _ => .builtin "String.prototype.sub"
  | v => Val.ofOption (v.field "sub")

/-- The object `employeeData`. -/
structure EmployeeData where
  name : String
  email : Val
  employeeId : String

/-- The effect that loads the profile, with the values `localStorage.getItem` returns for
`token`, `name` and `employeeId` (`none` is `null`). -/
def loadEmployeeData (jsonParse : String → Option Json) (token name employeeId : Option String) :
    EmployeeData :=
  let email : Val :=
    match token with
    | none => .json (.str "")
    | some t =>
      if t ≠ "" then (readSub (parseJwt jsonParse t)).or (.json (.str ""))
      else .json (.str "")
  { name := if name.getD "" ≠ "" then name.getD "" else "Unknown"
    email := email.or (.json (.str "Not available"))
    employeeId := if employeeId.getD "" ≠ "" then employeeId.getD "" else "N/A" }

/-! ## The password requirements as the form words them -/

/-- The requirement "8+ characters": the length of the password is at least 8. -/
def longEnough (password : String) : Bool :=
  decide (8 ≤ jsLength password)

/-- The requirement "Uppercase letter": the password contains a letter from A to Z. -/
def hasUppercase (password : String) : Bool :=
  password.data.any fun c => decide ('A'.toNat ≤ c.toNat ∧ c.toNat ≤ 'Z'.toNat)

/-- The requirement "Number": the password contains a digit from 0 to 9. -/
def hasNumber (password : String) : Bool :=
  password.data.any fun c => decide ('0'.toNat ≤ c.toNat ∧ c.toNat ≤ '9'.toNat)

/-- The requirement "Special character": the password contains a character that is not a
letter from A to Z or from a to z and not a digit. -/
def hasSpecial (password : String) : Bool :=
  password.data.any fun c =>
    decide (¬ ('A'.toNat ≤ c.toNat ∧ c.toNat ≤ 'Z'.toNat) ∧
      ¬ ('a'.toNat ≤ c.toNat ∧ c.toNat ≤ 'z'.toNat) ∧
      ¬ ('0'.toNat ≤ c.toNat ∧ c.toNat ≤ '9'.toNat))

/-- Number of the four requirements a password meets. -/
def requirementsMet (password : String) : Nat :=
  (if longEnough password then 1 else 0) + (if hasUppercase password then 1 else 0) +
    (if hasNumber password then 1 else 0) + (if hasSpecial password then 1 else 0)

/-- The character is one of the digits 6, 7, 8 and 9. -/
def isSixToNine (c : Char) : Bool :=
  decide ('6'.toNat ≤ c.toNat ∧ c.toNat ≤ '9'.toNat)

/-! ## Example data of the forms and the profile -/

/-- The login form with a well-formed address typed in and no message shown. -/
def exLoginForm : LoginState :=
  { initialLoginState with email := "Agent@Example.com", password := "secret" }

/-- The login form after a first attempt that the backend answered with 401 and an empty
body. -/
def exAfterRejection : LoginState :=
  (handleLogin isoEnv parseJson (.http 401 "") exLoginForm).state

/-- A registration form filled in with a phone number that starts with 1. -/
def exHrForm : HrState :=
  handlePhoneChange "1234567890"
    { initialHrState with newHr := ⟨"Asha", "asha@example.com", "", "HR7", "Secret12"⟩ }

/-- A token whose payload segment is the base64url text of `\x7b"sub":"a@b.io"\x7d`. -/
def exToken : String := "e30.eyJzdWIiOiJhQGIuaW8ifQ.sig"

/-- A token whose payload segment is the base64url text of the JSON string `"abc"`. -/
def exTextToken : String := "e30.ImFiYyI.sig"

/-! ## Lemmas: `filterE` -/

theorem jsError_eq (x y : JsError) : x = y := by
  cases x; cases y; rfl

theorem filterE_cons {α : Type} (p : α → Except JsError Bool) (a : α) (l : List α) :
    filterE p (a :: l) =
      (p a).bind fun b => (filterE p l).map fun r => if b then a :: r else r := by
  simp only [filterE]
  cases p a with
  | error e => rfl
  | ok b => cases filterE p l <;> rfl

theorem filterE_pure {α : Type} (q : α → Bool) (l : List α) :
    filterE (fun a => .ok (q a)) l = .ok (l.filter q) := by
  induction l with
  | nil => rfl
  | cons a l ih =>
    rw [filterE_cons, ih]
    cases h : q a <;> simp [Except.bind, Except.map, List.filter_cons, h]

theorem filterE_eq_ok_iff {α : Type} (p : α → Except JsError Bool) (l r : List α) :
    filterE p l = .ok r ↔
      (∀ a ∈ l, ∃ b, p a = .ok b) ∧ r = l.filter fun a => okTrue (p a) := by
  induction l generalizing r with
  | nil => simp [filterE, eq_comm]
  | cons a l ih =>
    rw [filterE_cons]
    cases hp : p a with
    | error e =>
      simp only [Except.bind]
      constructor
      · intro h; cases h
      · rintro ⟨hall, -⟩
        obtain ⟨b, hb⟩ := hall a (List.mem_cons_self _ _)
        rw [hp] at hb; cases hb
    | ok b =>
      cases hf : filterE p l with
      | error e =>
        simp only [Except.bind, Except.map]
        constructor
        · intro h; cases h
        · rintro ⟨hall, -⟩
          have := (ih _).2 ⟨fun x hx => hall x (List.mem_cons_of_mem _ hx), rfl⟩
          rw [hf] at this; cases this
      | ok r1 =>
        obtain ⟨hall, hr1⟩ := (ih r1).1 hf
        simp only [Except.bind, Except.map]
        constructor
        · intro h
          injection h with h
          subst h
          refine ⟨?_, ?_⟩
          · intro x hx
            rcases List.mem_cons.1 hx with rfl | hx
            · exact ⟨b, hp⟩
            · exact hall x hx
          · rw [List.filter_cons, hp, hr1]; cases b <;> simp [okTrue]
        · rintro ⟨-, hr⟩
          rw [hr, List.filter_cons, hp, hr1]; cases b <;> simp [okTrue]

theorem filterE_eq_error_iff {α : Type} (p : α → Except JsError Bool) (l : List α)
    (e : JsError) : filterE p l = .error e ↔ ∃ a ∈ l, p a = .error e := by
  constructor
  · intro h
    by_contra hne
    have hall : ∀ a ∈ l, ∃ b, p a = .ok b := by
      intro a ha
      cases hp : p a with
      | ok b => exact ⟨b, rfl⟩
      | error x => exact absurd ⟨a, ha, by rw [hp, jsError_eq x e]⟩ hne
    have := (filterE_eq_ok_iff p l _).2 ⟨hall, rfl⟩
    rw [h] at this
    cases this
  · rintro ⟨a, ha, hpa⟩
    cases hf : filterE p l with
    | error x => rw [jsError_eq x e]
    | ok r =>
      obtain ⟨b, hb⟩ := ((filterE_eq_ok_iff p l r).1 hf).1 a ha
      rw [hpa] at hb
      cases hb

theorem filterE_fuse (p q : Entry → Except JsError Bool) (l : List Entry) :
    (filterE p l).bind (filterE q) = filterE (fuse p q) l := by
  induction l with
  | nil => rfl
  | cons a l ih =>
    rw [filterE_cons, filterE_cons (fuse p q), ← ih]
    unfold fuse
    cases hp : p a with
    | error e => rfl
    | ok b =>
      cases b with
      | false =>
        cases hf : filterE p l with
        | error e => rfl
        | ok r =>
          simp only [Except.bind, Except.map, Bool.false_eq_true, if_false]
          cases filterE q r <;> rfl
      | true =>
        cases hf : filterE p l with
        | error e =>
          simp only [Except.bind, Except.map]
          cases q a with
          | error x => rw [jsError_eq e x]
          | ok b => rfl
        | ok r =>
          simp only [Except.bind, Except.map, if_true]
          rw [filterE_cons]
          cases q a with
          | error x => rfl
          | ok b => rfl

/-! ## Lemmas: the pipeline as one pass over the entries -/

theorem roleFilter_eq_filterE (fr : String) (l : List Entry) :
    filterE (fun e => .ok (decide (fr = "") || roleMatches fr e)) l = .ok (roleFilter fr l) := by
  rw [filterE_pure]
  unfold roleFilter
  by_cases h : fr = "" <;> simp [h]

theorem actionFilter_eq_filterE (env : Env) (fa : String) (l : List Entry) :
    filterE (fun e => if fa ≠ "" then actionMatches env fa e else .ok true) l =
      actionFilter env fa l := by
  unfold actionFilter
  by_cases h : fa = ""
  · simp only [h, ne_eq, not_true_eq_false, if_false]
    rw [filterE_pure (fun _ => true)]
    simp
  · simp only [ne_eq, h, not_false_eq_true, if_true]

theorem searchFilter_eq_filterE (env : Env) (st : String) (l : List Entry) :
    filterE (fun e => if st ≠ "" then searchMatches env (env.toLowerCase st) e else .ok true) l =
      searchFilter env st l := by
  unfold searchFilter
  by_cases h : st = ""
  · simp only [h, ne_eq, not_true_eq_false, if_false]
    rw [filterE_pure (fun _ => true)]
    simp
  · simp only [ne_eq, h, not_false_eq_true, if_true]

theorem dateRangeFilter_eq_filterE (env : Env) (now : Int) (dr : String) (l : List Entry) :
    filterE (fun e => .ok (decide (¬(dr ≠ "" ∧ dr ≠ "all")) ||
      dateMatches env (cutoffDate env now dr) e)) l = .ok (dateRangeFilter env now dr l) := by
  rw [filterE_pure]
  unfold dateRangeFilter
  by_cases h : dr ≠ "" ∧ dr ≠ "all"
  · simp [h]
  · rw [if_neg h]
    simp [h]

theorem filterAndSort_eq_keepE (env : Env) (now : Int) (f : FilterState) (logs : List Entry) :
    filterAndSort env now f logs =
      (filterE (keepE env now f) logs).map (jsSort (compareLogs env f.sortConfig)) := by
  unfold filterAndSort keepE
  rw [← filterE_fuse, ← filterE_fuse, ← filterE_fuse, roleFilter_eq_filterE]
  simp only [Except.bind]
  rw [actionFilter_eq_filterE]
  cases actionFilter env f.filterAction (roleFilter f.filterRole logs) with
  | error e => rfl
  | ok r1 =>
    simp only [Except.bind]
    rw [searchFilter_eq_filterE]
    cases searchFilter env f.searchTerm r1 with
    | error e => rfl
    | ok r2 =>
      simp only [Except.bind, Except.map]
      rw [dateRangeFilter_eq_filterE]

theorem actionMatches_ok (env : Env) (fa : String) (e : Entry) (b : Bool)
    (h : actionMatches env fa e = .ok b) : fieldContains env (env.toLowerCase fa) e.action = b := by
  unfold actionMatches at h
  cases ha : e.action <;> rw [ha] at h <;> simp at h
  simpa [fieldContains] using h

theorem optIncludes_ok (env : Env) (v : JsVal) (sl : String) (b : Bool)
    (h : optIncludes env v sl = .ok b) : fieldContains env sl v = b := by
  cases v <;> simp [optIncludes] at h <;> simp [fieldContains, h]

theorem searchMatches_ok (env : Env) (sl : String) (e : Entry) (b : Bool)
    (h : searchMatches env sl e = .ok b) :
    (fieldContains env sl e.user_name || fieldContains env sl e.action ||
      fieldContains env sl e.details) = b := by
  unfold searchMatches at h
  cases h1 : optIncludes env e.user_name sl with
  | error x => rw [h1] at h; cases h
  | ok b1 =>
    have e1 := optIncludes_ok env _ _ _ h1
    rw [h1] at h
    cases b1 with
    | true => simp only at h; cases h; simp [e1]
    | false =>
      simp only at h
      cases h2 : optIncludes env e.details sl with
      | error x => rw [h2] at h; cases h
      | ok b2 =>
        have e2 := optIncludes_ok env _ _ _ h2
        rw [h2] at h
        cases b2 with
        | true => simp only at h; cases h; simp [e2]
        | false =>
          simp only at h
          have e3 := optIncludes_ok env _ _ _ h
          simp [e1, e2, e3]

theorem fuse_ok (p q : Entry → Except JsError Bool) (e : Entry) (b : Bool)
    (h : fuse p q e = .ok b) :
    (p e = .ok false ∧ b = false) ∨ (p e = .ok true ∧ q e = .ok b) := by
  unfold fuse at h
  cases hp : p e with
  | error x => rw [hp] at h; cases h
  | ok b1 =>
    rw [hp] at h
    cases b1 with
    | false => simp only at h; cases h; exact Or.inl ⟨rfl, rfl⟩
    | true => exact Or.inr ⟨rfl, h⟩

theorem actionStage_ok (env : Env) (f : FilterState) (e : Entry) (b : Bool)
    (h : (if f.filterAction ≠ "" then actionMatches env f.filterAction e else .ok true) = .ok b) :
    satisfiesAction env f e = b := by
  unfold satisfiesAction
  by_cases hfa : f.filterAction = ""
  · simp only [hfa, ne_eq, not_true_eq_false, if_false] at h
    cases h
    simp [hfa]
  · simp only [ne_eq, hfa, not_false_eq_true, if_true] at h
    rw [actionMatches_ok env _ e b h]
    simp [hfa]

theorem searchStage_ok (env : Env) (f : FilterState) (e : Entry) (b : Bool)
    (h : (if f.searchTerm ≠ "" then searchMatches env (env.toLowerCase f.searchTerm) e
      else .ok true) = .ok b) :
    satisfiesSearch env f e = b := by
  unfold satisfiesSearch
  by_cases hst : f.searchTerm = ""
  · simp only [hst, ne_eq, not_true_eq_false, if_false] at h
    cases h
    simp [hst]
  · simp only [ne_eq, hst, not_false_eq_true, if_true] at h
    rw [searchMatches_ok env _ e b h]
    simp [hst]

theorem dateStage_eq (env : Env) (now : Int) (f : FilterState) (e : Entry) :
    (decide (¬(f.dateRange ≠ "" ∧ f.dateRange ≠ "all")) ||
      dateMatches env (cutoffDate env now f.dateRange) e) = satisfiesDateRange env now f e := by
  unfold satisfiesDateRange dateMatches
  by_cases h1 : f.dateRange = "" <;> by_cases h2 : f.dateRange = "all" <;> simp [h1, h2]

theorem roleStage_eq (f : FilterState) (e : Entry) :
    (decide (f.filterRole = "") || roleMatches f.filterRole e) = satisfiesRole f e := rfl

/-- When the callbacks return on an entry, they keep it exactly when it satisfies every
active filter. -/
theorem keepE_ok (env : Env) (now : Int) (f : FilterState) (e : Entry) (b : Bool)
    (h : keepE env now f e = .ok b) : satisfiesFilters env now f e = b := by
  unfold keepE at h
  unfold satisfiesFilters
  rcases fuse_ok _ _ e b h with ⟨h3, rfl⟩ | ⟨h3, h4⟩
  · rcases fuse_ok _ _ e _ h3 with ⟨h2, -⟩ | ⟨h2, hs⟩
    · rcases fuse_ok _ _ e _ h2 with ⟨h1, -⟩ | ⟨h1, ha⟩
      · injection h1 with h1
        rw [roleStage_eq] at h1
        simp [h1]
      · rw [actionStage_ok env f e _ ha]
        simp
    · rw [searchStage_ok env f e _ hs]
      simp
  · rcases fuse_ok _ _ e _ h3 with ⟨-, hc⟩ | ⟨h2, hs⟩
    · cases hc
    · rcases fuse_ok _ _ e _ h2 with ⟨-, hc⟩ | ⟨h1, ha⟩
      · cases hc
      · injection h1 with h1
        injection h4 with h4
        rw [roleStage_eq] at h1
        rw [dateStage_eq] at h4
        rw [h1, actionStage_ok env f e _ ha, searchStage_ok env f e _ hs, h4]
        simp

theorem optIncludes_total (env : Env) (v : JsVal) (sl : String) (hv : v.isOptionalString = true) :
    ∃ b, optIncludes env v sl = .ok b := by
  cases v <;> simp [JsVal.isOptionalString] at hv <;> simp [optIncludes]

theorem isOptionalString_of_isString (v : JsVal) (hv : v.isString = true) :
    v.isOptionalString = true := by
  cases v <;> simp [JsVal.isString] at hv
  rfl

theorem searchMatches_total (env : Env) (sl : String) (e : Entry)
    (hu : e.user_name.isOptionalString = true) (hd : e.details.isOptionalString = true)
    (ha : e.action.isOptionalString = true) : ∃ b, searchMatches env sl e = .ok b := by
  unfold searchMatches
  obtain ⟨b1, h1⟩ := optIncludes_total env _ sl hu
  obtain ⟨b2, h2⟩ := optIncludes_total env _ sl hd
  obtain ⟨b3, h3⟩ := optIncludes_total env _ sl ha
  rw [h1]
  cases b1
  · simp only
    rw [h2]
    cases b2
    · exact ⟨b3, h3⟩
    · exact ⟨true, rfl⟩
  · exact ⟨true, rfl⟩

theorem actionMatches_total (env : Env) (fa : String) (e : Entry)
    (ha : e.action.isString = true) : ∃ b, actionMatches env fa e = .ok b := by
  unfold actionMatches
  cases h : e.action <;> rw [h] at ha <;> simp [JsVal.isString] at ha
  exact ⟨_, rfl⟩

theorem fuse_total (p q : Entry → Except JsError Bool) (e : Entry)
    (hp : ∃ b, p e = .ok b) (hq : ∃ b, q e = .ok b) : ∃ b, fuse p q e = .ok b := by
  obtain ⟨b1, h1⟩ := hp
  unfold fuse
  rw [h1]
  cases b1
  · exact ⟨false, rfl⟩
  · exact hq

/-- The callbacks return on every entry that has the field types of the data model. -/
theorem keepE_total (env : Env) (now : Int) (f : FilterState) (e : Entry)
    (h : e.conforms = true) : ∃ b, keepE env now f e = .ok b := by
  simp only [Entry.conforms, Bool.and_eq_true] at h
  obtain ⟨⟨ha, hu⟩, hd⟩ := h
  unfold keepE
  refine fuse_total _ _ e (fuse_total _ _ e (fuse_total _ _ e ⟨_, rfl⟩ ?_) ?_) ⟨_, rfl⟩
  · by_cases hfa : f.filterAction = ""
    · exact ⟨true, by simp [hfa]⟩
    · obtain ⟨b, hb⟩ := actionMatches_total env f.filterAction e ha
      exact ⟨b, by simp [hfa, hb]⟩
  · by_cases hst : f.searchTerm = ""
    · exact ⟨true, by simp [hst]⟩
    · obtain ⟨b, hb⟩ := searchMatches_total env (env.toLowerCase f.searchTerm) e hu hd
        (isOptionalString_of_isString _ ha)
      exact ⟨b, by simp [hst, hb]⟩

/-- A returned list is the sorted list of the entries that satisfy every active filter. -/
theorem filterAndSort_ok (env : Env) (now : Int) (f : FilterState) (logs res : List Entry)
    (h : filterAndSort env now f logs = .ok res) :
    res = jsSort (compareLogs env f.sortConfig) (logs.filter (satisfiesFilters env now f)) := by
  rw [filterAndSort_eq_keepE] at h
  cases hf : filterE (keepE env now f) logs with
  | error x => rw [hf] at h; cases h
  | ok r =>
    rw [hf] at h
    injection h with h
    obtain ⟨hall, hr⟩ := (filterE_eq_ok_iff _ _ _).1 hf
    rw [← h, hr]
    congr 1
    apply List.filter_congr
    intro e he
    obtain ⟨b, hb⟩ := hall e he
    rw [hb, keepE_ok env now f e b hb]
    cases b <;> rfl

/-- The pipeline returns when every entry has the field types of the data model. -/
theorem filterAndSort_total (env : Env) (now : Int) (f : FilterState) (logs : List Entry)
    (h : ∀ e ∈ logs, e.conforms = true) : ∃ res, filterAndSort env now f logs = .ok res := by
  rw [filterAndSort_eq_keepE]
  have := (filterE_eq_ok_iff (keepE env now f) logs _).2
    ⟨fun e he => keepE_total env now f e (h e he), rfl⟩
  rw [this]
  exact ⟨_, rfl⟩

theorem jsSort_perm {α : Type} (cmp : α → α → Option Int) (l : List α) :
    (jsSort cmp l).Perm l :=
  List.perm_insertionSort _ l

/-! ## Lemmas: the sort -/

theorem filter_orderedInsert {α : Type} (r : α → α → Prop) [DecidableRel r] (P : α → Bool)
    (a : α) (l : List α) (h : ∀ b ∈ l, P a = true → P b = true → r a b) :
    (l.orderedInsert r a).filter P = (a :: l).filter P := by
  induction l with
  | nil => rfl
  | cons b l ih =>
    rw [List.orderedInsert]
    split
    · rfl
    · rename_i hr
      have hab : ¬(P a = true ∧ P b = true) := fun hh =>
        hr (h b (List.mem_cons_self _ _) hh.1 hh.2)
      rw [List.filter_cons, ih fun c hc => h c (List.mem_cons_of_mem _ hc)]
      simp only [List.filter_cons]
      cases ha : P a <;> cases hb : P b <;> simp_all

theorem filter_insertionSort {α : Type} (r : α → α → Prop) [DecidableRel r] (P : α → Bool)
    (l : List α) (h : ∀ a b, P a = true → P b = true → r a b) :
    (l.insertionSort r).filter P = l.filter P := by
  induction l with
  | nil => rfl
  | cons a l ih =>
    rw [List.insertionSort, filter_orderedInsert r P a _ fun b _ => h a b, List.filter_cons,
      List.filter_cons, ih]

theorem insertionSort_congr {α : Type} (r s : α → α → Prop) [DecidableRel r] [DecidableRel s]
    (l : List α) (h : ∀ a ∈ l, ∀ b ∈ l, r a b ↔ s a b) :
    l.insertionSort r = l.insertionSort s := by
  have := List.map_insertionSort r s id l h
  simpa using this

theorem newDate_eq_some_timeOf (env : Env) (e : Entry)
    (h : (newDate env e.timestamp).isSome = true) :
    newDate env e.timestamp = some (timeOf env e) := by
  unfold timeOf
  cases hd : newDate env e.timestamp with
  | none => rw [hd] at h; cases h
  | some t => rfl

theorem sortCompare_desc (env : Env) (sc : SortConfig) (a b : Entry)
    (hk : sc.key = "timestamp") (hd : sc.direction = "desc")
    (ha : (newDate env a.timestamp).isSome = true) (hb : (newDate env b.timestamp).isSome = true) :
    sortCompare (compareLogs env sc) a b ≤ 0 ↔ timeOf env b ≤ timeOf env a := by
  unfold sortCompare compareLogs
  rw [if_pos hk, if_pos hd, newDate_eq_some_timeOf env a ha, newDate_eq_some_timeOf env b hb]
  simp [dateDiff]

theorem sortCompare_asc (env : Env) (sc : SortConfig) (a b : Entry)
    (hk : sc.key = "timestamp") (hd : sc.direction ≠ "desc")
    (ha : (newDate env a.timestamp).isSome = true) (hb : (newDate env b.timestamp).isSome = true) :
    sortCompare (compareLogs env sc) a b ≤ 0 ↔ timeOf env a ≤ timeOf env b := by
  unfold sortCompare compareLogs
  rw [if_pos hk, if_neg hd, newDate_eq_some_timeOf env a ha, newDate_eq_some_timeOf env b hb]
  simp [dateDiff]

theorem sorted_insertionSort_key {α : Type} (k : α → Int) (l : List α) :
    (l.insertionSort fun a b => k a ≤ k b).Pairwise fun a b => k a ≤ k b := by
  haveI : IsTotal α (fun a b => k a ≤ k b) := ⟨fun a b => le_total (k a) (k b)⟩
  haveI : IsTrans α (fun a b => k a ≤ k b) := ⟨fun a b c h1 h2 => le_trans h1 h2⟩
  exact List.sorted_insertionSort (fun a b => k a ≤ k b) l

/-- With valid timestamps, descending direction sorts by time value, latest first. -/
theorem jsSort_desc (env : Env) (sc : SortConfig) (l : List Entry)
    (hk : sc.key = "timestamp") (hd : sc.direction = "desc")
    (hv : ∀ e ∈ l, (newDate env e.timestamp).isSome = true) :
    jsSort (compareLogs env sc) l = l.insertionSort fun a b => -timeOf env a ≤ -timeOf env b := by
  unfold jsSort
  apply insertionSort_congr
  intro a ha b hb
  rw [sortCompare_desc env sc a b hk hd (hv a ha) (hv b hb)]
  exact neg_le_neg_iff.symm

/-- With valid timestamps, any other direction sorts by time value, earliest first. -/
theorem jsSort_asc (env : Env) (sc : SortConfig) (l : List Entry)
    (hk : sc.key = "timestamp") (hd : sc.direction ≠ "desc")
    (hv : ∀ e ∈ l, (newDate env e.timestamp).isSome = true) :
    jsSort (compareLogs env sc) l = l.insertionSort fun a b => timeOf env a ≤ timeOf env b := by
  unfold jsSort
  apply insertionSort_congr
  intro a ha b hb
  exact sortCompare_asc env sc a b hk hd (hv a ha) (hv b hb)

/-- The sort keeps the input order of the entries whose timestamp is the date `t`. -/
theorem jsSort_stable (env : Env) (sc : SortConfig) (l : List Entry) (t : Int) :
    (jsSort (compareLogs env sc) l).filter (fun e => decide (newDate env e.timestamp = some t)) =
      l.filter fun e => decide (newDate env e.timestamp = some t) := by
  unfold jsSort
  apply filter_insertionSort
  intro a b ha hb
  simp only [decide_eq_true_eq] at ha hb
  unfold sortCompare compareLogs
  rw [ha, hb]
  split <;> [split; skip] <;> simp [dateDiff]

/-- Two lists with the same entries, both in non-decreasing order of a key that no two of
their entries share, are the same list. -/
theorem eq_of_perm_of_sorted_key {α : Type} (k : α → Int) (l1 l2 : List α) (hp : l1.Perm l2)
    (h1 : l1.Pairwise fun a b => k a ≤ k b) (h2 : l2.Pairwise fun a b => k a ≤ k b)
    (hne : l1.Pairwise fun a b => k a ≠ k b) : l1 = l2 := by
  have hne2 : l2.Pairwise fun a b => k a ≠ k b :=
    (hp.pairwise_iff (fun {a b} (h : k a ≠ k b) => Ne.symm h)).1 hne
  have s1 : l1.Pairwise fun a b => k a < k b :=
    (h1.and hne).imp fun h => lt_of_le_of_ne h.1 h.2
  have s2 : l2.Pairwise fun a b => k a < k b :=
    (h2.and hne2).imp fun h => lt_of_le_of_ne h.1 h.2
  haveI : IsAntisymm α (fun a b => k a < k b) :=
    ⟨fun a b hab hba => absurd hab (not_lt_of_gt hba)⟩
  exact List.eq_of_perm_of_sorted hp s1 s2

/-! ## Lemmas: the heap and `applyFilters` on the state -/

theorem Heap.read_alloc_new (h : Heap) (a : List Entry) :
    (h.alloc a).1.read (h.alloc a).2 = a := by
  simp [Heap.read, Heap.alloc, List.getD_eq_getElem?_getD]

theorem Heap.read_alloc_old (h : Heap) (a : List Entry) (r : Nat) (hr : r < h.length) :
    (h.alloc a).1.read r = h.read r := by
  simp [Heap.read, Heap.alloc, List.getD_eq_getElem?_getD, List.getElem?_append_left hr]

theorem Heap.read_write_same (h : Heap) (a : List Entry) (r : Nat) (hr : r < h.length) :
    (h.write r a).read r = a := by
  simp [Heap.read, Heap.write, List.getD_eq_getElem?_getD, hr]

theorem Heap.read_write_other (h : Heap) (a : List Entry) (r r1 : Nat) (hne : r ≠ r1) :
    (h.write r a).read r1 = h.read r1 := by
  simp [Heap.read, Heap.write, List.getD_eq_getElem?_getD, List.getElem?_set_ne hne]

theorem Local.fresh_start (s : State) :
    Local.Fresh s.heap (Local.assignNew ⟨s.heap, s.logs⟩ s.logsList) := by
  refine ⟨le_refl _, by simp [Local.assignNew, Heap.alloc], ?_⟩
  intro r hr
  exact Heap.read_alloc_old _ _ _ hr

theorem Local.value_start (s : State) :
    (Local.assignNew ⟨s.heap, s.logs⟩ s.logsList).value = s.logsList :=
  Heap.read_alloc_new _ _

theorem Local.fresh_assignNew (h0 : Heap) (l : Local) (a : List Entry) (hl : l.Fresh h0) :
    (l.assignNew a).Fresh h0 := by
  obtain ⟨h1, h2, h3⟩ := hl
  refine ⟨?_, by simp [Local.assignNew, Heap.alloc], ?_⟩
  · simp only [Local.assignNew, Heap.alloc]
    omega
  · intro r hr
    have : r < l.heap.length := by omega
    simp only [Local.assignNew]
    rw [Heap.read_alloc_old _ _ _ this]
    exact h3 r hr

theorem Local.value_assignNew (l : Local) (a : List Entry) : (l.assignNew a).value = a :=
  Heap.read_alloc_new _ _

theorem Local.fresh_sortInPlace (h0 : Heap) (l : Local) (cmp : Entry → Entry → Option Int)
    (hl : l.Fresh h0) : (l.sortInPlace cmp).Fresh h0 := by
  obtain ⟨h1, h2, h3⟩ := hl
  refine ⟨h1, by simpa [Local.sortInPlace, Heap.write] using h2, ?_⟩
  intro r hr
  simp only [Local.sortInPlace]
  rw [Heap.read_write_other _ _ _ _ (by omega)]
  exact h3 r hr

theorem Local.value_sortInPlace (h0 : Heap) (l : Local) (cmp : Entry → Entry → Option Int)
    (hl : l.Fresh h0) : (l.sortInPlace cmp).value = jsSort cmp l.value := by
  simp only [Local.sortInPlace, Local.value]
  exact Heap.read_write_same _ _ _ hl.2.1

theorem Local.stage_filter (h0 : Heap) (l : Local) (hl : l.Fresh h0) (c : Prop) [Decidable c]
    (q : Entry → Bool) :
    (if c then l.assignNew (l.value.filter q) else l).Fresh h0 ∧
      (if c then l.assignNew (l.value.filter q) else l).value =
        if c then l.value.filter q else l.value := by
  by_cases hc : c
  · rw [if_pos hc, if_pos hc]
    exact ⟨Local.fresh_assignNew h0 l _ hl, Local.value_assignNew l _⟩
  · rw [if_neg hc, if_neg hc]
    exact ⟨hl, rfl⟩

theorem Local.stage_filterE (h0 : Heap) (l : Local) (hl : l.Fresh h0) (c : Prop) [Decidable c]
    (p : Entry → Except JsError Bool) :
    match (if c then filterE p l.value else .ok l.value) with
    | .error e => (if c then (filterE p l.value).map l.assignNew else .ok l) = .error e
    | .ok v => ∃ l1 : Local,
        (if c then (filterE p l.value).map l.assignNew else .ok l) = .ok l1 ∧
          l1.Fresh h0 ∧ l1.value = v := by
  by_cases hc : c
  · rw [if_pos hc, if_pos hc]
    cases filterE p l.value with
    | error e => rfl
    | ok v => exact ⟨l.assignNew v, rfl, Local.fresh_assignNew h0 l _ hl, Local.value_assignNew l _⟩
  · rw [if_neg hc, if_neg hc]
    exact ⟨l, rfl, hl, rfl⟩

/-- The state-level `applyFilters` against the list-level pipeline: it throws when the
pipeline throws, and otherwise stores the pipeline's list in an array it allocated itself,
sets `currentPage` to 1 and leaves every other state variable and every earlier array alone. -/
theorem applyFilters_spec (env : Env) (now : Int) (s : State) :
    match filterAndSort env now s.toFilterState s.logsList with
    | .error e => applyFilters env now s = .error e
    | .ok res => ∃ l : Local, l.Fresh s.heap ∧ l.value = res ∧
        applyFilters env now s =
          .ok { s with heap := l.heap, filteredLogs := l.filtered, currentPage := 1 } := by
  have f0 := Local.fresh_start s
  have v0 := Local.value_start s
  unfold filterAndSort actionFilter roleFilter searchFilter dateRangeFilter
  simp only [applyFilters]
  generalize Local.assignNew ⟨s.heap, s.logs⟩ s.logsList = l0 at f0 v0 ⊢
  rw [← v0]
  obtain ⟨f1, v1⟩ := Local.stage_filter s.heap l0 f0 (s.filterRole ≠ "")
    (roleMatches s.filterRole)
  generalize (if s.filterRole ≠ "" then l0.assignNew (l0.value.filter (roleMatches s.filterRole))
    else l0) = l1 at f1 v1 ⊢
  rw [← v1]
  have hA := Local.stage_filterE s.heap l1 f1 (s.filterAction ≠ "")
    (actionMatches env s.filterAction)
  cases hEA : (if s.filterAction ≠ "" then filterE (actionMatches env s.filterAction) l1.value
    else Except.ok l1.value) with
  | error e =>
    rw [hEA] at hA
    simp only at hA
    rw [hA]
    rfl
  | ok vA =>
    rw [hEA] at hA
    obtain ⟨l2, e2, f2, v2⟩ := hA
    rw [e2]
    simp only [Except.bind]
    have hS := Local.stage_filterE s.heap l2 f2 (s.searchTerm ≠ "")
      (searchMatches env (env.toLowerCase s.searchTerm))
    rw [← v2]
    cases hES : (if s.searchTerm ≠ "" then
        filterE (searchMatches env (env.toLowerCase s.searchTerm)) l2.value
      else Except.ok l2.value) with
    | error e =>
      rw [hES] at hS
      simp only at hS
      rw [hS]
      rfl
    | ok vS =>
      rw [hES] at hS
      obtain ⟨l3, e3, f3, v3⟩ := hS
      rw [e3]
      simp only [Except.map]
      obtain ⟨f4, v4⟩ := Local.stage_filter s.heap l3 f3 (s.dateRange ≠ "" ∧ s.dateRange ≠ "all")
        (dateMatches env (cutoffDate env now s.dateRange))
      refine ⟨_, Local.fresh_sortInPlace s.heap _ _ f4, ?_, rfl⟩
      rw [Local.value_sortInPlace s.heap _ _ f4, v4, v3]

/-- What a returning call of `applyFilters` leaves behind. -/
theorem applyFilters_eq_ok (env : Env) (now : Int) (s s1 : State)
    (h : applyFilters env now s = .ok s1) :
    filterAndSort env now s.toFilterState s.logsList = .ok s1.filteredList ∧
      (∃ l : Local, l.Fresh s.heap ∧
        s1 = { s with heap := l.heap, filteredLogs := l.filtered, currentPage := 1 }) := by
  have hs := applyFilters_spec env now s
  cases hf : filterAndSort env now s.toFilterState s.logsList with
  | error e =>
    rw [hf] at hs
    simp only at hs
    rw [hs] at h
    cases h
  | ok res =>
    rw [hf] at hs
    obtain ⟨l, hl, hv, he⟩ := hs
    rw [he] at h
    injection h with h
    subst h
    exact ⟨by rw [← hv]; rfl, l, hl, rfl⟩

/-- The state-level call returns exactly when the pipeline does. -/
theorem applyFilters_returns (env : Env) (now : Int) (s : State) (res : List Entry)
    (h : filterAndSort env now s.toFilterState s.logsList = .ok res) :
    ∃ s1, applyFilters env now s = .ok s1 := by
  have hs := applyFilters_spec env now s
  rw [h] at hs
  obtain ⟨l, -, -, he⟩ := hs
  exact ⟨_, he⟩

/-- A click that runs `applyFilters` never touches the raw list. -/
theorem orKeep_applyFilters_logs (env : Env) (now : Int) (s : State)
    (hv : s.logs < s.heap.length) :
    (orKeep s (applyFilters env now s)).logs = s.logs ∧
      (orKeep s (applyFilters env now s)).logs < (orKeep s (applyFilters env now s)).heap.length ∧
      (orKeep s (applyFilters env now s)).logsList = s.logsList := by
  cases h : applyFilters env now s with
  | error e => exact ⟨rfl, hv, rfl⟩
  | ok s1 =>
    obtain ⟨-, l, ⟨h1, h2, h3⟩, rfl⟩ := applyFilters_eq_ok env now s s1 h
    refine ⟨rfl, ?_, ?_⟩
    · show s.logs < l.heap.length
      omega
    · exact h3 s.logs hv

/-- In every reachable state `logs` refers to an allocated array. -/
theorem Reachable.logs_valid {env : Env} {s : State} (hs : Reachable env s) :
    s.logs < s.heap.length := by
  induction hs with
  | mount now =>
    exact (orKeep_applyFilters_logs env now (fetchLogsStart initialState) (by decide)).2.1
  | step ev s _ ih =>
    cases ev with
    | fetchStart => exact ih
    | fetchSettle response =>
      cases response with
      | none => exact ih
      | some data => simp [InsurAi.step, fetchLogsSettle, Heap.alloc]
    | applyClick now => exact (orKeep_applyFilters_logs env now s ih).2.1
    | resetClick => exact ih
    | sortClick now =>
      simp only [InsurAi.step]
      split
      · exact (orKeep_applyFilters_logs env now (handleSort "timestamp" s) ih).2.1
      · exact ih
    | setFilterRole v => simp only [InsurAi.step]; split <;> exact ih
    | setFilterAction v => exact ih
    | setDateRange v => simp only [InsurAi.step]; split <;> exact ih
    | setSearchTerm v => exact ih
    | selectRow log => simp only [InsurAi.step]; split <;> exact ih
    | closeDetail => exact ih
    | pageFirst => simp only [InsurAi.step]; split <;> exact ih
    | pagePrev => simp only [InsurAi.step]; split <;> exact ih
    | pageNumber i => simp only [InsurAi.step]; split <;> exact ih
    | pageNext => simp only [InsurAi.step]; split <;> exact ih
    | pageLast => simp only [InsurAi.step]; split <;> exact ih
    | setViewMode v => exact ih
    | setAutoRefresh b => exact ih

theorem filterE_of_forall_ok {α : Type} (p : α → Except JsError Bool) (q : α → Bool)
    (l : List α) (h : ∀ a ∈ l, p a = .ok (q a)) : filterE p l = .ok (l.filter q) := by
  rw [filterE_eq_ok_iff]
  refine ⟨fun a ha => ⟨q a, h a ha⟩, ?_⟩
  apply List.filter_congr
  intro a ha
  rw [h a ha]
  cases q a <;> rfl

theorem fieldContains_iff (env : Env) (needle : String) (v : JsVal) :
    fieldContains env needle v = true ↔
      ∃ s, v = .str s ∧ includes (env.toLowerCase s) needle = true := by
  cases v <;> simp [fieldContains]

theorem optIncludes_of_isOptionalString (env : Env) (v : JsVal) (sl : String)
    (hv : v.isOptionalString = true) : optIncludes env v sl = .ok (fieldContains env sl v) := by
  cases v <;> simp [JsVal.isOptionalString] at hv <;> rfl

theorem searchMatches_of_isOptionalString (env : Env) (sl : String) (e : Entry)
    (hu : e.user_name.isOptionalString = true) (ha : e.action.isOptionalString = true)
    (hd : e.details.isOptionalString = true) :
    searchMatches env sl e =
      .ok (fieldContains env sl e.user_name || fieldContains env sl e.action ||
        fieldContains env sl e.details) := by
  unfold searchMatches
  rw [optIncludes_of_isOptionalString env _ sl hu, optIncludes_of_isOptionalString env _ sl hd,
    optIncludes_of_isOptionalString env _ sl ha]
  cases fieldContains env sl e.user_name <;> cases fieldContains env sl e.details <;>
    cases fieldContains env sl e.action <;> rfl

/-! ## Lemmas: counting by role -/

theorem bump_nil (k : String) (hk : k ∉ objectPrototypeKeys) : bump k [] = [(k, .num 1)] := by
  have h1 : k ≠ "__proto__" := fun h => hk (by rw [h]; decide)
  simp [bump, h1, hk]

theorem bump_same (k : String) (n : Nat) : bump k [(k, .num n)] = [(k, .num (n + 1))] := by
  simp [bump]

theorem foldl_bump_same (key : Entry → JsVal) (k : String) (l : List Entry)
    (hl : ∀ e ∈ l, toPropertyKey (key e) = k) (n : Nat) :
    l.foldl (fun acc log => bump (toPropertyKey (key log)) acc) [(k, .num n)] =
      [(k, .num (n + l.length))] := by
  induction l generalizing n with
  | nil => rfl
  | cons a l ih =>
    rw [List.foldl_cons, hl a (List.mem_cons_self _ _), bump_same,
      ih (fun e he => hl e (List.mem_cons_of_mem _ he)), List.length_cons]
    congr 3
    omega

/-- Counting a non-empty list whose entries all have the key `k` gives the single own
property `k` with the length of the list. -/
theorem countBy_same (key : Entry → JsVal) (k : String) (l : List Entry)
    (hk : k ∉ objectPrototypeKeys) (hl : ∀ e ∈ l, toPropertyKey (key e) = k) (hne : l ≠ []) :
    countBy key l = [(k, .num l.length)] := by
  cases l with
  | nil => exact absurd rfl hne
  | cons a l =>
    unfold countBy
    rw [List.foldl_cons, hl a (List.mem_cons_self _ _), bump_nil k hk,
      foldl_bump_same key k l (fun e he => hl e (List.mem_cons_of_mem _ he)), List.length_cons]
    congr 3
    omega

/-- With the role filter alone, the pipeline returns the sorted list of the entries whose
role is the selected one. -/
theorem filterAndSort_role_only (env : Env) (now : Int) (r : String) (sc : SortConfig)
    (logs : List Entry) (hr : r ≠ "") :
    filterAndSort env now ⟨r, "", "all", "", sc⟩ logs =
      .ok (jsSort (compareLogs env sc) (logs.filter (roleMatches r))) := by
  simp [filterAndSort, actionFilter, searchFilter, roleFilter, dateRangeFilter, hr, Except.bind,
    Except.map]

/-! ## Lemmas: permuted input and reversed direction -/

theorem filterE_keepE_ok (env : Env) (now : Int) (f : FilterState) (logs r : List Entry)
    (h : filterE (keepE env now f) logs = .ok r) :
    r = logs.filter (satisfiesFilters env now f) := by
  obtain ⟨hall, hr⟩ := (filterE_eq_ok_iff _ _ _).1 h
  rw [hr]
  apply List.filter_congr
  intro e he
  obtain ⟨b, hb⟩ := hall e he
  rw [hb, keepE_ok env now f e b hb]
  cases b <;> rfl

theorem pairwise_timeOf_ne (env : Env) (l : List Entry)
    (hv : ∀ e ∈ l, (newDate env e.timestamp).isSome = true)
    (hd : l.Pairwise fun a b => newDate env a.timestamp ≠ newDate env b.timestamp) :
    l.Pairwise fun a b => timeOf env a ≠ timeOf env b := by
  refine hd.imp_of_mem ?_
  intro a b ha hb hab h
  apply hab
  rw [newDate_eq_some_timeOf env a (hv a ha), newDate_eq_some_timeOf env b (hv b hb), h]

/-- With valid, pairwise distinct timestamps the ascending sort is the reverse of the
descending one. -/
theorem jsSort_asc_eq_reverse_desc (env : Env) (l : List Entry)
    (hv : ∀ e ∈ l, (newDate env e.timestamp).isSome = true)
    (hd : l.Pairwise fun a b => newDate env a.timestamp ≠ newDate env b.timestamp) :
    jsSort (compareLogs env ⟨"timestamp", "asc"⟩) l =
      (jsSort (compareLogs env ⟨"timestamp", "desc"⟩) l).reverse := by
  rw [jsSort_asc env ⟨"timestamp", "asc"⟩ l rfl (by decide) hv,
    jsSort_desc env ⟨"timestamp", "desc"⟩ l rfl rfl hv]
  have hpa := List.perm_insertionSort (fun a b : Entry => timeOf env a ≤ timeOf env b) l
  have hpd := List.perm_insertionSort (fun a b : Entry => -timeOf env a ≤ -timeOf env b) l
  apply eq_of_perm_of_sorted_key (timeOf env)
  · exact hpa.trans (hpd.symm.trans (List.reverse_perm _).symm)
  · exact sorted_insertionSort_key (timeOf env) l
  · rw [List.pairwise_reverse]
    exact (sorted_insertionSort_key (fun e => -timeOf env e) l).imp fun h => neg_le_neg_iff.1 h
  · exact (hpa.pairwise_iff (fun {a b} (h : timeOf env a ≠ timeOf env b) => Ne.symm h)).2
      (pairwise_timeOf_ne env l hv hd)

/-- With sort key `timestamp` and valid, pairwise distinct timestamps, the sorted list does
not depend on the order of the input. -/
theorem jsSort_eq_of_perm (env : Env) (sc : SortConfig) (l l1 : List Entry) (hp : l1.Perm l)
    (hk : sc.key = "timestamp") (hv : ∀ e ∈ l, (newDate env e.timestamp).isSome = true)
    (hd : l.Pairwise fun a b => newDate env a.timestamp ≠ newDate env b.timestamp) :
    jsSort (compareLogs env sc) l1 = jsSort (compareLogs env sc) l := by
  have hv1 : ∀ e ∈ l1, (newDate env e.timestamp).isSome = true :=
    fun e he => hv e (hp.mem_iff.1 he)
  have hne := pairwise_timeOf_ne env l hv hd
  by_cases hdir : sc.direction = "desc"
  · rw [jsSort_desc env sc l hk hdir hv, jsSort_desc env sc l1 hk hdir hv1]
    have hp1 := List.perm_insertionSort (fun a b : Entry => -timeOf env a ≤ -timeOf env b) l1
    have hp0 := List.perm_insertionSort (fun a b : Entry => -timeOf env a ≤ -timeOf env b) l
    apply eq_of_perm_of_sorted_key (fun e => -timeOf env e)
    · exact hp1.trans (hp.trans hp0.symm)
    · exact sorted_insertionSort_key (fun e => -timeOf env e) l1
    · exact sorted_insertionSort_key (fun e => -timeOf env e) l
    · refine ((hp1.trans hp).pairwise_iff
        (fun {a b} (h : -timeOf env a ≠ -timeOf env b) => Ne.symm h)).2 ?_
      exact hne.imp fun h h1 => h (neg_injective h1)
  · rw [jsSort_asc env sc l hk hdir hv, jsSort_asc env sc l1 hk hdir hv1]
    have hp1 := List.perm_insertionSort (fun a b : Entry => timeOf env a ≤ timeOf env b) l1
    have hp0 := List.perm_insertionSort (fun a b : Entry => timeOf env a ≤ timeOf env b) l
    apply eq_of_perm_of_sorted_key (timeOf env)
    · exact hp1.trans (hp.trans hp0.symm)
    · exact sorted_insertionSort_key (timeOf env) l1
    · exact sorted_insertionSort_key (timeOf env) l
    · exact ((hp1.trans hp).pairwise_iff
        (fun {a b} (h : timeOf env a ≠ timeOf env b) => Ne.symm h)).2 hne

/-- The filters throw on a permuted list exactly when they throw on the list, and keep the
same entries otherwise. -/
theorem filterE_perm (p : Entry → Except JsError Bool) (l l1 : List Entry) (hp : l1.Perm l) :
    (∀ e, filterE p l = .error e → filterE p l1 = .error e) ∧
      (∀ r, filterE p l = .ok r → ∃ r1, filterE p l1 = .ok r1 ∧ r1.Perm r) := by
  constructor
  · intro e h
    obtain ⟨a, ha, hpa⟩ := (filterE_eq_error_iff p l e).1 h
    exact (filterE_eq_error_iff p l1 e).2 ⟨a, hp.mem_iff.2 ha, hpa⟩
  · intro r h
    obtain ⟨hall, hr⟩ := (filterE_eq_ok_iff p l r).1 h
    refine ⟨_, (filterE_eq_ok_iff p l1 _).2 ⟨fun a ha => hall a (hp.mem_iff.1 ha), rfl⟩, ?_⟩
    rw [hr]
    exact hp.filter _

/-! ## Lemmas: pages -/

theorem jsSlice_page {α : Type} (l : List α) (p : Nat) (hp : 1 ≤ p) :
    jsSlice l ((p : Int) * 15 - 15) ((p : Int) * 15) = (l.drop (15 * (p - 1))).take 15 := by
  unfold jsSlice
  simp only []
  have h1 : ¬((p : Int) * 15 - 15 < 0) := by omega
  have h2 : ¬((p : Int) * 15 < 0) := by omega
  rw [if_neg h1, if_neg h2]
  by_cases hle : 15 * (p - 1) ≤ l.length
  · have e1 : (min ((p : Int) * 15 - 15) (l.length : Int)).toNat = 15 * (p - 1) := by omega
    have e2 : (min ((p : Int) * 15) (l.length : Int) -
        min ((p : Int) * 15 - 15) (l.length : Int)).toNat =
        min 15 (l.length - 15 * (p - 1)) := by omega
    rw [e1, e2, List.take_eq_take, List.length_drop]
    omega
  · have e1 : (min ((p : Int) * 15 - 15) (l.length : Int)).toNat = l.length := by omega
    rw [e1, List.drop_of_length_le (le_refl _), List.drop_of_length_le (by omega)]
    simp

/-- The rows of page `p`, for `p` from 1 on: fifteen entries from position `15 * (p - 1)`. -/
theorem currentLogs_page (s : State) (p : Nat) (hp : 1 ≤ p) :
    currentLogs { s with currentPage := (p : Int) } =
      (s.filteredList.drop (15 * (p - 1))).take 15 := by
  have h := jsSlice_page s.filteredList p hp
  unfold currentLogs logsPerPage
  simpa using h

/-- Cutting a list into runs of fifteen and joining the runs gives the list. -/
theorem flatten_pages {α : Type} (l : List α) :
    ((List.range ((l.length + 14) / 15)).map fun k => (l.drop (15 * k)).take 15).flatten = l := by
  generalize hn : l.length = n
  induction n using Nat.strong_induction_on generalizing l with
  | _ n ih =>
    subst hn
    by_cases h0 : l.length = 0
    · rw [List.length_eq_zero.1 h0]
      simp
    · have hcount : (l.length + 14) / 15 = ((l.drop 15).length + 14) / 15 + 1 := by
        rw [List.length_drop]
        omega
      rw [hcount, List.range_succ_eq_map, List.map_cons, List.map_map, List.flatten_cons]
      have hrest : ((List.range (((l.drop 15).length + 14) / 15)).map
          ((fun k => (l.drop (15 * k)).take 15) ∘ Nat.succ)).flatten = l.drop 15 := by
        have hfun : ((fun k => (l.drop (15 * k)).take 15) ∘ Nat.succ) =
            fun k => ((l.drop 15).drop (15 * k)).take 15 := by
          funext k
          simp only [Function.comp, List.drop_drop]
          congr 2
          omega
        rw [hfun]
        exact ih (l.drop 15).length (by rw [List.length_drop]; omega) (l.drop 15) rfl
      rw [hrest]
      simp

theorem totalPages_eq (s : State) :
    totalPages s = ((s.filteredList.length + 14) / 15 : Nat) := by
  unfold totalPages logsPerPage
  rfl

theorem ceil_div_fifteen (n : Nat) : ⌈(n : ℚ) / 15⌉₊ = (n + 14) / 15 := by
  apply le_antisymm
  · rw [Nat.ceil_le, div_le_iff₀ (by norm_num)]
    have h : n ≤ (n + 14) / 15 * 15 := by omega
    exact_mod_cast h
  · have h := Nat.le_ceil ((n : ℚ) / 15)
    rw [div_le_iff₀ (by norm_num)] at h
    have h1 : n ≤ ⌈(n : ℚ) / 15⌉₊ * 15 := by exact_mod_cast h
    omega

/-! ## Lemmas: counting objects and histograms -/

theorem sumValues_bump (k : String) (o : CountObj) (total : Nat)
    (hk : k ∉ objectPrototypeKeys) (ho : sumValues o = some total) :
    sumValues (bump k o) = some (total + 1) := by
  induction o generalizing total with
  | nil =>
    rw [bump_nil k hk]
    simp only [sumValues] at ho ⊢
    injection ho with ho
    subst ho
    rfl
  | cons p rest ih =>
    obtain ⟨k1, v⟩ := p
    cases v with
    | text => simp [sumValues] at ho
    | num n =>
      simp only [sumValues, Option.map_eq_some'] at ho
      obtain ⟨t1, h1, h2⟩ := ho
      unfold bump
      by_cases hkk : k1 = k
      · rw [if_pos hkk]
        simp only [sumValues, h1, Option.map_some']
        congr 1
        omega
      · rw [if_neg hkk]
        simp only [sumValues, ih t1 h1, Option.map_some']
        congr 1
        omega

theorem sumValues_foldl_bump (key : Entry → JsVal) (l : List Entry) (acc : CountObj)
    (total : Nat) (hl : ∀ e ∈ l, toPropertyKey (key e) ∉ objectPrototypeKeys)
    (ha : sumValues acc = some total) :
    sumValues (l.foldl (fun acc log => bump (toPropertyKey (key log)) acc) acc) =
      some (total + l.length) := by
  induction l generalizing acc total with
  | nil => simpa using ha
  | cons a l ih =>
    rw [List.foldl_cons, ih _ (total + 1) (fun e he => hl e (List.mem_cons_of_mem _ he))
      (sumValues_bump _ acc total (hl a (List.mem_cons_self _ _)) ha), List.length_cons]
    congr 1
    omega

/-- When no key is the name of an inherited property, the values of a counting object are
numbers whose sum is the number of entries counted. -/
theorem sumValues_countBy (key : Entry → JsVal) (l : List Entry)
    (hl : ∀ e ∈ l, toPropertyKey (key e) ∉ objectPrototypeKeys) :
    sumValues (countBy key l) = some l.length := by
  have h := sumValues_foldl_bump key l [] 0 hl rfl
  simpa [countBy] using h

/-- The values of `actionsCount` and of `rolesCount` sum to `totalLogs`, the length of the
list, when no action or role key is the name of an inherited property. -/
theorem counts_sum_to_totalLogs (l : List Entry) :
    totalLogs l = l.length ∧
    ((∀ e ∈ l, toPropertyKey e.action ∉ objectPrototypeKeys) →
      sumValues (actionsCount l) = some (totalLogs l)) ∧
    ((∀ e ∈ l, toPropertyKey e.role ∉ objectPrototypeKeys) →
      sumValues (rolesCount l) = some (totalLogs l)) := by
  have ht : totalLogs l = l.length := by
    unfold totalLogs
    split <;> simp_all
  refine ⟨ht, ?_, ?_⟩
  · intro h
    rw [ht]
    unfold actionsCount
    split
    · simp_all [sumValues]
    · exact sumValues_countBy _ l h
  · intro h
    rw [ht]
    unfold rolesCount
    split
    · simp_all [sumValues]
    · exact sumValues_countBy _ l h

theorem inHour_iff (env : Env) (hour : Nat) (e : Entry) :
    inHour env hour e = true ↔
      ∃ t, newDate env e.timestamp = some t ∧ (env.getHours t).val = hour := by
  unfold inHour
  cases newDate env e.timestamp <;> simp

theorem sum_hour_indicator (v : Fin 24) :
    ((List.range 24).map fun hour => if v.val = hour then 1 else 0).sum = 1 := by
  revert v
  decide

theorem sum_inHour (env : Env) (e : Entry) :
    ((List.range 24).map fun hour => if inHour env hour e = true then 1 else 0).sum =
      if (newDate env e.timestamp).isSome = true then 1 else 0 := by
  unfold inHour
  cases newDate env e.timestamp with
  | none => simp
  | some t => simpa using sum_hour_indicator (env.getHours t)

/-- The counts of the 24 hour buckets add up to the number of entries with a valid date. -/
theorem sum_hour_counts (env : Env) (l : List Entry) :
    ((List.range 24).map fun hour => (l.filter (inHour env hour)).length).sum =
      (l.filter fun e => (newDate env e.timestamp).isSome).length := by
  induction l with
  | nil => simp
  | cons a l ih =>
    have hstep : (fun hour => ((a :: l).filter (inHour env hour)).length) =
        fun hour => (if inHour env hour a = true then 1 else 0) +
          (l.filter (inHour env hour)).length := by
      funext hour
      rw [List.filter_cons]
      split <;> simp [Nat.add_comm]
    rw [hstep, List.sum_map_add, sum_inHour, ih, List.filter_cons]
    split <;> simp [Nat.add_comm]

theorem allSome_map {α β : Type} (f : α → Option β) (g : α → β) (l : List α)
    (h : ∀ a ∈ l, f a = some (g a)) : allSome (l.map f) = some (l.map g) := by
  induction l with
  | nil => rfl
  | cons a l ih =>
    rw [List.map_cons, h a (List.mem_cons_self _ _), List.map_cons]
    simp only [allSome]
    rw [ih fun b hb => h b (List.mem_cons_of_mem _ hb)]
    rfl

theorem allSome_eq_none {α β : Type} (f : α → Option β) (l : List α) (a : α) (ha : a ∈ l)
    (h : f a = none) : allSome (l.map f) = none := by
  induction l with
  | nil => cases ha
  | cons b l ih =>
    rw [List.map_cons]
    cases hb : f b with
    | none => rfl
    | some v =>
      simp only [allSome]
      rcases List.mem_cons.1 ha with rfl | hl
      · rw [h] at hb
        cases hb
      · rw [ih hl]
        rfl

theorem onDate_iff (env : Env) (dateStr : String) (e : Entry) :
    onDate env dateStr e = true ↔
      ∃ t, newDate env e.timestamp = some t ∧ isoDate t = dateStr := by
  unfold onDate
  cases newDate env e.timestamp <;> simp

/-- The seven buckets of `dailyActivity` for a non-empty list, when the seven bucket dates
are in range: bucket `i` has the date `now` moved `6 - i` local days back, is keyed by the UTC
calendar date of that instant and counts the entries whose timestamp is a valid date with the
same UTC calendar date. -/
theorem dailyActivity_buckets (env : Env) (now : Int) (l : List Entry) (hl : l ≠ [])
    (d : Nat → Int) (hd : ∀ i : Nat, i < 7 → env.minusDays now (6 - (i : Int)) = some (d i)) :
    dailyActivity env now l = some ((List.range 7).map fun i =>
      ⟨env.weekdayShort (d i), (l.filter (onDate env (isoDate (d i)))).length, isoDate (d i)⟩) := by
  have hlen : ¬l.length = 0 := fun h => hl (List.length_eq_zero.1 h)
  unfold dailyActivity
  rw [if_neg hlen]
  apply allSome_map
  intro i hi
  unfold dayBucket
  rw [hd i (List.mem_range.1 hi)]

/-- The analytics computation throws only when a bucket date of `dailyActivity` is out of
range, which depends on the clock and not on the entries. -/
theorem analytics_returns (env : Env) (now : Int) (l : List Entry)
    (hd : ∀ i : Nat, i < 7 → (env.minusDays now (6 - (i : Int))).isSome = true) :
    ∃ a, analytics env now l = some a := by
  by_cases hl : l = []
  · rw [hl]
    exact ⟨_, rfl⟩
  · have h := dailyActivity_buckets env now l hl
      (fun i => (env.minusDays now (6 - (i : Int))).getD 0)
      (fun i hi => by
        cases hm : env.minusDays now (6 - (i : Int)) with
        | none => have := hd i hi; rw [hm] at this; cases this
        | some t => simp only [hm, Option.getD_some])
    unfold analytics
    rw [h]
    exact ⟨_, rfl⟩

/-- On a platform whose days in the window all have 24 hours, the seven buckets of
`dailyActivity` are keyed by seven consecutive UTC days that end with the UTC day of `now`. -/
theorem dailyActivity_days_of_fixed_offset (env : Env) (now : Int) (l : List Entry)
    (hl : l ≠ [])
    (hd : ∀ i : Nat, i < 7 →
      env.minusDays now (6 - (i : Int)) = some (now - (6 - (i : Int)) * 86400000)) :
    dailyActivity env now l = some ((List.range 7).map fun i =>
      ⟨env.weekdayShort (now - (6 - (i : Int)) * 86400000),
        (l.filter (onDate env (isoDate (now - (6 - (i : Int)) * 86400000)))).length,
        isoDate (now - (6 - (i : Int)) * 86400000)⟩) ∧
    ∀ i : Nat, i < 7 → utcDay (now - (6 - (i : Int)) * 86400000) = utcDay now - (6 - (i : Int)) := by
  refine ⟨dailyActivity_buckets env now l hl _ hd, ?_⟩
  intro i _
  unfold utcDay
  omega

/-! ## Lemmas: what a counting object holds -/

theorem keys_bump (k : String) (o : CountObj) (hk : k ∉ objectPrototypeKeys) :
    (bump k o).map Prod.fst =
      if k ∈ o.map Prod.fst then o.map Prod.fst else o.map Prod.fst ++ [k] := by
  induction o with
  | nil => rw [bump_nil k hk]; rfl
  | cons p rest ih =>
    obtain ⟨k1, v⟩ := p
    unfold bump
    by_cases hkk : k1 = k
    · rw [if_pos hkk]
      simp [hkk]
    · rw [if_neg hkk, List.map_cons, ih]
      have hne : ¬k = k1 := fun h => hkk h.symm
      by_cases hmem : k ∈ rest.map Prod.fst
      · simp [hmem]
      · simp [hmem, hne]

theorem allCounts_bump (k : String) (o : CountObj) (hk : k ∉ objectPrototypeKeys)
    (ho : AllCounts o) : AllCounts (bump k o) := by
  induction o with
  | nil =>
    rw [bump_nil k hk]
    intro p hp
    simp only [List.mem_singleton] at hp
    exact ⟨1, Nat.one_pos, by rw [hp]⟩
  | cons p rest ih =>
    obtain ⟨k1, v⟩ := p
    have hrest : AllCounts rest := fun q hq => ho q (List.mem_cons_of_mem _ hq)
    obtain ⟨n, hn, hv⟩ := ho (k1, v) (List.mem_cons_self _ _)
    simp only at hv
    subst hv
    unfold bump
    by_cases hkk : k1 = k
    · rw [if_pos hkk]
      intro q hq
      rcases List.mem_cons.1 hq with rfl | hq
      · exact ⟨n + 1, Nat.succ_pos n, rfl⟩
      · exact hrest q hq
    · rw [if_neg hkk]
      intro q hq
      rcases List.mem_cons.1 hq with rfl | hq
      · exact ⟨n, hn, rfl⟩
      · exact ih hrest q hq

theorem countOf_bump (k : String) (o : CountObj) (hk : k ∉ objectPrototypeKeys)
    (ho : AllCounts o) (k0 : String) :
    countOf (bump k o) k0 = countOf o k0 + if k0 = k then 1 else 0 := by
  induction o with
  | nil =>
    rw [bump_nil k hk]
    simp only [countOf]
    by_cases h : k = k0
    · simp [h]
    · have h1 : ¬k0 = k := fun e => h e.symm
      simp [h, h1]
  | cons p rest ih =>
    obtain ⟨k1, v⟩ := p
    have hrest : AllCounts rest := fun q hq => ho q (List.mem_cons_of_mem _ hq)
    obtain ⟨n, -, hv⟩ := ho (k1, v) (List.mem_cons_self _ _)
    simp only at hv
    subst hv
    unfold bump
    by_cases hkk : k1 = k
    · rw [if_pos hkk]
      subst hkk
      simp only [countOf]
      by_cases h : k1 = k0
      · simp [h]
      · have h1 : ¬k0 = k1 := fun e => h e.symm
        simp [h, h1]
    · rw [if_neg hkk]
      simp only [countOf]
      by_cases h : k1 = k0
      · have h1 : ¬k0 = k := fun e => hkk (h.trans e)
        simp [h, h1]
      · simp only [if_neg h]
        exact ih hrest

theorem counts_bump (k : String) (o : CountObj) (ks : List String)
    (hk : k ∉ objectPrototypeKeys) (ho : Counts o ks) : Counts (bump k o) (ks ++ [k]) := by
  obtain ⟨hnd, hall, hmem, hcount⟩ := ho
  refine ⟨?_, allCounts_bump k o hk hall, ?_, ?_⟩
  · rw [keys_bump k o hk]
    split
    · exact hnd
    · rename_i hnot
      rw [List.nodup_append]
      refine ⟨hnd, List.nodup_singleton k, ?_⟩
      intro a ha hb
      rw [List.mem_singleton] at hb
      exact hnot (hb ▸ ha)
  · intro k0
    rw [keys_bump k o hk, List.mem_append, List.mem_singleton, ← hmem k0]
    split
    · rename_i hin
      constructor
      · exact fun h => Or.inl h
      · rintro (h | h)
        · exact h
        · rw [h]; exact hin
    · rw [List.mem_append, List.mem_singleton]
  · intro k0
    rw [countOf_bump k o hk hall, hcount k0, List.count_append, List.count_singleton]
    congr 1
    by_cases h : k0 = k
    · simp [h]
    · have h1 : ¬k = k0 := fun e => h e.symm
      simp [h, h1]

theorem counts_foldl (key : Entry → JsVal) (l : List Entry) (acc : CountObj)
    (ks : List String) (hl : ∀ e ∈ l, toPropertyKey (key e) ∉ objectPrototypeKeys)
    (ha : Counts acc ks) :
    Counts (l.foldl (fun acc log => bump (toPropertyKey (key log)) acc) acc)
      (ks ++ l.map fun e => toPropertyKey (key e)) := by
  induction l generalizing acc ks with
  | nil => simpa using ha
  | cons a l ih =>
    have h := ih (bump (toPropertyKey (key a)) acc) (ks ++ [toPropertyKey (key a)])
      (fun e he => hl e (List.mem_cons_of_mem _ he))
      (counts_bump _ acc ks (hl a (List.mem_cons_self _ _)) ha)
    simpa using h

/-- When no key is the name of an inherited property, the counting object of a list holds
each key of the list once, with the number of entries that have the key. -/
theorem counts_countBy (key : Entry → JsVal) (l : List Entry)
    (hl : ∀ e ∈ l, toPropertyKey (key e) ∉ objectPrototypeKeys) :
    Counts (countBy key l) (l.map fun e => toPropertyKey (key e)) := by
  have h := counts_foldl key l [] [] hl
    ⟨List.nodup_nil, fun p hp => (by cases hp), fun k => Iff.rfl, fun k => rfl⟩
  simpa [countBy] using h

theorem countOf_of_mem (o : CountObj) (hnd : (o.map Prod.fst).Nodup) (p : String × CountVal)
    (hp : p ∈ o) : countOf o p.1 = p.2.toNat := by
  induction o with
  | nil => cases hp
  | cons q rest ih =>
    obtain ⟨k1, v⟩ := q
    rw [List.map_cons, List.nodup_cons] at hnd
    simp only [countOf]
    rcases List.mem_cons.1 hp with rfl | hrest
    · simp only [if_true]
      cases v <;> rfl
    · have hne : ¬k1 = p.1 := by
        intro h
        apply hnd.1
        rw [h]
        exact List.mem_map.2 ⟨p, hrest, rfl⟩
      rw [if_neg hne]
      exact ih hnd.2 hrest

theorem objectEntries_perm (o : CountObj) : (objectEntries o).Perm o := by
  unfold objectEntries
  exact ((List.perm_insertionSort _ _).append_right _).trans (List.filter_append_perm _ o)

theorem jsSort_compareCounts (l : List (String × CountVal)) (hl : AllCounts l) :
    jsSort compareCounts l =
      l.insertionSort fun a b => -(a.2.toNat : Int) ≤ -(b.2.toNat : Int) := by
  unfold jsSort
  apply insertionSort_congr
  intro a ha b hb
  obtain ⟨n, -, hn⟩ := hl a ha
  obtain ⟨m, -, hm⟩ := hl b hb
  unfold sortCompare compareCounts
  rw [hn, hm]
  simp only [Option.getD_some, CountVal.toNat]
  omega

/-- With ordinary user names: `topUsers` lists `min(5, number of distinct names)` users, each
once and with the number of its entries, in non-increasing order of count, and no user left
out has more entries than a user listed. -/
theorem topUsers_of_ordinary_names (l : List Entry) (hl : l ≠ [])
    (hk : ∀ e ∈ l, toPropertyKey e.user_name ∉ objectPrototypeKeys) :
    (topUsers l).length = min 5 (l.map fun e => toPropertyKey e.user_name).dedup.length ∧
    (∀ u ∈ topUsers l, u.user ∈ (l.map fun e => toPropertyKey e.user_name) ∧
      u.count = .num ((l.map fun e => toPropertyKey e.user_name).count u.user)) ∧
    ((topUsers l).map fun u => u.user).Nodup ∧
    (topUsers l).Pairwise (fun a b => b.count.toNat ≤ a.count.toNat) ∧
    (∀ name ∈ (l.map fun e => toPropertyKey e.user_name),
      name ∉ ((topUsers l).map fun u => u.user) →
        ∀ u ∈ topUsers l,
          (l.map fun e => toPropertyKey e.user_name).count name ≤ u.count.toNat) := by
  have hlen : ¬l.length = 0 := fun h => hl (List.length_eq_zero.1 h)
  obtain ⟨hnd, hall, hmem, hcount⟩ := counts_countBy (fun e => e.user_name) l hk
  have hpe := objectEntries_perm (countBy (fun e => e.user_name) l)
  have hallE : AllCounts (objectEntries (countBy (fun e => e.user_name) l)) :=
    fun p hp => hall p (hpe.mem_iff.1 hp)
  have hps := jsSort_perm compareCounts (objectEntries (countBy (fun e => e.user_name) l))
  have hsorted : (jsSort compareCounts
      (objectEntries (countBy (fun e => e.user_name) l))).Pairwise
        fun a b => b.2.toNat ≤ a.2.toNat := by
    rw [jsSort_compareCounts _ hallE]
    refine (sorted_insertionSort_key (fun p : String × CountVal => -(p.2.toNat : Int)) _).imp ?_
    intro a b h
    omega
  generalize hS : jsSort compareCounts
      (objectEntries (countBy (fun e => e.user_name) l)) = S at hps hsorted
  have hpo : S.Perm (countBy (fun e => e.user_name) l) := hps.trans hpe
  have htop : topUsers l = (S.take 5).map fun p => ⟨p.1, p.2⟩ := by
    unfold topUsers
    rw [if_neg hlen, hS]
  have hval : ∀ p ∈ S, p.1 ∈ (l.map fun e => toPropertyKey e.user_name) ∧
      p.2 = .num ((l.map fun e => toPropertyKey e.user_name).count p.1) := by
    intro p hp
    have hpin := hpo.mem_iff.1 hp
    obtain ⟨n, -, hn⟩ := hall p hpin
    have h1 := countOf_of_mem _ hnd p hpin
    rw [hcount, hn] at h1
    refine ⟨(hmem p.1).1 (List.mem_map.2 ⟨p, hpin, rfl⟩), ?_⟩
    rw [hn, h1]
    rfl
  have hkeys : (S.map Prod.fst).Nodup := ((hpo.map Prod.fst).nodup_iff).2 hnd
  refine ⟨?_, ?_, ?_, ?_, ?_⟩
  · rw [htop, List.length_map, List.length_take, hpo.length_eq,
      ← List.length_map (countBy (fun e => e.user_name) l) Prod.fst]
    congr 1
    apply List.Perm.length_eq
    rw [List.perm_ext_iff_of_nodup hnd (List.nodup_dedup _)]
    intro a
    rw [hmem a, List.mem_dedup]
  · intro u hu
    rw [htop] at hu
    obtain ⟨p, hp, rfl⟩ := List.mem_map.1 hu
    exact hval p (List.mem_of_mem_take hp)
  · rw [htop, List.map_map]
    exact hkeys.sublist ((List.take_sublist 5 S).map Prod.fst)
  · rw [htop]
    exact (hsorted.sublist (List.take_sublist 5 S)).map _ fun a b h => h
  · intro name hname hnot u hu
    rw [htop] at hu hnot
    obtain ⟨q, hq, rfl⟩ := List.mem_map.1 hu
    obtain ⟨p, hp, hp1⟩ := List.mem_map.1 ((hmem name).2 hname)
    have hpS : p ∈ S := hpo.mem_iff.2 hp
    have hpdrop : p ∈ S.drop 5 := by
      rw [← List.take_append_drop 5 S, List.mem_append] at hpS
      rcases hpS with h | h
      · exact absurd (List.mem_map.2 ⟨⟨p.1, p.2⟩, List.mem_map.2 ⟨p, h, rfl⟩, hp1⟩) hnot
      · exact h
    have happ := hsorted
    rw [← List.take_append_drop 5 S, List.pairwise_append] at happ
    have hle := happ.2.2 q hq p hpdrop
    have hv := (hval p hpS).2
    rw [hp1] at hv
    rw [hv] at hle
    exact hle

theorem foldl_moreActive (l : List (String × CountVal)) (hl : AllCounts l) (m : ActiveAction) :
    (l.foldl moreActive m = m ∨
        ((l.foldl moreActive m).action, CountVal.num (l.foldl moreActive m).count) ∈ l) ∧
      m.count ≤ (l.foldl moreActive m).count ∧
      ∀ p ∈ l, p.2.toNat ≤ (l.foldl moreActive m).count := by
  induction l generalizing m with
  | nil => exact ⟨Or.inl rfl, le_refl _, fun p hp => (by cases hp)⟩
  | cons a l ih =>
    obtain ⟨n, -, hn⟩ := hl a (List.mem_cons_self _ _)
    have hrest : AllCounts l := fun q hq => hl q (List.mem_cons_of_mem _ hq)
    obtain ⟨h1, h2, h3⟩ := ih hrest (moreActive m a)
    rw [List.foldl_cons]
    have hstep : (moreActive m a = m ∧ n ≤ m.count) ∨
        (moreActive m a = ⟨a.1, n⟩ ∧ m.count < n) := by
      unfold moreActive
      rw [hn]
      by_cases hgt : n > m.count
      · right
        simp [hgt]
      · left
        simp only [if_neg hgt, true_and]
        omega
    have ha2 : a.2.toNat = n := by rw [hn]; rfl
    rcases hstep with ⟨hs, hle⟩ | ⟨hs, hlt⟩
    · rw [hs] at h1 h2 h3 ⊢
      refine ⟨?_, h2, ?_⟩
      · rcases h1 with h | h
        · exact Or.inl h
        · exact Or.inr (List.mem_cons_of_mem _ h)
      · intro p hp
        rcases List.mem_cons.1 hp with rfl | hp
        · rw [ha2]; omega
        · exact h3 p hp
    · rw [hs] at h1 h2 h3 ⊢
      simp only at h2
      refine ⟨Or.inr ?_, by omega, ?_⟩
      · rcases h1 with h | h
        · rw [h]
          have : ((a.1, CountVal.num n) : String × CountVal) = a := by
            rw [← hn]
          rw [this]
          exact List.mem_cons_self _ _
        · exact List.mem_cons_of_mem _ h
      · intro p hp
        rcases List.mem_cons.1 hp with rfl | hp
        · rw [ha2]; exact h2
        · exact h3 p hp

/-- With ordinary action codes: `mostActiveAction` is an action of the list, its count is the
number of entries with that action, and no action has more entries. -/
theorem mostActiveAction_of_ordinary_actions (l : List Entry) (hl : l ≠ [])
    (hk : ∀ e ∈ l, toPropertyKey e.action ∉ objectPrototypeKeys) :
    (mostActiveAction l).action ∈ (l.map fun e => toPropertyKey e.action) ∧
    (mostActiveAction l).count =
      (l.map fun e => toPropertyKey e.action).count (mostActiveAction l).action ∧
    ∀ k, (l.map fun e => toPropertyKey e.action).count k ≤ (mostActiveAction l).count := by
  have hlen : ¬l.length = 0 := fun h => hl (List.length_eq_zero.1 h)
  obtain ⟨hnd, hall, hmem, hcount⟩ := counts_countBy (fun e => e.action) l hk
  have hpe := objectEntries_perm (countBy (fun e => e.action) l)
  have hallE : AllCounts (objectEntries (countBy (fun e => e.action) l)) :=
    fun p hp => hall p (hpe.mem_iff.1 hp)
  have hdef : mostActiveAction l =
      (objectEntries (countBy (fun e => e.action) l)).foldl moreActive ⟨"", 0⟩ := by
    unfold mostActiveAction actionsCount
    rw [if_neg hlen]
  obtain ⟨h1, -, h3⟩ := foldl_moreActive _ hallE ⟨"", 0⟩
  rw [← hdef] at h1 h3
  have hmax : ∀ k, (l.map fun e => toPropertyKey e.action).count k ≤
      (mostActiveAction l).count := by
    intro k
    by_cases hin : k ∈ (l.map fun e => toPropertyKey e.action)
    · obtain ⟨p, hp, hp1⟩ := List.mem_map.1 ((hmem k).2 hin)
      have h := h3 p (hpe.mem_iff.2 hp)
      rw [← countOf_of_mem _ hnd p hp, hcount, hp1] at h
      exact h
    · rw [List.count_eq_zero_of_not_mem hin]
      exact Nat.zero_le _
  have hin : ((mostActiveAction l).action, CountVal.num (mostActiveAction l).count) ∈
      countBy (fun e => e.action) l := by
    rcases h1 with h | h
    · obtain ⟨e, l1, rfl⟩ := List.exists_cons_of_ne_nil hl
      have hpos := hmax (toPropertyKey e.action)
      rw [h] at hpos
      simp at hpos
    · exact hpe.mem_iff.1 h
  have hc := countOf_of_mem _ hnd _ hin
  rw [hcount] at hc
  exact ⟨(hmem _).1 (List.mem_map.2 ⟨_, hin, rfl⟩), hc.symm, hmax⟩

theorem foldl_max_hour (l : List HourBucket) (m : HourBucket) :
    (l.foldl (fun max hour => if hour.count > max.count then hour else max) m = m ∨
        l.foldl (fun max hour => if hour.count > max.count then hour else max) m ∈ l) ∧
      m.count ≤ (l.foldl (fun max hour => if hour.count > max.count then hour else max) m).count ∧
      ∀ b ∈ l, b.count ≤
        (l.foldl (fun max hour => if hour.count > max.count then hour else max) m).count := by
  induction l generalizing m with
  | nil => exact ⟨Or.inl rfl, le_refl _, fun b hb => (by cases hb)⟩
  | cons a l ih =>
    rw [List.foldl_cons]
    by_cases hgt : a.count > m.count
    · rw [if_pos hgt]
      obtain ⟨h1, h2, h3⟩ := ih a
      refine ⟨Or.inr ?_, by omega, ?_⟩
      · rcases h1 with h | h
        · rw [h]; exact List.mem_cons_self _ _
        · exact List.mem_cons_of_mem _ h
      · intro b hb
        rcases List.mem_cons.1 hb with rfl | hb
        · exact h2
        · exact h3 b hb
    · rw [if_neg hgt]
      obtain ⟨h1, h2, h3⟩ := ih m
      refine ⟨?_, h2, ?_⟩
      · rcases h1 with h | h
        · exact Or.inl h
        · exact Or.inr (List.mem_cons_of_mem _ h)
      · intro b hb
        rcases List.mem_cons.1 hb with rfl | hb
        · omega
        · exact h3 b hb

/-- The bucket `mostActiveHour`: its count is the maximum over the buckets of
`hourlyActivity`; it is one of these buckets, or the initial value with hour `0:00` and
count 0, which it is when every bucket is zero. -/
theorem mostActiveHour_is_maximal (env : Env) (l : List Entry) :
    (∀ b ∈ hourlyActivity env l, b.count ≤ (mostActiveHour env l).count) ∧
    (mostActiveHour env l ∈ hourlyActivity env l ∨ mostActiveHour env l = ⟨"0:00", 0⟩) ∧
    ((∀ b ∈ hourlyActivity env l, b.count = 0) → mostActiveHour env l = ⟨"0:00", 0⟩) := by
  obtain ⟨h1, -, h3⟩ := foldl_max_hour (hourlyActivity env l) ⟨"0:00", 0⟩
  refine ⟨h3, h1.symm, ?_⟩
  intro hz
  unfold mostActiveHour
  generalize hourlyActivity env l = hours at hz
  induction hours with
  | nil => rfl
  | cons a rest ih =>
    rw [List.foldl_cons, if_neg (by rw [hz a (List.mem_cons_self _ _)]; exact Nat.lt_irrefl 0)]
    exact ih fun b hb => hz b (List.mem_cons_of_mem _ hb)

/-! ## Lemmas: the pagination controls -/

/-- The numbered buttons are the pages from `startPage` to `endPage`. -/
theorem mem_pageNumbers (currentPage totalPages i : Int) :
    i ∈ pageNumbers currentPage totalPages ↔
      max 1 (currentPage - 2) ≤ i ∧ i ≤ min totalPages (currentPage + 2) := by
  simp only [pageNumbers, List.mem_map, List.mem_range]
  constructor
  · rintro ⟨k, hk, rfl⟩
    omega
  · intro h
    exact ⟨(i - max 1 (currentPage - 2)).toNat, by omega, by omega⟩

/-- The numbered buttons follow one another in steps of one page. -/
theorem pageNumbers_chain (currentPage totalPages : Int) :
    (pageNumbers currentPage totalPages).Chain' fun a b => b = a + 1 := by
  simp only [pageNumbers]
  generalize (min totalPages (currentPage + 2) - max 1 (currentPage - 2) + 1).toNat = n
  generalize max 1 (currentPage - 2) = a
  rw [List.chain'_iff_get]
  intro i hi
  simp only [List.get_eq_getElem, List.getElem_map, List.getElem_range]
  push_cast
  ring

/-- No page has two numbered buttons. -/
theorem pageNumbers_nodup (currentPage totalPages : Int) :
    (pageNumbers currentPage totalPages).Nodup := by
  simp only [pageNumbers]
  exact (List.nodup_range _).map fun a b h => by simpa using h

/-- A list without repetition is no longer than a list that holds all its members. -/
theorem length_le_of_nodup_of_subset {l m : List Int} (hl : l.Nodup) (h : l ⊆ m) :
    l.length ≤ m.length :=
  (List.subperm_of_subset hl h).length_le

/-- For `1 ≤ currentPage ≤ totalPages` the loop of the numbered buttons pushes exactly the
pages from `max(1, currentPage - 2)` to `min(totalPages, currentPage + 2)`, consecutive and in
ascending order; `currentPage` is one of them, at most two lie before it and at most two after
it, there are at most five, and each lies between 1 and `totalPages`. -/
theorem pageNumbers_window (currentPage totalPages : Int) (h1 : 1 ≤ currentPage)
    (h2 : currentPage ≤ totalPages) :
    (∀ i, i ∈ pageNumbers currentPage totalPages ↔
      max 1 (currentPage - 2) ≤ i ∧ i ≤ min totalPages (currentPage + 2)) ∧
    ((pageNumbers currentPage totalPages).Chain' fun a b => b = a + 1) ∧
    currentPage ∈ pageNumbers currentPage totalPages ∧
    ((pageNumbers currentPage totalPages).filter fun i => i < currentPage).length ≤ 2 ∧
    ((pageNumbers currentPage totalPages).filter fun i => currentPage < i).length ≤ 2 ∧
    (pageNumbers currentPage totalPages).length ≤ 5 ∧
    (∀ i ∈ pageNumbers currentPage totalPages, 1 ≤ i ∧ i ≤ totalPages) := by
  refine ⟨mem_pageNumbers _ _, pageNumbers_chain _ _, ?_, ?_, ?_, ?_, ?_⟩
  · rw [mem_pageNumbers]; omega
  · have hsub : ((pageNumbers currentPage totalPages).filter fun i => i < currentPage) ⊆
        [currentPage - 2, currentPage - 1] := by
      intro i hi
      simp only [List.mem_filter, mem_pageNumbers, decide_eq_true_eq] at hi
      simp only [List.mem_cons, List.mem_singleton, List.not_mem_nil, or_false]
      omega
    exact length_le_of_nodup_of_subset ((pageNumbers_nodup currentPage totalPages).filter _) hsub
  · have hsub : ((pageNumbers currentPage totalPages).filter fun i => currentPage < i) ⊆
        [currentPage + 1, currentPage + 2] := by
      intro i hi
      simp only [List.mem_filter, mem_pageNumbers, decide_eq_true_eq] at hi
      simp only [List.mem_cons, List.mem_singleton, List.not_mem_nil, or_false]
      omega
    exact length_le_of_nodup_of_subset ((pageNumbers_nodup currentPage totalPages).filter _) hsub
  · simp only [pageNumbers, List.length_map, List.length_range]
    omega
  · intro i hi
    rw [mem_pageNumbers] at hi
    omega

/-- A click on a numbered button that is rendered sets `currentPage` to its number. -/
theorem step_pageNumber (env : Env) (s : State) (i : Int) (hs : paginationShown s = true)
    (hi : i ∈ pageNumbers s.currentPage (totalPages s)) :
    (step env (.pageNumber i) s).currentPage = i := by
  rw [mem_pageNumbers] at hi
  simp only [step, hs, true_and]
  rw [if_pos hi]

/-- A non-empty filtered list has at least one page. -/
theorem totalPages_pos (s : State) (h : s.filteredList ≠ []) : 1 ≤ totalPages s := by
  have : 0 < s.filteredList.length := List.length_pos.2 h
  simp only [totalPages, logsPerPage]
  omega

/-- Every event other than a successful `fetchLogs` response keeps `currentPage` at 1 or
above and, while the filtered list is non-empty, within the pages of that list. -/
theorem pageInRange_preserved (env : Env) (ev : Event) (s : State)
    (hev : ∀ data, ev ≠ .fetchSettle (some data)) (h1 : 1 ≤ s.currentPage)
    (h : s.filteredList ≠ [] → s.currentPage ≤ totalPages s) :
    1 ≤ (step env ev s).currentPage ∧
      ((step env ev s).filteredList ≠ [] → PageInRange (step env ev s)) := by
  have hshown : paginationShown s = true → s.currentPage ≤ totalPages s ∧ 1 < totalPages s := by
    intro hp
    simp only [paginationShown, tableShown, Bool.and_eq_true, decide_eq_true_eq] at hp
    exact ⟨h (List.length_pos.1 hp.1.2), hp.2⟩
  have hfresh : ∀ s1 : State, s1.currentPage = 1 →
      1 ≤ s1.currentPage ∧ (s1.filteredList ≠ [] → PageInRange s1) := by
    intro s1 hc
    refine ⟨by omega, fun hne => ⟨by omega, ?_⟩⟩
    have := totalPages_pos s1 hne
    omega
  have hsame : ∀ s1 : State, s1.currentPage = s.currentPage → s1.filteredList = s.filteredList →
      1 ≤ s1.currentPage ∧ (s1.filteredList ≠ [] → PageInRange s1) := by
    intro s1 hc hl
    have ht : totalPages s1 = totalPages s := by simp only [totalPages, hl]
    refine ⟨by omega, fun hne => ⟨by omega, ?_⟩⟩
    rw [hc, ht]
    exact h (hl ▸ hne)
  have hpage : ∀ p : Int, 1 ≤ p → p ≤ totalPages s →
      1 ≤ ({ s with currentPage := p } : State).currentPage ∧
      (({ s with currentPage := p } : State).filteredList ≠ [] →
        PageInRange { s with currentPage := p }) := by
    intro p hp1 hp2
    exact ⟨hp1, fun _ => ⟨hp1, hp2⟩⟩
  have happly : ∀ (now : Int) (s0 : State), s0.currentPage = s.currentPage →
      s0.filteredList = s.filteredList →
      1 ≤ (orKeep s0 (applyFilters env now s0)).currentPage ∧
      ((orKeep s0 (applyFilters env now s0)).filteredList ≠ [] →
        PageInRange (orKeep s0 (applyFilters env now s0))) := by
    intro now s0 hc hl
    cases hres : applyFilters env now s0 with
    | error e => exact hsame _ hc hl
    | ok s1 =>
      obtain ⟨-, l, -, rfl⟩ := applyFilters_eq_ok env now s0 s1 hres
      exact hfresh _ rfl
  cases ev with
  | fetchStart => exact hsame _ rfl rfl
  | fetchSettle response =>
    cases response with
    | none => exact hsame _ rfl rfl
    | some data => exact absurd rfl (hev data)
  | applyClick now => exact happly now s rfl rfl
  | resetClick => exact hfresh _ rfl
  | sortClick now =>
    simp only [step]
    split
    · exact happly now (handleSort "timestamp" s) rfl rfl
    · exact hsame _ rfl rfl
  | setFilterRole v =>
    simp only [step]
    split
    · exact hsame _ rfl rfl
    · exact hsame _ rfl rfl
  | setFilterAction v => exact hsame _ rfl rfl
  | setDateRange v =>
    simp only [step]
    split
    · exact hsame _ rfl rfl
    · exact hsame _ rfl rfl
  | setSearchTerm v => exact hsame _ rfl rfl
  | selectRow log =>
    simp only [step]
    split
    · exact hsame _ rfl rfl
    · exact hsame _ rfl rfl
  | closeDetail => exact hsame _ rfl rfl
  | pageFirst =>
    simp only [step]
    split
    · rename_i hc
      have := hshown hc.1
      exact hpage 1 (by omega) (by omega)
    · exact hsame _ rfl rfl
  | pagePrev =>
    simp only [step]
    split
    · rename_i hc
      have := hshown hc.1
      have := hc.2
      exact hpage _ (by omega) (by omega)
    · exact hsame _ rfl rfl
  | pageNumber i =>
    simp only [step]
    split
    · rename_i hc
      have := hshown hc.1
      exact hpage _ (by omega) (by omega)
    · exact hsame _ rfl rfl
  | pageNext =>
    simp only [step]
    split
    · rename_i hc
      have := hshown hc.1
      have := hc.2
      exact hpage _ (by omega) (by omega)
    · exact hsame _ rfl rfl
  | pageLast =>
    simp only [step]
    split
    · rename_i hc
      have := hshown hc.1
      exact hpage _ (by omega) (by omega)
    · exact hsame _ rfl rfl
  | setViewMode a => exact hsame _ rfl rfl
  | setAutoRefresh b => exact hsame _ rfl rfl

/-! ## Lemmas: the export and the cells that show the user name -/

/-- The month is one of twelve and the day at most 31, on every day number. -/
theorem civilFromDays_month_day (day : Int) :
    1 ≤ (civilFromDays day).2.1 ∧ (civilFromDays day).2.1 ≤ 12 ∧
      1 ≤ (civilFromDays day).2.2 ∧ (civilFromDays day).2.2 ≤ 31 := by
  simp only [civilFromDays]
  refine ⟨?_, ?_, ?_, ?_⟩
  · split <;> omega
  · split <;> omega
  · omega
  · omega

/-- A search for a name the entry carries under `user_name` keeps the entry, on every
platform and at every clock time. -/
theorem search_keeps_named_entry (env : Env) (now : Int) (e : Entry) (n : String)
    (hn : n ≠ "") (hu : e.user_name = .str n) :
    filterAndSort env now (searchOnly n) [e] = .ok [e] := by
  have hinc : includes (env.toLowerCase n) (env.toLowerCase n) = true := by
    simp only [includes, decide_eq_true_eq]
    exact List.infix_refl _
  have hm : searchMatches env (env.toLowerCase n) e = .ok true := by
    simp only [searchMatches, optIncludes, hu, hinc]
  simp only [filterAndSort, searchOnly, roleFilter, actionFilter, searchFilter, dateRangeFilter,
    ne_eq, not_true_eq_false, if_false, hn, not_false_eq_true, if_true, Except.bind, filterE, hm,
    Except.map, and_false, jsSort, List.insertionSort, List.orderedInsert]

/-- For an entry that carries the same non-blank name under `userName` and under `user_name`,
the table row and the detail view show that name, a search for it keeps the entry and the
one-entry list has one unique user. -/
theorem row_agrees_when_both_keys_agree (env : Env) (now : Int) (e : Entry) (n : String)
    (hn : jsTrim n ≠ "") (hu : e.user_name = .str n) (hc : e.userName = .str n) :
    rowUserName e = .str n ∧ detailUserName e = .str n ∧
      filterAndSort env now (searchOnly n) [e] = .ok [e] ∧ uniqueUsers [e] = 1 := by
  have hne : n ≠ "" := by
    rintro rfl
    exact hn (by decide)
  refine ⟨?_, hu, search_keeps_named_entry env now e n hne hu, ?_⟩
  · simp only [rowUserName, hc, JsVal.truthy, hne, ne_eq, not_false_eq_true, decide_True, if_true]
  · simp [uniqueUsers, hasUserName, trimmedUserName, hu, hne, hn]

/-! ## Lemmas: the patterns of the forms -/

/-- Nothing matches `never`. -/
theorem Regex.matches_never (s : List Char) : Regex.never.matches s = false := by
  induction s with
  | nil => rfl
  | cons c s ih => exact ih

/-- Only the empty string matches `empty`. -/
theorem Regex.matches_empty (s : List Char) : Regex.empty.matches s = decide (s = []) := by
  cases s with
  | nil => rfl
  | cons c s => simpa [Regex.matches, Regex.deriv] using Regex.matches_never s

/-- An alternative matches when one of its sides does. -/
theorem Regex.matches_alt (a b : Regex) (s : List Char) :
    (Regex.alt a b).matches s = (a.matches s || b.matches s) := by
  induction s generalizing a b with
  | nil => rfl
  | cons c s ih => exact ih _ _

/-- Nothing matches a sequence that starts with `never`. -/
theorem Regex.matches_seq_never (r : Regex) (s : List Char) :
    (Regex.seq .never r).matches s = false := by
  induction s with
  | nil => rfl
  | cons c s ih => exact ih

/-- A sequence that starts with `empty` matches what its second part matches. -/
theorem Regex.matches_seq_empty (r : Regex) (s : List Char) :
    (Regex.seq .empty r).matches s = r.matches s := by
  cases s with
  | nil => rfl
  | cons c s =>
    show (Regex.alt (.seq .never r) (r.deriv c)).matches s = (r.deriv c).matches s
    rw [Regex.matches_alt, Regex.matches_seq_never, Bool.false_or]

/-- A class followed by a pattern matches a string whose first character is in the class
and whose rest matches the pattern. -/
theorem Regex.matches_seq_cls (k : CharClass) (r : Regex) (s : List Char) :
    (Regex.seq (.cls k) r).matches s =
      match s with
      | [] => false
      | c :: rest => k.test c && r.matches rest := by
  cases s with
  | nil => rfl
  | cons c s =>
    show (Regex.seq (if k.test c then Regex.empty else Regex.never) r).matches s =
      (k.test c && r.matches s)
    cases h : k.test c
    · simp [Regex.matches_seq_never]
    · simp [Regex.matches_seq_empty]

/-- The pattern `k{n}` matches the strings of `n` characters of the class. -/
theorem Regex.matches_times_cls (k : CharClass) (n : Nat) (s : List Char) :
    (Regex.times n (.cls k)).matches s = (decide (s.length = n) && s.all k.test) := by
  induction n generalizing s with
  | zero =>
    rw [Regex.times, Regex.matches_empty]
    cases s <;> simp
  | succ n ih =>
    rw [Regex.times, Regex.matches_seq_cls]
    cases s with
    | nil => simp
    | cons c s =>
      simp only [ih, List.length_cons, List.all_cons, Nat.add_right_cancel_iff]
      cases k.test c <;> simp

/-- The pattern `^[6-9]\d{9}$` matches the strings of ten digits that start with 6, 7, 8
or 9. -/
theorem phonePattern_matches (s : List Char) :
    phonePattern.matches s =
      (decide (s.length = 10) && s.all digitClass.test && (s.head?.map isSixToNine).getD false) := by
  rw [phonePattern, Regex.matches_seq_cls]
  cases s with
  | nil => rfl
  | cons c s =>
    dsimp only
    rw [Regex.matches_times_cls]
    have h69 : CharClass.test ⟨[('6', '9')], false⟩ c = isSixToNine c := by
      simp [CharClass.test, isSixToNine]
    have hd : isSixToNine c = true → digitClass.test c = true := by
      simp only [isSixToNine, digitClass, CharClass.test, List.any_cons, List.any_nil,
        Bool.or_false, bne_iff_ne, ne_eq, Bool.not_eq_false, decide_eq_true_eq]
      intro h
      have h0 : '0'.toNat = 48 := by decide
      have h6 : '6'.toNat = 54 := by decide
      have h9 : '9'.toNat = 57 := by decide
      omega
    simp only [h69, List.length_cons, List.all_cons, List.head?_cons, Option.map_some',
      Option.getD_some, Nat.add_right_cancel_iff]
    cases h : isSixToNine c
    · simp
    · simp [hd h]

/-- What `replace(/\D/g, '')` leaves is digits. -/
theorem removeAll_nonDigit_all_digit (s : String) :
    (removeAll nonDigitClass s).all digitClass.test = true := by
  simp only [removeAll, List.all_eq_true, List.mem_filter]
  rintro c ⟨-, hc⟩
  simpa [nonDigitClass, digitClass, CharClass.test] using hc

/-- The function `validatePhone` accepts the texts whose digits are ten in number and start
with 6, 7, 8 or 9. -/
theorem validatePhone_eq (phone : String) :
    validatePhone phone =
      (decide ((removeAll nonDigitClass phone).length = 10) &&
        ((removeAll nonDigitClass phone).head?.map isSixToNine).getD false) := by
  rw [validatePhone, phonePattern_matches, removeAll_nonDigit_all_digit, Bool.and_true]

/-- Digits are kept by `replace(/\D/g, '')`. -/
theorem filter_digits_of_all_digit (l : List Char) (h : l.all digitClass.test = true) :
    l.filter (fun c => !nonDigitClass.test c) = l := by
  rw [List.filter_eq_self]
  intro c hc
  have := List.all_eq_true.1 h c hc
  simpa [nonDigitClass, digitClass, CharClass.test] using this

/-- The digits of a phone number written as five digits, a space and the rest are the digits
it was written from. -/
theorem removeAll_formatted (l : List Char) (h : l.all digitClass.test = true) :
    removeAll nonDigitClass (String.mk (l.take 5) ++ " " ++ String.mk (l.drop 5)) = l := by
  have h1 : (l.take 5).all digitClass.test = true :=
    List.all_eq_true.2 fun c hc => List.all_eq_true.1 h c (List.mem_of_mem_take hc)
  have h2 : (l.drop 5).all digitClass.test = true :=
    List.all_eq_true.2 fun c hc => List.all_eq_true.1 h c (List.mem_of_mem_drop hc)
  simp only [removeAll, String.data_append, List.filter_append]
  rw [filter_digits_of_all_digit _ h1, filter_digits_of_all_digit _ h2]
  have : (" " : String).data.filter (fun c => !nonDigitClass.test c) = [] := by decide
  rw [this, List.append_nil, List.take_append_drop]

/-- What `handlePhoneChange` stores for an input with at least ten digits: the first five
digits, a space, the next five; its digits are the first ten digits of the input. -/
theorem handlePhoneChange_ten_digits (input : String) (s : HrState)
    (h : 10 ≤ (removeAll nonDigitClass input).length) :
    (handlePhoneChange input s).newHr.phoneNumber =
        String.mk ((removeAll nonDigitClass input).take 5) ++ " " ++
          String.mk (((removeAll nonDigitClass input).take 10).drop 5) ∧
      removeAll nonDigitClass (handlePhoneChange input s).newHr.phoneNumber =
        (removeAll nonDigitClass input).take 10 := by
  have hval : (if (removeAll nonDigitClass input).length > 10 then
      (removeAll nonDigitClass input).take 10 else removeAll nonDigitClass input) =
      (removeAll nonDigitClass input).take 10 := by
    split
    · rfl
    · rw [List.take_of_length_le (by omega)]
  have hlen : ((removeAll nonDigitClass input).take 10).length = 10 := by
    rw [List.length_take]; omega
  have hdig : ((removeAll nonDigitClass input).take 10).all digitClass.test = true :=
    List.all_eq_true.2 fun c hc =>
      List.all_eq_true.1 (removeAll_nonDigit_all_digit input) c (List.mem_of_mem_take hc)
  have hstored : (handlePhoneChange input s).newHr.phoneNumber =
      String.mk (((removeAll nonDigitClass input).take 10).take 5) ++ " " ++
        String.mk (((removeAll nonDigitClass input).take 10).drop 5) := by
    simp only [handlePhoneChange, hval, hlen]
    rfl
  refine ⟨?_, ?_⟩
  · rw [hstored, List.take_take]
    rfl
  · rw [hstored, removeAll_formatted _ hdig]

/-- No initial part of a string matches `never`. -/
theorem Regex.matchesStart_never (s : List Char) : Regex.never.matchesStart s = false := by
  induction s with
  | nil => rfl
  | cons c s ih => simpa [Regex.matchesStart, Regex.nullable, Regex.deriv] using ih

/-- The empty initial part of every string matches `empty`. -/
theorem Regex.matchesStart_empty (s : List Char) : Regex.empty.matchesStart s = true := by
  cases s <;> rfl

/-- A pattern of one class is found in the strings that contain a character of the class. -/
theorem Regex.search_cls (k : CharClass) (s : List Char) :
    (Regex.cls k).search s = s.any k.test := by
  induction s with
  | nil => rfl
  | cons c s ih =>
    rw [Regex.search, ih, List.any_cons]
    congr 1
    show (false || (if k.test c then Regex.empty else Regex.never).matchesStart s) = k.test c
    cases h : k.test c
    · simp [Regex.matchesStart_never]
    · simp [Regex.matchesStart_empty]

/-- The four tests of `checkPasswordStrength` are the four requirements. -/
theorem password_tests (password : String) :
    testAnywhere (.cls ⟨[('A', 'Z')], false⟩) password = hasUppercase password ∧
    testAnywhere (.cls ⟨[('0', '9')], false⟩) password = hasNumber password ∧
    testAnywhere (.cls ⟨[('A', 'Z'), ('a', 'z'), ('0', '9')], true⟩) password =
      hasSpecial password := by
  simp only [testAnywhere, Regex.search_cls, hasUppercase, hasNumber, hasSpecial]
  refine ⟨?_, ?_, ?_⟩
  · congr 1
    funext c
    simp [CharClass.test]
  · congr 1
    funext c
    simp [CharClass.test]
  · congr 1
    funext c
    have hA : 'A'.toNat = 65 := by decide
    have hZ : 'Z'.toNat = 90 := by decide
    have ha : 'a'.toNat = 97 := by decide
    have hz : 'z'.toNat = 122 := by decide
    have h0 : '0'.toNat = 48 := by decide
    have h9 : '9'.toNat = 57 := by decide
    rw [Bool.eq_iff_iff]
    simp only [CharClass.test, List.any_cons, List.any_nil, Bool.or_false, hA, hZ, ha, hz, h0,
      h9, bne_iff_ne, ne_eq, Bool.or_eq_true, decide_eq_true_eq, Bool.true_eq]
    omega

/-! ## Lemmas: the login form and the profile -/

/-- The outcome of `handleLogin` on a well-formed address and a response with a failure
status. -/
theorem handleLogin_failure (env : Env) (jsonParse : String → Option Json) (status : Nat)
    (text : String) (s : LoginState) (hv : AgentLogin.validateEmail s.email = true)
    (hst : ¬ (200 ≤ status ∧ status ≤ 299)) :
    handleLogin env jsonParse (.http status text) s =
      ⟨{ (if !s.errorEmail.truthy && !s.errorPassword.truthy then
            if status = 401 then
              { showFieldErrors jsonParse text
                  { s with loading := true, errorEmail := .str "", errorPassword := .str "" } with
                errorPassword := .str "Invalid password." }
            else if status = 404 then
              { showFieldErrors jsonParse text
                  { s with loading := true, errorEmail := .str "", errorPassword := .str "" } with
                errorEmail := .str "Agent not found." }
            else
              { showFieldErrors jsonParse text
                  { s with loading := true, errorEmail := .str "", errorPassword := .str "" } with
                errorPassword := serverError jsonParse text }
          else showFieldErrors jsonParse text
            { s with loading := true, errorEmail := .str "", errorPassword := .str "" }) with
          loading := false },
        some ⟨env.toLowerCase (jsTrim s.email), s.password⟩, [], none⟩ := by
  simp only [handleLogin, hv, Bool.not_true, Bool.false_eq_true, if_false, hst]

/-- A body without a truthy `email` and `password` field leaves both messages as they were. -/
theorem showFieldErrors_of_no_field (jsonParse : String → Option Json) (text : String)
    (s : LoginState)
    (h : ∀ parsed, jsonParse text = some parsed →
      (Val.ofOption (parsed.field "email")).truthy = false ∧
        (Val.ofOption (parsed.field "password")).truthy = false) :
    showFieldErrors jsonParse text s = s := by
  unfold showFieldErrors
  cases hp : jsonParse text with
  | none => rfl
  | some parsed =>
    obtain ⟨h1, h2⟩ := h parsed hp
    simp [h1, h2]

/-- On a form that shows no message, a failed attempt with a well-formed address and a body
without field errors ends with the message of the status. -/
theorem status_message_on_clean_form (env : Env) (jsonParse : String → Option Json)
    (status : Nat) (text : String) (s : LoginState)
    (hv : AgentLogin.validateEmail s.email = true) (hst : ¬ (200 ≤ status ∧ status ≤ 299))
    (he : s.errorEmail.truthy = false) (hp : s.errorPassword.truthy = false)
    (h : ∀ parsed, jsonParse text = some parsed →
      (Val.ofOption (parsed.field "email")).truthy = false ∧
        (Val.ofOption (parsed.field "password")).truthy = false) :
    (status = 401 →
      (handleLogin env jsonParse (.http status text) s).state.errorPassword =
          .str "Invalid password." ∧
        (handleLogin env jsonParse (.http status text) s).state.errorEmail = .str "") ∧
    (status = 404 →
      (handleLogin env jsonParse (.http status text) s).state.errorEmail =
          .str "Agent not found." ∧
        (handleLogin env jsonParse (.http status text) s).state.errorPassword = .str "") ∧
    (status ≠ 401 → status ≠ 404 →
      (handleLogin env jsonParse (.http status text) s).state.errorPassword =
          serverError jsonParse text ∧
        (handleLogin env jsonParse (.http status text) s).state.errorEmail = .str "") := by
  rw [handleLogin_failure env jsonParse status text s hv hst, showFieldErrors_of_no_field _ _ _ h]
  simp only [he, hp, Bool.not_false, Bool.and_self, if_true]
  refine ⟨fun h1 => ?_, fun h1 => ?_, fun h1 h2 => ?_⟩
  · simp [h1]
  · simp [h1]
  · simp [h1, h2]

/-- On a form that shows a message, a failed attempt with a well-formed address ends with the
field errors of the body and nothing else. -/
theorem no_status_message_on_form_with_message (env : Env) (jsonParse : String → Option Json)
    (status : Nat) (text : String) (s : LoginState)
    (hv : AgentLogin.validateEmail s.email = true) (hst : ¬ (200 ≤ status ∧ status ≤ 299))
    (hshown : s.errorEmail.truthy = true ∨ s.errorPassword.truthy = true) :
    (handleLogin env jsonParse (.http status text) s).state.errorEmail =
        (showFieldErrors jsonParse text
          { s with loading := true, errorEmail := .str "", errorPassword := .str "" }).errorEmail ∧
      (handleLogin env jsonParse (.http status text) s).state.errorPassword =
        (showFieldErrors jsonParse text
          { s with loading := true, errorEmail := .str "", errorPassword := .str "" }).errorPassword := by
  rw [handleLogin_failure env jsonParse status text s hv hst]
  have : (!s.errorEmail.truthy && !s.errorPassword.truthy) = false := by
    rcases hshown with h | h <;> simp [h]
  simp [this]

/-- A truthy `email` field of the parsed body is passed to `setErrorEmail` as it is. -/
theorem showFieldErrors_email (jsonParse : String → Option Json) (text : String)
    (s : LoginState) (parsed v : Json) (hp : jsonParse text = some parsed)
    (hf : parsed.field "email" = some v) (hv : v.truthy = true) :
    (showFieldErrors jsonParse text s).errorEmail = v := by
  simp only [showFieldErrors, hp, hf, Val.ofOption, Val.truthy, hv, if_true, Option.getD_some]
  split <;> rfl

/-- A truthy `password` field of the parsed body is passed to `setErrorPassword` as it is. -/
theorem showFieldErrors_password (jsonParse : String → Option Json) (text : String)
    (s : LoginState) (parsed w : Json) (hp : jsonParse text = some parsed)
    (hf : parsed.field "password" = some w) (hw : w.truthy = true) :
    (showFieldErrors jsonParse text s).errorPassword = w := by
  simp only [showFieldErrors, hp, hf, Val.ofOption, Val.truthy, hw, if_true, Option.getD_some]

/-- A field error of the body stays on the form: the `email` one unless the form showed no
message and the status is 404, the `password` one unless the form showed no message and the
status is other than 404. -/
theorem field_error_kept (env : Env) (jsonParse : String → Option Json) (status : Nat)
    (text : String) (s : LoginState) (parsed : Json)
    (hv : AgentLogin.validateEmail s.email = true) (hst : ¬ (200 ≤ status ∧ status ≤ 299))
    (hp : jsonParse text = some parsed) :
    (∀ v, parsed.field "email" = some v → v.truthy = true →
      (s.errorEmail.truthy = true ∨ s.errorPassword.truthy = true ∨ status ≠ 404) →
      (handleLogin env jsonParse (.http status text) s).state.errorEmail = v) ∧
    (∀ w, parsed.field "password" = some w → w.truthy = true →
      (s.errorEmail.truthy = true ∨ s.errorPassword.truthy = true ∨ status = 404) →
      (handleLogin env jsonParse (.http status text) s).state.errorPassword = w) := by
  rw [handleLogin_failure env jsonParse status text s hv hst]
  refine ⟨fun v hf hv1 hc => ?_, fun w hf hw hc => ?_⟩
  · have := showFieldErrors_email jsonParse text
      { s with loading := true, errorEmail := .str "", errorPassword := .str "" } parsed v hp hf hv1
    split
    · rename_i hclean
      simp only [Bool.and_eq_true, Bool.not_eq_true'] at hclean
      have h404 : status ≠ 404 := by
        rcases hc with h | h | h
        · rw [hclean.1] at h; cases h
        · rw [hclean.2] at h; cases h
        · exact h
      by_cases h401 : status = 401
      · simpa [h401] using this
      · simpa [h401, h404] using this
    · exact this
  · have := showFieldErrors_password jsonParse text
      { s with loading := true, errorEmail := .str "", errorPassword := .str "" } parsed w hp hf hw
    split
    · rename_i hclean
      simp only [Bool.and_eq_true, Bool.not_eq_true'] at hclean
      have h404 : status = 404 := by
        rcases hc with h | h | h
        · rw [hclean.1] at h; cases h
        · rw [hclean.2] at h; cases h
        · exact h
      simpa [h404] using this
    · exact this

/-- The steps of `parseJwt` in a row: the payload when each one succeeds, `null` otherwise. -/
theorem parseJwt_eq (jsonParse : String → Option Json) (token : String) :
    parseJwt jsonParse token =
      (((((jsSplit '.' token.data).get? 1).bind fun base64Url =>
            atob ((base64Url.map fun c => if c = '-' then '+' else c).map fun c =>
              if c = '_' then '/' else c)).bind fun bytes =>
          decodeURIComponent (percentEncode bytes)).bind fun jsonPayload =>
        jsonParse (String.mk jsonPayload)).getD .null := by
  unfold parseJwt
  cases (jsSplit '.' token.data).get? 1 with
  | none => rfl
  | some base64Url =>
    simp only [Option.some_bind]
    cases atob ((base64Url.map fun c => if c = '-' then '+' else c).map fun c =>
        if c = '_' then '/' else c) with
    | none => rfl
    | some bytes =>
      simp only [Option.some_bind]
      cases decodeURIComponent (percentEncode bytes) with
      | none => rfl
      | some jsonPayload =>
        simp only [Option.some_bind]
        cases jsonParse (String.mk jsonPayload) <;> rfl

/-- A token without a dot has no payload. -/
theorem parseJwt_without_dot (jsonParse : String → Option Json) (token : String)
    (h : '.' ∉ token.data) : parseJwt jsonParse token = .null := by
  have : ∀ l : List Char, '.' ∉ l → jsSplit '.' l = [l] := by
    intro l
    induction l with
    | nil => intro _; rfl
    | cons c l ih =>
      intro hl
      simp only [List.mem_cons, not_or] at hl
      have hc : c ≠ '.' := fun e => hl.1 e.symm
      simp only [jsSplit, hc, if_false, ih hl.2]
  simp [parseJwt, this _ h]

/-- The e-mail of the profile when the payload is not a JSON string: the field `sub` of the
payload when it is truthy, the text `Not available` otherwise. -/
theorem profile_email_of_payload (jsonParse : String → Option Json) (token : String)
    (name employeeId : Option String) (h : ∀ t, parseJwt jsonParse token ≠ .str t) :
    (loadEmployeeData jsonParse (some token) name employeeId).email =
      if (Val.ofOption ((parseJwt jsonParse token).field "sub")).truthy then
        Val.ofOption ((parseJwt jsonParse token).field "sub")
      else .json (.str "Not available") := by
  have hsub : readSub (parseJwt jsonParse token) =
      Val.ofOption ((parseJwt jsonParse token).field "sub") := by
    cases hp : parseJwt jsonParse token with
    | str t => exact absurd hp (h t)
    | _ => rfl
  by_cases ht : token = ""
  · subst ht
    rfl
  · simp only [loadEmployeeData, ht, ne_eq, not_false_eq_true, if_true, hsub, Val.or]
    cases hv : (Val.ofOption ((parseJwt jsonParse token).field "sub")).truthy
    · simp [Val.truthy, Json.truthy]
    · simp [hv]

/-! ## The claims -/

/-- C1: the list that `applyFilters` stores in `filteredLogs` holds exactly the entries of
`logs` that satisfy every active filter (role and action and search and date range): it has
the same entries with the same multiplicities as the satisfying part of `logs`, each of its
entries is a satisfying entry of `logs`, and a satisfying entry occurs as often as in `logs`.
The call does return when the entries have the field types of the data model. -/
theorem applyFilters_stores_exactly_satisfying (env : Env) (now : Int) (s : State) :
    (∀ s1, applyFilters env now s = .ok s1 →
      s1.filteredList.Perm (s.logsList.filter (satisfiesFilters env now s.toFilterState)) ∧
      (∀ e, e ∈ s1.filteredList ↔
        e ∈ s.logsList ∧ satisfiesFilters env now s.toFilterState e = true) ∧
      (∀ e, satisfiesFilters env now s.toFilterState e = true →
        s1.filteredList.count e = s.logsList.count e)) ∧
    ((∀ e ∈ s.logsList, e.conforms = true) → ∃ s1, applyFilters env now s = .ok s1) := by
  constructor
  · intro s1 h
    have hres := filterAndSort_ok env now _ _ _ (applyFilters_eq_ok env now s s1 h).1
    have hperm : s1.filteredList.Perm
        (s.logsList.filter (satisfiesFilters env now s.toFilterState)) := by
      rw [hres]
      exact jsSort_perm _ _
    refine ⟨hperm, ?_, ?_⟩
    · intro e
      rw [hperm.mem_iff, List.mem_filter]
    · intro e he
      rw [hperm.count_eq, List.count_filter he]
  · intro hc
    obtain ⟨res, hres⟩ := filterAndSort_total env now s.toFilterState s.logsList hc
    exact applyFilters_returns env now s res hres

/-- C1, on the loaded example: the three entries conform and `applyFilters` returns. -/
theorem applyFilters_stores_exactly_satisfying_witness :
    (∀ e ∈ exLoaded.logsList, e.conforms = true) ∧
      ∃ s1, applyFilters isoEnv exNow exLoaded = .ok s1 :=
  ⟨by decide, (applyFilters_stores_exactly_satisfying isoEnv exNow exLoaded).2 (by decide)⟩

/-- C2 fails as stated: after a fetch and two edits of filter fields, with no click on Apply
Filters, `filteredLogs` still holds the three fetched entries while the filter-and-sort
function of the current fields keeps the HR entry only, whatever the clock reads. -/
theorem filteredLogs_not_always_filterAndSort :
    Reachable isoEnv exEdited ∧
      exEdited.filteredList = exLogs ∧
      ∀ now, filterAndSort isoEnv now exEdited.toFilterState exEdited.logsList =
          .ok [exHrUpdate] ∧
        filterAndSort isoEnv now exEdited.toFilterState exEdited.logsList ≠
          .ok exEdited.filteredList := by
  refine ⟨.step _ _ (.step _ _ (.step _ _ (.mount exNow))), by decide, ?_⟩
  intro now
  have h : filterAndSort isoEnv now exEdited.toFilterState exEdited.logsList =
      .ok [exHrUpdate] := rfl
  rw [h]
  exact ⟨rfl, by decide⟩

/-- C2, amended: in a reachable state, when `applyFilters` returns (the Apply Filters click,
or `handleSort` followed by its effect) `filteredLogs` equals the filter-and-sort function
applied to the current raw list and filter fields at the clock time of the call; a successful
`fetchLogs` response stores the fetched list as received and `resetFilters` stores the raw
list; an edit of a filter field and page navigation leave `filteredLogs` as it was. -/
theorem filteredLogs_after_each_operation (env : Env) (s : State) (hs : Reachable env s) :
    (∀ now s1, applyFilters env now s = .ok s1 →
      step env (.applyClick now) s = s1 ∧
        filterAndSort env now s1.toFilterState s1.logsList = .ok s1.filteredList) ∧
    (∀ now s1, tableShown s = true → applyFilters env now (handleSort "timestamp" s) = .ok s1 →
      step env (.sortClick now) s = s1 ∧
        filterAndSort env now s1.toFilterState s1.logsList = .ok s1.filteredList) ∧
    (∀ data, (step env (.fetchSettle (some data)) s).filteredList = data ∧
      (step env (.fetchSettle (some data)) s).logsList = data) ∧
    ((step env .resetClick s).filteredList = s.logsList ∧
      (step env .resetClick s).logsList = s.logsList) ∧
    (∀ v, (step env (.setFilterRole v) s).filteredList = s.filteredList ∧
      (step env (.setFilterAction v) s).filteredList = s.filteredList ∧
      (step env (.setDateRange v) s).filteredList = s.filteredList ∧
      (step env (.setSearchTerm v) s).filteredList = s.filteredList) ∧
    (∀ i, (step env .pageFirst s).filteredList = s.filteredList ∧
      (step env .pagePrev s).filteredList = s.filteredList ∧
      (step env (.pageNumber i) s).filteredList = s.filteredList ∧
      (step env .pageNext s).filteredList = s.filteredList ∧
      (step env .pageLast s).filteredList = s.filteredList) := by
  have hv := hs.logs_valid
  have key : ∀ now (s0 : State), s0.logs < s0.heap.length → ∀ s1,
      applyFilters env now s0 = .ok s1 →
        filterAndSort env now s1.toFilterState s1.logsList = .ok s1.filteredList := by
    intro now s0 hv0 s1 h
    obtain ⟨hf, l, ⟨-, -, h3⟩, rfl⟩ := applyFilters_eq_ok env now s0 s1 h
    show filterAndSort env now s0.toFilterState (l.heap.read s0.logs) =
      .ok (l.heap.read l.filtered)
    rw [h3 s0.logs hv0]
    exact hf
  refine ⟨?_, ?_, ?_, ⟨rfl, rfl⟩, fun v => ⟨?_, rfl, ?_, rfl⟩, ?_⟩
  · intro now s1 h
    refine ⟨?_, key now s hv s1 h⟩
    simp only [step, h, orKeep]
  · intro now s1 hshown h
    refine ⟨?_, key now (handleSort "timestamp" s) hv s1 h⟩
    simp only [step, hshown, if_true, h, orKeep]
  · intro data
    exact ⟨Heap.read_alloc_new _ _, Heap.read_alloc_new _ _⟩
  · simp only [step]
    split <;> rfl
  · simp only [step]
    split <;> rfl
  · intro i
    refine ⟨?_, ?_, ?_, ?_, ?_⟩ <;> simp only [step] <;> split <;> rfl

/-- C2 amended, on the loaded example: the state is reachable, Apply Filters returns, and the
stored list is the filter-and-sort of the three fetched entries, latest first. -/
theorem filteredLogs_after_each_operation_witness :
    Reachable isoEnv exLoaded ∧
      ∃ s1, applyFilters isoEnv exNow exLoaded = .ok s1 ∧
        step isoEnv (.applyClick exNow) exLoaded = s1 ∧
        filterAndSort isoEnv exNow s1.toFilterState s1.logsList = .ok s1.filteredList ∧
        s1.filteredList = [exAdminLogout, exHrUpdate, exAdminLogin] :=
  ⟨.step _ _ (.mount exNow), step isoEnv (.applyClick exNow) exLoaded, by decide,
    ((filteredLogs_after_each_operation isoEnv exLoaded (.step _ _ (.mount exNow))).1 exNow
      (step isoEnv (.applyClick exNow) exLoaded) (by decide)).1,
    ((filteredLogs_after_each_operation isoEnv exLoaded (.step _ _ (.mount exNow))).1 exNow
      (step isoEnv (.applyClick exNow) exLoaded) (by decide)).2, by decide⟩

/-- C3: for a raw list whose entries all have timestamps that parse, and sort key
`timestamp`, the list `applyFilters` produces is ordered by timestamp: with direction `desc`
every entry's date is at or after the date of every later entry, with direction `asc` at or
before; and for each date the entries with that date stand in the order they have in the
input. The call does return when the entries have the field types of the data model. -/
theorem applyFilters_orders_by_timestamp (env : Env) (now : Int) (f : FilterState)
    (logs : List Entry) (hv : ∀ e ∈ logs, (newDate env e.timestamp).isSome = true)
    (hk : f.sortConfig.key = "timestamp") :
    (∀ res, filterAndSort env now f logs = .ok res →
      (f.sortConfig.direction = "desc" → res.Pairwise fun a b =>
        dateGe (newDate env a.timestamp) (newDate env b.timestamp) = true) ∧
      (f.sortConfig.direction = "asc" → res.Pairwise fun a b =>
        dateGe (newDate env b.timestamp) (newDate env a.timestamp) = true) ∧
      (∀ t, res.filter (fun e => decide (newDate env e.timestamp = some t)) =
        (logs.filter (satisfiesFilters env now f)).filter
          fun e => decide (newDate env e.timestamp = some t))) ∧
    ((∀ e ∈ logs, e.conforms = true) → ∃ res, filterAndSort env now f logs = .ok res) := by
  refine ⟨?_, filterAndSort_total env now f logs⟩
  intro res h
  have hres := filterAndSort_ok env now f logs res h
  have hkept : ∀ e ∈ logs.filter (satisfiesFilters env now f),
      (newDate env e.timestamp).isSome = true := fun e he => hv e (List.mem_of_mem_filter he)
  have hge : ∀ a b : Entry, a ∈ res → b ∈ res → timeOf env b ≤ timeOf env a →
      dateGe (newDate env a.timestamp) (newDate env b.timestamp) = true := by
    intro a b ha hb hab
    rw [hres] at ha hb
    have ha1 := hkept a ((jsSort_perm _ _).mem_iff.1 ha)
    have hb1 := hkept b ((jsSort_perm _ _).mem_iff.1 hb)
    rw [newDate_eq_some_timeOf env a ha1, newDate_eq_some_timeOf env b hb1]
    simpa [dateGe] using hab
  refine ⟨?_, ?_, ?_⟩
  · intro hd
    have hs : res.Pairwise fun a b => -timeOf env a ≤ -timeOf env b := by
      rw [hres, jsSort_desc env f.sortConfig _ hk hd hkept]
      exact sorted_insertionSort_key (fun e => -timeOf env e) _
    exact hs.imp_of_mem fun {a b} ha hb hab => hge a b ha hb (neg_le_neg_iff.1 hab)
  · intro hd
    have hne : f.sortConfig.direction ≠ "desc" := by rw [hd]; decide
    have hs : res.Pairwise fun a b => timeOf env a ≤ timeOf env b := by
      rw [hres, jsSort_asc env f.sortConfig _ hk hne hkept]
      exact sorted_insertionSort_key (fun e => timeOf env e) _
    exact hs.imp_of_mem fun {a b} ha hb hab => hge b a hb ha hab
  · intro t
    rw [hres]
    exact jsSort_stable env f.sortConfig _ t

/-- C3, on the example list: the timestamps parse, and with the mount-time filters the result
is the three entries, latest first. -/
theorem applyFilters_orders_by_timestamp_witness :
    (∀ e ∈ exLogs, (newDate isoEnv e.timestamp).isSome = true) ∧
      exFilters.sortConfig.key = "timestamp" ∧
      filterAndSort isoEnv exNow exFilters exLogs =
        .ok [exAdminLogout, exHrUpdate, exAdminLogin] ∧
      [exAdminLogout, exHrUpdate, exAdminLogin].Pairwise fun a b =>
        dateGe (newDate isoEnv a.timestamp) (newDate isoEnv b.timestamp) = true :=
  ⟨by decide, rfl, by decide,
    ((applyFilters_orders_by_timestamp isoEnv exNow exFilters exLogs (by decide) rfl).1
      [exAdminLogout, exHrUpdate, exAdminLogin] (by decide)).1 rfl⟩

/-- C4: for each finite date range N in {1, 7, 30, 90}, the date-range filter keeps an entry
exactly when its timestamp is a valid date at or after the cutoff, the date `now` moved N
days back; an entry whose timestamp is not a valid date is never kept; and with the range
`all` the filter keeps every entry, valid timestamp or not. -/
theorem dateRangeFilter_keeps_from_cutoff (env : Env) (now : Int) (l : List Entry) :
    (∀ p ∈ finiteDateRanges, ∀ e,
      (e ∈ dateRangeFilter env now p.1 l ↔
        e ∈ l ∧ ∃ t c, newDate env e.timestamp = some t ∧ env.minusDays now p.2 = some c ∧
          c ≤ t) ∧
      (newDate env e.timestamp = none → e ∉ dateRangeFilter env now p.1 l)) ∧
    dateRangeFilter env now "all" l = l := by
  constructor
  · intro p hp e
    have hmem : e ∈ dateRangeFilter env now p.1 l ↔
        e ∈ l ∧ ∃ t c, newDate env e.timestamp = some t ∧ env.minusDays now p.2 = some c ∧
          c ≤ t := by
      have hcut : cutoffDate env now p.1 = env.minusDays now p.2 ∧ p.1 ≠ "" ∧ p.1 ≠ "all" := by
        simp only [finiteDateRanges, List.mem_cons, List.mem_singleton, List.not_mem_nil,
          or_false] at hp
        rcases hp with rfl | rfl | rfl | rfl <;> exact ⟨rfl, by decide, by decide⟩
      obtain ⟨hc, h1, h2⟩ := hcut
      unfold dateRangeFilter
      rw [if_pos ⟨h1, h2⟩, List.mem_filter, hc]
      unfold dateMatches dateGe
      constructor
      · rintro ⟨hl, hd⟩
        refine ⟨hl, ?_⟩
        cases ht : newDate env e.timestamp with
        | none => rw [ht] at hd; simp at hd
        | some t =>
          cases hm : env.minusDays now p.2 with
          | none => rw [ht, hm] at hd; simp at hd
          | some c =>
            rw [ht, hm] at hd
            exact ⟨t, c, rfl, rfl, by simpa using hd⟩
      · rintro ⟨hl, t, c, ht, hm, hle⟩
        refine ⟨hl, ?_⟩
        rw [ht, hm]
        simpa using hle
    refine ⟨hmem, ?_⟩
    intro hnone hin
    obtain ⟨-, t, -, ht, -, -⟩ := hmem.1 hin
    rw [hnone] at ht
    cases ht
  · rfl

/-- C4, on the example list ten days after its first entry: the range `30` is one of the
finite ranges and keeps the dated entry, not the undated one; the range `all` keeps both. -/
theorem dateRangeFilter_keeps_from_cutoff_witness :
    (("30", 30) : String × Int) ∈ finiteDateRanges ∧
      dateRangeFilter isoEnv exNow "30" [exAdminLogin, exUndated] = [exAdminLogin] ∧
      (exAdminLogin ∈ dateRangeFilter isoEnv exNow "30" [exAdminLogin, exUndated] ↔
        exAdminLogin ∈ [exAdminLogin, exUndated] ∧
          ∃ t c, newDate isoEnv exAdminLogin.timestamp = some t ∧
            isoEnv.minusDays exNow 30 = some c ∧ c ≤ t) ∧
      dateRangeFilter isoEnv exNow "all" [exAdminLogin, exUndated] = [exAdminLogin, exUndated] :=
  ⟨by decide, by decide,
    ((dateRangeFilter_keeps_from_cutoff isoEnv exNow [exAdminLogin, exUndated]).1 ("30", 30)
      (by decide) exAdminLogin).1,
    by decide⟩

/-- C5: for a non-empty search term and entries whose user name (the key `user_name`), action
and details are strings or absent, the free-text filter returns, keeps the entries in their
order, and keeps an entry exactly when the lower-cased term occurs in the lower-cased text of
its user name, its action or its details; an absent field matches nothing and raises no exception; with an
empty search term every entry is kept. -/
theorem searchFilter_keeps_matching (env : Env) (searchTerm : String) (l : List Entry) :
    (searchTerm ≠ "" →
      (∀ e ∈ l, e.user_name.isOptionalString = true ∧ e.action.isOptionalString = true ∧
        e.details.isOptionalString = true) →
      ∃ r, searchFilter env searchTerm l = .ok r ∧ r.Sublist l ∧
        ∀ e, e ∈ r ↔ e ∈ l ∧
          ∃ text, (e.user_name = .str text ∨ e.action = .str text ∨ e.details = .str text) ∧
            includes (env.toLowerCase text) (env.toLowerCase searchTerm) = true) ∧
    (∀ v, v = JsVal.undefined ∨ v = JsVal.null →
      optIncludes env v (env.toLowerCase searchTerm) = .ok false) ∧
    searchFilter env "" l = .ok l := by
  refine ⟨?_, ?_, rfl⟩
  · intro hne hl
    refine ⟨l.filter fun e =>
        fieldContains env (env.toLowerCase searchTerm) e.user_name ||
          fieldContains env (env.toLowerCase searchTerm) e.action ||
          fieldContains env (env.toLowerCase searchTerm) e.details, ?_, List.filter_sublist _, ?_⟩
    · unfold searchFilter
      rw [if_pos hne]
      exact filterE_of_forall_ok _ _ l fun e he =>
        searchMatches_of_isOptionalString env _ e (hl e he).1 (hl e he).2.1 (hl e he).2.2
    · intro e
      rw [List.mem_filter]
      simp only [Bool.or_eq_true, fieldContains_iff]
      constructor
      · rintro ⟨he, (⟨s, h1, h2⟩ | ⟨s, h1, h2⟩) | ⟨s, h1, h2⟩⟩
        · exact ⟨he, s, Or.inl h1, h2⟩
        · exact ⟨he, s, Or.inr (Or.inl h1), h2⟩
        · exact ⟨he, s, Or.inr (Or.inr h1), h2⟩
      · rintro ⟨he, s, h1 | h1 | h1, h2⟩
        · exact ⟨he, Or.inl (Or.inl ⟨s, h1, h2⟩)⟩
        · exact ⟨he, Or.inl (Or.inr ⟨s, h1, h2⟩)⟩
        · exact ⟨he, Or.inr ⟨s, h1, h2⟩⟩
  · rintro v (rfl | rfl) <;> rfl

/-- C5, on the example list: the fields are strings or absent, and the term `CLAIM` keeps the
entry whose action is `UPDATE_CLAIM` and whose details are null. -/
theorem searchFilter_keeps_matching_witness :
    ("CLAIM" ≠ "" ∧
      ∀ e ∈ exLogs, e.user_name.isOptionalString = true ∧ e.action.isOptionalString = true ∧
        e.details.isOptionalString = true) ∧
      searchFilter isoEnv "CLAIM" exLogs = .ok [exHrUpdate] ∧
      ∃ r, searchFilter isoEnv "CLAIM" exLogs = .ok r ∧ r.Sublist exLogs ∧
        ∀ e, e ∈ r ↔ e ∈ exLogs ∧
          ∃ text, (e.user_name = .str text ∨ e.action = .str text ∨ e.details = .str text) ∧
            includes (isoEnv.toLowerCase text) (isoEnv.toLowerCase "CLAIM") = true :=
  ⟨⟨by decide, by decide⟩, by decide,
    (searchFilter_keeps_matching isoEnv "CLAIM" exLogs).1 (by decide) (by decide)⟩

/-- C6: for a non-empty action filter and entries whose action is a string, the action
filter returns, keeps the entries in their order, and keeps an entry exactly when the
lower-cased filter text occurs in its lower-cased action, so that `login` keeps `LOGIN` and
`claim` keeps `UPDATE_CLAIM`; with an empty filter text every entry is kept. -/
theorem actionFilter_keeps_matching (env : Env) (filterAction : String) (l : List Entry) :
    (filterAction ≠ "" → (∀ e ∈ l, e.action.isString = true) →
      ∃ r, actionFilter env filterAction l = .ok r ∧ r.Sublist l ∧
        ∀ e, e ∈ r ↔ e ∈ l ∧
          ∃ a, e.action = .str a ∧
            includes (env.toLowerCase a) (env.toLowerCase filterAction) = true) ∧
    actionFilter env "" l = .ok l ∧
    actionFilter isoEnv "login" [exAdminLogin] = .ok [exAdminLogin] ∧
    actionFilter isoEnv "claim" [exHrUpdate] = .ok [exHrUpdate] := by
  refine ⟨?_, rfl, by decide, by decide⟩
  intro hne hl
  refine ⟨l.filter fun e => fieldContains env (env.toLowerCase filterAction) e.action, ?_,
    List.filter_sublist _, ?_⟩
  · unfold actionFilter
    rw [if_pos hne]
    apply filterE_of_forall_ok
    intro e he
    have hs := hl e he
    unfold actionMatches
    cases ha : e.action <;> rw [ha] at hs <;> simp [JsVal.isString] at hs
    rfl
  · intro e
    rw [List.mem_filter, fieldContains_iff]

/-- C6, on the example list: every action is a string and the filter text `lo` keeps the
`LOGIN` and `LOGOUT` entries. -/
theorem actionFilter_keeps_matching_witness :
    ("lo" ≠ "" ∧ ∀ e ∈ exLogs, e.action.isString = true) ∧
      actionFilter isoEnv "lo" exLogs = .ok [exAdminLogin, exAdminLogout] ∧
      ∃ r, actionFilter isoEnv "lo" exLogs = .ok r ∧ r.Sublist exLogs ∧
        ∀ e, e ∈ r ↔ e ∈ exLogs ∧
          ∃ a, e.action = .str a ∧
            includes (isoEnv.toLowerCase a) (isoEnv.toLowerCase "lo") = true :=
  ⟨⟨by decide, by decide⟩, by decide,
    (actionFilter_keeps_matching isoEnv "lo" exLogs).1 (by decide) (by decide)⟩

/-- C7 fails as stated: with the role filter `ADMIN` on a list holding one HR entry, nothing
is kept and the `rolesCount` of the empty result is the empty object, which has no key
`ADMIN`, while `totalLogs` is 0. -/
theorem rolesCount_of_empty_result_has_no_key :
    filterAndSort isoEnv exNow ⟨"ADMIN", "", "all", "", ⟨"timestamp", "desc"⟩⟩ [exHrUpdate] =
        .ok [] ∧
      rolesCount [] = [] ∧ totalLogs [] = 0 ∧
      rolesCount [] ≠ [("ADMIN", CountVal.num (totalLogs []))] := by
  decide

/-- C7, amended: with a non-empty `filterRole` r, the other filters inactive and date range
`all`, `applyFilters` returns and keeps exactly the entries whose role is the string r; when
at least one entry is kept and r is not the name of a property every object inherits,
`rolesCount` of the result has the single key r with the value `totalLogs`; when none is
kept, `rolesCount` is empty and `totalLogs` is 0; with `filterRole` empty every entry is
kept. On the roles ADMIN, HR, ADMIN the filter `ADMIN` keeps 2 entries and `rolesCount` is
`{ADMIN: 2}`. -/
theorem roleFilter_keeps_exact_role (env : Env) (now : Int) (r : String) (sc : SortConfig)
    (logs : List Entry) :
    (r ≠ "" → ∃ res, filterAndSort env now ⟨r, "", "all", "", sc⟩ logs = .ok res ∧
      res.Perm (logs.filter fun e => decide (e.role = .str r)) ∧
      (∀ e, e ∈ res ↔ e ∈ logs ∧ e.role = .str r) ∧
      (res ≠ [] → r ∉ objectPrototypeKeys → rolesCount res = [(r, .num (totalLogs res))]) ∧
      (res = [] → rolesCount res = [] ∧ totalLogs res = 0)) ∧
    (∃ res, filterAndSort env now ⟨"", "", "all", "", sc⟩ logs = .ok res ∧ res.Perm logs) ∧
    (filterAndSort isoEnv exNow ⟨"ADMIN", "", "all", "", ⟨"timestamp", "desc"⟩⟩ exLogs =
        .ok [exAdminLogout, exAdminLogin] ∧
      rolesCount [exAdminLogout, exAdminLogin] = [("ADMIN", .num 2)] ∧
      totalLogs [exAdminLogout, exAdminLogin] = 2) := by
  refine ⟨?_, ?_, by decide⟩
  · intro hr
    have hperm : (jsSort (compareLogs env sc) (logs.filter (roleMatches r))).Perm
        (logs.filter fun e => decide (e.role = .str r)) := jsSort_perm _ _
    have hmem : ∀ e, e ∈ jsSort (compareLogs env sc) (logs.filter (roleMatches r)) ↔
        e ∈ logs ∧ e.role = .str r := by
      intro e
      rw [hperm.mem_iff, List.mem_filter, decide_eq_true_eq]
    refine ⟨_, filterAndSort_role_only env now r sc logs hr, hperm, hmem, ?_, ?_⟩
    · intro hne hk
      have hlen : (jsSort (compareLogs env sc) (logs.filter (roleMatches r))).length ≠ 0 :=
        fun h => hne (List.length_eq_zero.1 h)
      unfold rolesCount totalLogs
      rw [if_neg hlen, if_neg hlen]
      apply countBy_same _ r _ hk _ hne
      intro e he
      rw [((hmem e).1 he).2]
      rfl
    · intro h
      rw [h]
      exact ⟨rfl, rfl⟩
  · refine ⟨jsSort (compareLogs env sc) logs, ?_, jsSort_perm _ _⟩
    simp [filterAndSort, actionFilter, searchFilter, roleFilter, dateRangeFilter, Except.bind,
      Except.map]

/-- C7 amended, on the scenario of the specification: the filter `ADMIN` is non-empty and is
no inherited property name, and the result of the three-entry list is non-empty. -/
theorem roleFilter_keeps_exact_role_witness :
    "ADMIN" ≠ "" ∧ "ADMIN" ∉ objectPrototypeKeys ∧
      ∃ res, filterAndSort isoEnv exNow ⟨"ADMIN", "", "all", "", exFilters.sortConfig⟩ exLogs =
          .ok res ∧
        res.Perm (exLogs.filter fun e => decide (e.role = .str "ADMIN")) ∧
        (∀ e, e ∈ res ↔ e ∈ exLogs ∧ e.role = .str "ADMIN") ∧
        (res ≠ [] → "ADMIN" ∉ objectPrototypeKeys →
          rolesCount res = [("ADMIN", .num (totalLogs res))]) ∧
        (res = [] → rolesCount res = [] ∧ totalLogs res = 0) :=
  ⟨by decide, by decide,
    (roleFilter_keeps_exact_role isoEnv exNow "ADMIN" exFilters.sortConfig exLogs).1 (by decide)⟩

/-- C8 fails as stated: two different entries carry the same timestamp; `applyFilters` returns
them in the order of the raw list, so the permuted list gives another result. -/
theorem applyFilters_depends_on_input_order :
    [exTwinB, exTwinA].Perm [exTwinA, exTwinB] ∧
      filterAndSort isoEnv exNow exFilters [exTwinA, exTwinB] = .ok [exTwinA, exTwinB] ∧
      filterAndSort isoEnv exNow exFilters [exTwinB, exTwinA] = .ok [exTwinB, exTwinA] ∧
      filterAndSort isoEnv exNow exFilters [exTwinB, exTwinA] ≠
        filterAndSort isoEnv exNow exFilters [exTwinA, exTwinB] :=
  ⟨List.Perm.swap exTwinA exTwinB [], by decide, by decide, by decide⟩

/-- C8, amended: on a permutation of the raw list `applyFilters` throws exactly when it throws
on the list and otherwise produces a permutation of the list it produces there; it produces
the same list, the entries in the same order, when the sort key is `timestamp` and the kept
entries have valid, pairwise distinct timestamps. -/
theorem applyFilters_on_permuted_input (env : Env) (now : Int) (f : FilterState)
    (logs logs1 : List Entry) (hp : logs1.Perm logs) :
    (∀ e, filterAndSort env now f logs = .error e → filterAndSort env now f logs1 = .error e) ∧
    (∀ res, filterAndSort env now f logs = .ok res →
      ∃ res1, filterAndSort env now f logs1 = .ok res1 ∧ res1.Perm res) ∧
    (f.sortConfig.key = "timestamp" →
      (∀ e ∈ logs.filter (satisfiesFilters env now f), (newDate env e.timestamp).isSome = true) →
      ((logs.filter (satisfiesFilters env now f)).Pairwise fun a b =>
        newDate env a.timestamp ≠ newDate env b.timestamp) →
      filterAndSort env now f logs1 = filterAndSort env now f logs) := by
  obtain ⟨herr, hok⟩ := filterE_perm (keepE env now f) logs logs1 hp
  rw [filterAndSort_eq_keepE, filterAndSort_eq_keepE]
  cases hf : filterE (keepE env now f) logs with
  | error e =>
    rw [herr e hf]
    exact ⟨fun e1 h => h, fun res h => (by cases h), fun _ _ _ => rfl⟩
  | ok r =>
    obtain ⟨r1, h1, hperm⟩ := hok r hf
    rw [h1]
    refine ⟨fun e h => (by cases h), ?_, ?_⟩
    · intro res h
      injection h with h
      subst h
      exact ⟨_, rfl, (jsSort_perm _ r1).trans (hperm.trans (jsSort_perm _ r).symm)⟩
    · intro hk hv hd
      have hr := filterE_keepE_ok env now f logs r hf
      rw [← hr] at hv hd
      show Except.ok _ = Except.ok _
      rw [jsSort_eq_of_perm env f.sortConfig r r1 hperm hk hv hd]

/-- C8 amended, on the example list and its reverse: the kept entries have valid, pairwise
distinct timestamps and both orders of the raw list give the same result. -/
theorem applyFilters_on_permuted_input_witness :
    exLogs.reverse.Perm exLogs ∧ exFilters.sortConfig.key = "timestamp" ∧
      (∀ e ∈ exLogs.filter (satisfiesFilters isoEnv exNow exFilters),
        (newDate isoEnv e.timestamp).isSome = true) ∧
      ((exLogs.filter (satisfiesFilters isoEnv exNow exFilters)).Pairwise fun a b =>
        newDate isoEnv a.timestamp ≠ newDate isoEnv b.timestamp) ∧
      filterAndSort isoEnv exNow exFilters exLogs =
        .ok [exAdminLogout, exHrUpdate, exAdminLogin] ∧
      filterAndSort isoEnv exNow exFilters exLogs.reverse =
        filterAndSort isoEnv exNow exFilters exLogs :=
  ⟨List.reverse_perm exLogs, rfl, by decide, by decide, by decide,
    (applyFilters_on_permuted_input isoEnv exNow exFilters exLogs exLogs.reverse
      (List.reverse_perm exLogs)).2.2 rfl (by decide) (by decide)⟩

/-- C9: when the kept entries have valid, pairwise distinct timestamps, the list
`applyFilters` produces with direction `asc` is the reverse of the list it produces with
direction `desc`, the other filter fields being the same (and it throws with one direction
exactly when it throws with the other). The call does return when the entries have the field
types of the data model. -/
theorem asc_result_is_reverse_of_desc (env : Env) (now : Int) (f : FilterState)
    (logs : List Entry)
    (hv : ∀ e ∈ logs.filter (satisfiesFilters env now f),
      (newDate env e.timestamp).isSome = true)
    (hd : (logs.filter (satisfiesFilters env now f)).Pairwise fun a b =>
      newDate env a.timestamp ≠ newDate env b.timestamp) :
    filterAndSort env now (f.withDirection "asc") logs =
        (filterAndSort env now (f.withDirection "desc") logs).map List.reverse ∧
      ((∀ e ∈ logs, e.conforms = true) →
        ∃ res, filterAndSort env now (f.withDirection "desc") logs = .ok res ∧
          filterAndSort env now (f.withDirection "asc") logs = .ok res.reverse) := by
  have main : filterAndSort env now (f.withDirection "asc") logs =
      (filterAndSort env now (f.withDirection "desc") logs).map List.reverse := by
    rw [filterAndSort_eq_keepE, filterAndSort_eq_keepE]
    have hkeep : keepE env now (f.withDirection "asc") = keepE env now f := rfl
    have hkeep1 : keepE env now (f.withDirection "desc") = keepE env now f := rfl
    rw [hkeep, hkeep1]
    cases hf : filterE (keepE env now f) logs with
    | error e => rfl
    | ok r =>
      have hr := filterE_keepE_ok env now f logs r hf
      rw [← hr] at hv hd
      show Except.ok _ = Except.ok _
      exact congrArg Except.ok (jsSort_asc_eq_reverse_desc env r hv hd)
  refine ⟨main, ?_⟩
  intro hc
  obtain ⟨res, hres⟩ := filterAndSort_total env now (f.withDirection "desc") logs hc
  refine ⟨res, hres, ?_⟩
  rw [main, hres]
  rfl

/-- C9, on the example list: the kept entries have valid, pairwise distinct timestamps; the
descending result is latest first and the ascending result is its reverse. -/
theorem asc_result_is_reverse_of_desc_witness :
    (∀ e ∈ exLogs.filter (satisfiesFilters isoEnv exNow exFilters),
        (newDate isoEnv e.timestamp).isSome = true) ∧
      ((exLogs.filter (satisfiesFilters isoEnv exNow exFilters)).Pairwise fun a b =>
        newDate isoEnv a.timestamp ≠ newDate isoEnv b.timestamp) ∧
      filterAndSort isoEnv exNow (exFilters.withDirection "desc") exLogs =
        .ok [exAdminLogout, exHrUpdate, exAdminLogin] ∧
      filterAndSort isoEnv exNow (exFilters.withDirection "asc") exLogs =
        (filterAndSort isoEnv exNow (exFilters.withDirection "desc") exLogs).map List.reverse :=
  ⟨by decide, by decide, by decide,
    (asc_result_is_reverse_of_desc isoEnv exNow exFilters exLogs (by decide) (by decide)).1⟩

/-- C10: in a reachable state, no event other than the arrival of a successful `fetchLogs`
response changes the raw list: after `applyFilters` with its in-place sort, `resetFilters`,
`handleSort` and its effect, the selection or closing of a row, page navigation and every
other event, `logs` is the same array with the same entries in the same order. -/
theorem logs_changed_only_by_successful_fetch (env : Env) (s : State) (ev : Event)
    (hs : Reachable env s) (hev : ∀ data, ev ≠ .fetchSettle (some data)) :
    (step env ev s).logs = s.logs ∧ (step env ev s).logsList = s.logsList := by
  have hv := hs.logs_valid
  cases ev with
  | fetchStart => exact ⟨rfl, rfl⟩
  | fetchSettle response =>
    cases response with
    | none => exact ⟨rfl, rfl⟩
    | some data => exact absurd rfl (hev data)
  | applyClick now =>
    exact ⟨(orKeep_applyFilters_logs env now s hv).1, (orKeep_applyFilters_logs env now s hv).2.2⟩
  | resetClick => exact ⟨rfl, rfl⟩
  | sortClick now =>
    simp only [step]
    split
    · exact ⟨(orKeep_applyFilters_logs env now (handleSort "timestamp" s) hv).1,
        (orKeep_applyFilters_logs env now (handleSort "timestamp" s) hv).2.2⟩
    · exact ⟨rfl, rfl⟩
  | setFilterRole v => simp only [step]; split <;> exact ⟨rfl, rfl⟩
  | setFilterAction v => exact ⟨rfl, rfl⟩
  | setDateRange v => simp only [step]; split <;> exact ⟨rfl, rfl⟩
  | setSearchTerm v => exact ⟨rfl, rfl⟩
  | selectRow log => simp only [step]; split <;> exact ⟨rfl, rfl⟩
  | closeDetail => exact ⟨rfl, rfl⟩
  | pageFirst => simp only [step]; split <;> exact ⟨rfl, rfl⟩
  | pagePrev => simp only [step]; split <;> exact ⟨rfl, rfl⟩
  | pageNumber i => simp only [step]; split <;> exact ⟨rfl, rfl⟩
  | pageNext => simp only [step]; split <;> exact ⟨rfl, rfl⟩
  | pageLast => simp only [step]; split <;> exact ⟨rfl, rfl⟩
  | setViewMode v => exact ⟨rfl, rfl⟩
  | setAutoRefresh b => exact ⟨rfl, rfl⟩

/-- C10, on the loaded example, where `filteredLogs` and `logs` are the same array: the state
is reachable, a click on Apply Filters is no fetch response, it stores the three entries
latest first, and `logs` still holds them in the order received. -/
theorem logs_changed_only_by_successful_fetch_witness :
    Reachable isoEnv exLoaded ∧ exLoaded.filteredLogs = exLoaded.logs ∧
      (∀ data, Event.applyClick exNow ≠ .fetchSettle (some data)) ∧
      (step isoEnv (.applyClick exNow) exLoaded).filteredList =
        [exAdminLogout, exHrUpdate, exAdminLogin] ∧
      (step isoEnv (.applyClick exNow) exLoaded).logsList = exLogs :=
  ⟨.step _ _ (.mount exNow), by decide, fun data h => (by cases h), by decide,
    (logs_changed_only_by_successful_fetch isoEnv exLoaded (.applyClick exNow)
      (.step _ _ (.mount exNow)) (fun data h => (by cases h))).2.trans (by decide)⟩

/-- C11 fails as stated: on page 2 of 2, a change of any one of the four filter fields through
its `onChange` handler leaves `currentPage` at 2. -/
theorem filter_edit_keeps_current_page :
    Reachable isoEnv exPageTwo ∧ exPageTwo.currentPage = 2 ∧
      (step isoEnv (.setFilterRole "HR") exPageTwo).currentPage = 2 ∧
      (step isoEnv (.setFilterAction "login") exPageTwo).currentPage = 2 ∧
      (step isoEnv (.setDateRange "7") exPageTwo).currentPage = 2 ∧
      (step isoEnv (.setSearchTerm "alice") exPageTwo).currentPage = 2 :=
  ⟨.step _ _ (.step _ _ (.mount exNow)), by decide, by decide, by decide, by decide, by decide⟩

/-- C11, amended: `currentPage` is 1 after `applyFilters` returns and after `resetFilters`;
a change of `filterRole`, `filterAction`, `dateRange` or `searchTerm` through its `onChange`
handler sets that field only and leaves `currentPage` as it was. -/
theorem currentPage_reset_on_apply_and_reset (env : Env) (s : State) :
    (∀ now s1, applyFilters env now s = .ok s1 → s1.currentPage = 1) ∧
    (resetFilters s).currentPage = 1 ∧
    (∀ v, (step env (.setFilterRole v) s).currentPage = s.currentPage ∧
      (step env (.setFilterAction v) s).currentPage = s.currentPage ∧
      (step env (.setDateRange v) s).currentPage = s.currentPage ∧
      (step env (.setSearchTerm v) s).currentPage = s.currentPage) := by
  refine ⟨?_, rfl, fun v => ⟨?_, rfl, ?_, rfl⟩⟩
  · intro now s1 h
    obtain ⟨-, l, -, rfl⟩ := applyFilters_eq_ok env now s s1 h
    rfl
  · simp only [step]
    split <;> rfl
  · simp only [step]
    split <;> rfl

/-- C11 amended, on page 2 of the sixteen-entry example: Apply Filters returns and the page
is 1 afterwards. -/
theorem currentPage_reset_on_apply_and_reset_witness :
    exPageTwo.currentPage = 2 ∧
      ∃ s1, applyFilters isoEnv exNow exPageTwo = .ok s1 ∧ s1.currentPage = 1 :=
  ⟨by decide, (step isoEnv (.applyClick exNow) exPageTwo), by decide,
    (currentPage_reset_on_apply_and_reset isoEnv exPageTwo).1 exNow
      (step isoEnv (.applyClick exNow) exPageTwo) (by decide)⟩

/-- C13: `uniqueUsers` is the number of distinct strings obtained by trimming the user names
(the key `user_name`) of the entries whose user name is a string that is not empty after
trimming; an entry whose user name is absent, not a string or only white space adds nothing;
two names with the same trimmed form count once. -/
theorem uniqueUsers_counts_distinct_trimmed_names (l : List Entry) :
    uniqueUsers l = (l.filterMap namedUser).toFinset.card ∧
    (∀ e, (∀ name, e.user_name = .str name → jsTrim name = "") →
      uniqueUsers (e :: l) = uniqueUsers l) ∧
    (∀ e1 e2 name1 name2, e1.user_name = .str name1 → e2.user_name = .str name2 →
      jsTrim name1 = jsTrim name2 → jsTrim name1 ≠ "" → uniqueUsers [e1, e2] = 1) := by
  have hmap : ∀ l : List Entry,
      (l.filter hasUserName).map trimmedUserName = l.filterMap namedUser := by
    intro l
    induction l with
    | nil => rfl
    | cons a l ih =>
      have ha : (hasUserName a = true ∧ namedUser a = some (trimmedUserName a)) ∨
          (hasUserName a = false ∧ namedUser a = none) := by
        unfold hasUserName namedUser trimmedUserName
        cases hu : a.user_name with
        | str name =>
          by_cases ht : jsTrim name = ""
          · right
            simp [ht]
          · left
            have hne : name ≠ "" := fun h => ht (by rw [h]; rfl)
            simp [ht, hne]
        | undefined => exact Or.inr ⟨rfl, rfl⟩
        | null => exact Or.inr ⟨rfl, rfl⟩
        | bool b => exact Or.inr ⟨rfl, rfl⟩
        | num n => exact Or.inr ⟨rfl, rfl⟩
      rcases ha with ⟨h1, h2⟩ | ⟨h1, h2⟩
      · rw [List.filter_cons, h1, if_pos rfl, List.map_cons, List.filterMap_cons, h2, ih]
      · rw [List.filter_cons, h1, List.filterMap_cons, h2]
        exact ih
  have main : ∀ l : List Entry, uniqueUsers l = (l.filterMap namedUser).toFinset.card := by
    intro l
    unfold uniqueUsers
    by_cases hl : l.length = 0
    · rw [if_pos hl, List.length_eq_zero.1 hl]
      rfl
    · rw [if_neg hl, hmap, List.card_toFinset]
  refine ⟨main l, ?_, ?_⟩
  · intro e he
    have hn : namedUser e = none := by
      unfold namedUser
      cases hu : e.user_name with
      | str name => simp [he name hu]
      | undefined => rfl
      | null => rfl
      | bool b => rfl
      | num n => rfl
    rw [main, main, List.filterMap_cons, hn]
  · intro e1 e2 name1 name2 h1 h2 heq hne
    have hn1 : namedUser e1 = some (jsTrim name1) := by
      unfold namedUser
      rw [h1]
      simp [hne]
    have hn2 : namedUser e2 = some (jsTrim name1) := by
      unfold namedUser
      rw [h2]
      simp [← heq, hne]
    rw [main]
    simp [List.filterMap_cons, hn1, hn2]

/-- C13, on concrete entries: a name with surrounding blanks and its trimmed form count once,
and a blank name and a null name add nothing. -/
theorem uniqueUsers_counts_distinct_trimmed_names_witness :
    uniqueUsers [{ exHrUpdate with user_name := .str "  bob " }, exHrUpdate,
      { exHrUpdate with user_name := .str "   " }, { exHrUpdate with user_name := .null }] = 1 ∧
    (∀ name, ({ exHrUpdate with user_name := .null } : Entry).user_name = .str name →
      jsTrim name = "") ∧
    uniqueUsers ({ exHrUpdate with user_name := .null } :: exLogs) = uniqueUsers exLogs :=
  ⟨by decide, fun name h => (by cases h),
    (uniqueUsers_counts_distinct_trimmed_names exLogs).2.1 { exHrUpdate with user_name := .null }
      (fun name h => (by cases h))⟩

/-- C18: for the empty filtered list the analytics computation returns, whatever the platform
and the clock, the snapshot with `totalLogs` 0, `uniqueUsers` 0, empty `actionsCount` and
`rolesCount`, empty `topUsers` and histograms, `mostActiveAction` with the empty action and
count 0 and `mostActiveHour` with hour `0:00` and count 0. -/
theorem analytics_of_empty_list (env : Env) (now : Int) :
    analytics env now [] = some {
      totalLogs := 0
      actionsCount := []
      rolesCount := []
      hourlyActivity := []
      dailyActivity := []
      topUsers := []
      uniqueUsers := 0
      mostActiveHour := ⟨"0:00", 0⟩
      mostActiveAction := ⟨"", 0⟩
      activityTrend := some [] } :=
  rfl

/-- C20: with page size 15 and a filtered list of length n, `totalPages` is the ceiling of
n / 15; for every page p from 1 to `totalPages` the rows `currentLogs` are the entries at the
1-based positions (p - 1) * 15 + 1 to min(p * 15, n) in list order, so a page has at least 1
and at most 15 rows; and the pages 1 to `totalPages` joined in order give the filtered list.
With 37 entries there are 3 pages and page 3 holds the entries 31 to 37, 7 rows. -/
theorem pages_partition_filtered_list (s : State) :
    totalPages s = ((⌈(s.filteredList.length : ℚ) / 15⌉₊ : Nat) : Int) ∧
    (∀ p : Nat, 1 ≤ p → (p : Int) ≤ totalPages s →
      (currentLogs { s with currentPage := (p : Int) }).length =
          min (15 * p) s.filteredList.length - 15 * (p - 1) ∧
        (∀ j, j < min (15 * p) s.filteredList.length - 15 * (p - 1) →
          (currentLogs { s with currentPage := (p : Int) })[j]? =
            s.filteredList[15 * (p - 1) + j]?) ∧
        1 ≤ (currentLogs { s with currentPage := (p : Int) }).length ∧
        (currentLogs { s with currentPage := (p : Int) }).length ≤ 15) ∧
    ((List.range (totalPages s).toNat).map fun k =>
        currentLogs { s with currentPage := ((k + 1 : Nat) : Int) }).flatten = s.filteredList ∧
    (exThreePages.filteredList.length = 37 ∧ totalPages exThreePages = 3 ∧
      currentLogs { exThreePages with currentPage := 3 } = exThirtySeven.drop 30 ∧
      (exThirtySeven.drop 30).map (fun e => e.id) =
        [.num 31, .num 32, .num 33, .num 34, .num 35, .num 36, .num 37]) := by
  refine ⟨?_, ?_, ?_, by decide⟩
  · rw [totalPages_eq, ceil_div_fifteen]
  · intro p hp hle
    rw [totalPages_eq] at hle
    have hle1 : p ≤ (s.filteredList.length + 14) / 15 := by exact_mod_cast hle
    have hlen : (currentLogs { s with currentPage := (p : Int) }).length =
        min (15 * p) s.filteredList.length - 15 * (p - 1) := by
      rw [currentLogs_page s p hp, List.length_take, List.length_drop]
      omega
    refine ⟨hlen, ?_, by rw [hlen]; omega, by rw [hlen]; omega⟩
    intro j hj
    rw [currentLogs_page s p hp, List.getElem?_take, List.getElem?_drop, if_pos (by omega)]
  · rw [totalPages_eq, Int.toNat_ofNat]
    have h := flatten_pages s.filteredList
    have hfun : (fun k => currentLogs { s with currentPage := ((k + 1 : Nat) : Int) }) =
        fun k => (s.filteredList.drop (15 * k)).take 15 := by
      funext k
      rw [currentLogs_page s (k + 1) (by omega)]
      rfl
    rw [hfun]
    exact h

/-- C20, on the thirty-seven entries: page 3 is one of the 3 pages and has the 7 rows at the
positions 31 to 37. -/
theorem pages_partition_filtered_list_witness :
    (1 : Nat) ≤ 3 ∧ ((3 : Nat) : Int) ≤ totalPages exThreePages ∧
      (currentLogs { exThreePages with currentPage := ((3 : Nat) : Int) }).length =
        min (15 * 3) exThreePages.filteredList.length - 15 * (3 - 1) ∧
      min (15 * 3) exThreePages.filteredList.length - 15 * (3 - 1) = 7 :=
  ⟨by decide, by decide,
    ((pages_partition_filtered_list exThreePages).2.1 3 (by decide) (by decide)).1, by decide⟩

/-- C12, the code at an input where it breaks the claim: for one entry whose action is the
word `constructor`, `totalLogs` is 1 but the value stored under that key is text, not a count,
so the values of `actionsCount` do not sum to `totalLogs`; and for one entry whose role is
`__proto__` no key is stored at all, so the values of `rolesCount` sum to 0. -/
theorem counts_break_on_inherited_keys :
    totalLogs [exInheritedAction] = 1 ∧
      actionsCount [exInheritedAction] = [("constructor", .text)] ∧
      sumValues (actionsCount [exInheritedAction]) = none ∧
      totalLogs [exInheritedRole] = 1 ∧
      rolesCount [exInheritedRole] = [] ∧
      sumValues (rolesCount [exInheritedRole]) = some 0 := by
  decide

/-- C14 fails as stated: for the empty filtered list `hourlyActivity` is the empty array, not
24 buckets. -/
theorem hourlyActivity_of_empty_list_has_no_bucket :
    hourlyActivity isoEnv [] = [] ∧ (hourlyActivity isoEnv []).length ≠ 24 ∧
      (analytics isoEnv exNow []).map (fun a => a.hourlyActivity) = some [] := by
  decide

/-- C14, amended: for a non-empty filtered list `hourlyActivity` has exactly 24 buckets
labelled `0:00` to `23:00` in that order; bucket h counts the entries whose timestamp is a
valid date with local hour h; an entry whose timestamp is not a valid date is in no bucket;
the counts add up to the number of entries with a valid date; every entry counts in
`totalLogs`, and the values of `actionsCount` sum to the number of entries when no action key
is the name of an inherited property. For the empty list `hourlyActivity` is empty. -/
theorem hourlyActivity_buckets (env : Env) (l : List Entry) (hl : l ≠ []) :
    (hourlyActivity env l).map (fun b => b.hour) =
      ["0:00", "1:00", "2:00", "3:00", "4:00", "5:00", "6:00", "7:00", "8:00", "9:00", "10:00",
        "11:00", "12:00", "13:00", "14:00", "15:00", "16:00", "17:00", "18:00", "19:00",
        "20:00", "21:00", "22:00", "23:00"] ∧
    (hourlyActivity env l).length = 24 ∧
    (∀ h, h < 24 → ((hourlyActivity env l).map fun b => b.count)[h]? =
      some (l.filter (inHour env h)).length) ∧
    (∀ h e, inHour env h e = true ↔
      ∃ t, newDate env e.timestamp = some t ∧ (env.getHours t).val = h) ∧
    (∀ e, newDate env e.timestamp = none → ∀ h, inHour env h e = false) ∧
    ((hourlyActivity env l).map fun b => b.count).sum =
      (l.filter fun e => (newDate env e.timestamp).isSome).length ∧
    totalLogs l = l.length ∧
    ((∀ e ∈ l, toPropertyKey e.action ∉ objectPrototypeKeys) →
      sumValues (actionsCount l) = some l.length) ∧
    hourlyActivity env [] = [] := by
  have hlen : ¬l.length = 0 := fun h => hl (List.length_eq_zero.1 h)
  have hdef : hourlyActivity env l = (List.range 24).map fun hour =>
      ⟨String.mk (Nat.toDigits 10 hour) ++ ":00", (l.filter (inHour env hour)).length⟩ := by
    unfold hourlyActivity
    rw [if_neg hlen]
  have hcounts : ((hourlyActivity env l).map fun b => b.count) =
      (List.range 24).map fun hour => (l.filter (inHour env hour)).length := by
    rw [hdef, List.map_map]
    rfl
  refine ⟨?_, ?_, ?_, inHour_iff env, ?_, ?_, (counts_sum_to_totalLogs l).1, ?_, rfl⟩
  · rw [hdef, List.map_map]
    have hfun : ((fun b : HourBucket => b.hour) ∘ fun hour =>
        (⟨String.mk (Nat.toDigits 10 hour) ++ ":00", (l.filter (inHour env hour)).length⟩ :
          HourBucket)) = fun hour => String.mk (Nat.toDigits 10 hour) ++ ":00" := rfl
    rw [hfun]
    decide
  · rw [hdef]
    simp
  · intro h hh
    rw [hcounts, List.getElem?_map, List.getElem?_range hh]
    rfl
  · intro e he h
    unfold inHour
    rw [he]
  · rw [hcounts]
    exact sum_hour_counts env l
  · intro hk
    rw [← (counts_sum_to_totalLogs l).1]
    exact (counts_sum_to_totalLogs l).2.1 hk

/-- C14 amended, on the three examples and the undated entry: the list is not empty, the
bucket of hour 9 holds the one entry of 09:00, and the undated entry, in no bucket, counts in
`totalLogs` and in `actionsCount`. -/
theorem hourlyActivity_buckets_witness :
    exUndated :: exLogs ≠ [] ∧
      ((hourlyActivity isoEnv (exUndated :: exLogs)).map fun b => b.count)[9]? = some 1 ∧
      ((hourlyActivity isoEnv (exUndated :: exLogs)).map fun b => b.count).sum = 3 ∧
      totalLogs (exUndated :: exLogs) = 4 ∧
      actionsCount (exUndated :: exLogs) =
        [("VIEW_CLAIMS", .num 1), ("LOGIN", .num 1), ("UPDATE_CLAIM", .num 1),
          ("LOGOUT", .num 1)] ∧
      (hourlyActivity isoEnv (exUndated :: exLogs)).length = 24 :=
  ⟨by decide, by decide, by decide, by decide, by decide,
    (hourlyActivity_buckets isoEnv (exUndated :: exLogs) (by decide)).2.1⟩

/-- C15, the code at an input where it breaks the claim: in a zone whose clocks went forward
on 31 March 2024, at 01:30 local time on 1 April, the last two buckets of `dailyActivity`
carry the same date 2024-03-31 (the day before, 01:30 local on 31 March, is only 23 hours
earlier and has the same UTC date), so the seven dates are not distinct and one entry of
31 March is counted in two buckets. -/
theorem dailyActivity_repeats_a_date_across_clock_change :
    newDate summerEnv (.str "2024-03-31T23:30:00Z") = some summerNow ∧
      summerEnv.minusDays summerNow 1 = summerEnv.dateParse "2024-03-31T00:30:00Z" ∧
      (dailyActivity summerEnv summerNow [exSummerEntry]).map
          (fun buckets => buckets.map fun b => (b.date, b.fullDate, b.count)) =
        some [("Tue", "2024-03-26", 0), ("Wed", "2024-03-27", 0), ("Thu", "2024-03-28", 0),
          ("Fri", "2024-03-29", 0), ("Sat", "2024-03-30", 0), ("Sun", "2024-03-31", 1),
          ("Mon", "2024-03-31", 1)] ∧
      ¬(["2024-03-26", "2024-03-27", "2024-03-28", "2024-03-29", "2024-03-30", "2024-03-31",
        "2024-03-31"] : List String).Nodup := by
  decide

/-- C16, the code at an input where it breaks the claim: for one entry whose user name is the
word `constructor` the count reported in `topUsers` is text, not the number 1 of entries with
that name; and for one entry whose user name is `__proto__`, `topUsers` is empty although the
list has one user name. -/
theorem topUsers_break_on_inherited_keys :
    topUsers [exInheritedUser] = [⟨"constructor", .text⟩] ∧
      topUsers [exInheritedUser] ≠ [⟨"constructor", .num 1⟩] ∧
      topUsers [exProtoUser] = [] ∧
      ([exProtoUser].map fun e => toPropertyKey e.user_name).dedup.length = 1 := by
  decide

/-- C17, the code at an input where it breaks the claim: for one entry whose action is the
word `constructor`, `actionsCount` has that key but `mostActiveAction` is still the initial
value with the empty action and count 0, which is no action of the list. -/
theorem mostActiveAction_breaks_on_inherited_keys :
    actionsCount [exInheritedAction] = [("constructor", .text)] ∧
      mostActiveAction [exInheritedAction] = ⟨"", 0⟩ ∧
      "" ∉ [exInheritedAction].map fun e => toPropertyKey e.action := by
  decide

/-- C19, the code at an input where it breaks the claim: the raw list holds an entry whose
action is `null` and the action filter is `login`; `applyFilters` throws a `TypeError` from
`log.action.toLowerCase()` and the click leaves the state as it was. The search filter, which
reads `log.action?.toLowerCase()`, returns on the same list. -/
theorem applyFilters_throws_on_missing_action :
    Reachable isoEnv exActionTyped ∧
      exActionTyped.logsList = [exNoAction, exHrUpdate] ∧ exActionTyped.filterAction = "login" ∧
      applyFilters isoEnv exNow exActionTyped = .error .typeError ∧
      step isoEnv (.applyClick exNow) exActionTyped = exActionTyped ∧
      actionFilter isoEnv "login" [exNoAction, exHrUpdate] = .error .typeError ∧
      searchFilter isoEnv "login" [exNoAction, exHrUpdate] = .ok [] :=
  ⟨.step _ _ (.step _ _ (.mount exNow)), by decide, by decide, by decide, by decide, by decide,
    by decide⟩

/-- C21, the code at an input where it breaks the claim: on page 2 of sixteen entries a
refresh answers with three entries. `fetchLogs` replaces both lists and leaves `currentPage`
at 2 while `totalPages` is 1; the table is rendered without a row and without the pagination
controls. `applyFilters` and `resetFilters`, the other two writers of `filteredLogs`, set
`currentPage` to 1. -/
theorem currentPage_out_of_range_after_refresh :
    Reachable isoEnv exPageTwo ∧ exPageTwo.filteredList.length = 16 ∧ PageInRange exPageTwo ∧
      Reachable isoEnv exShrunk ∧ exShrunk.filteredList = exLogs ∧
      exShrunk.currentPage = 2 ∧ totalPages exShrunk = 1 ∧ ¬ PageInRange exShrunk ∧
      tableShown exShrunk = true ∧ currentLogs exShrunk = [] ∧
      paginationShown exShrunk = false ∧
      (step isoEnv (.applyClick exNow) exShrunk).currentPage = 1 ∧
      (step isoEnv .resetClick exShrunk).currentPage = 1 :=
  ⟨.step _ _ (.step _ _ (.mount exNow)), by decide, ⟨by decide, by decide⟩,
    .step _ _ (.step _ _ (.step _ _ (.step _ _ (.mount exNow)))), by decide, by decide, by decide,
    fun h => absurd h.2 (by decide), by decide, by decide, by decide, by decide, by decide⟩

/-- C22 fails as stated: with three entries fetched the view has one page and `currentPage` is
1, within `1 ≤ currentPage ≤ totalPages`; the pagination block is not rendered, so there is
no numbered button, while the window of the claim is the one page `[1]`. -/
theorem no_page_button_on_single_page :
    Reachable isoEnv exLoaded ∧ exLoaded.filteredList = exLogs ∧
      totalPages exLoaded = 1 ∧ exLoaded.currentPage = 1 ∧ tableShown exLoaded = true ∧
      paginationShown exLoaded = false ∧ renderedPageNumbers exLoaded = [] ∧
      pageNumbers exLoaded.currentPage (totalPages exLoaded) = [1] ∧
      exLoaded.currentPage ∉ renderedPageNumbers exLoaded :=
  ⟨.step _ _ (.mount exNow), by decide, by decide, by decide, by decide, by decide, by decide,
    by decide, by decide⟩

/-- C22, amended: the numbered buttons are rendered exactly in the table view, when not
loading, with `totalPages > 1`, and in every other state there is none. When they are rendered
and `1 ≤ currentPage ≤ totalPages`, they are exactly the pages from
`max(1, currentPage - 2)` to `min(totalPages, currentPage + 2)`, consecutive and in ascending
order; `currentPage` is one of them, at most two lie before it and at most two after it, there
are at most five, each lies between 1 and `totalPages`, and a click on one sets `currentPage`
to its number. -/
theorem renderedPageNumbers_window (env : Env) (s : State) :
    (paginationShown s = true ↔
      s.viewMode = "table" ∧ s.loading = false ∧ 1 < totalPages s) ∧
    (paginationShown s = false → renderedPageNumbers s = []) ∧
    (paginationShown s = true → 1 ≤ s.currentPage → s.currentPage ≤ totalPages s →
      (∀ i, i ∈ renderedPageNumbers s ↔
        max 1 (s.currentPage - 2) ≤ i ∧ i ≤ min (totalPages s) (s.currentPage + 2)) ∧
      ((renderedPageNumbers s).Chain' fun a b => b = a + 1) ∧
      s.currentPage ∈ renderedPageNumbers s ∧
      ((renderedPageNumbers s).filter fun i => i < s.currentPage).length ≤ 2 ∧
      ((renderedPageNumbers s).filter fun i => s.currentPage < i).length ≤ 2 ∧
      (renderedPageNumbers s).length ≤ 5 ∧
      (∀ i ∈ renderedPageNumbers s, 1 ≤ i ∧ i ≤ totalPages s) ∧
      ∀ i ∈ renderedPageNumbers s, (step env (.pageNumber i) s).currentPage = i) := by
  refine ⟨?_, fun h => ?_, fun h h1 h2 => ?_⟩
  · simp only [paginationShown, tableShown, Bool.and_eq_true, decide_eq_true_eq,
      Bool.not_eq_true']
    constructor
    · rintro ⟨⟨⟨hv, hl⟩, -⟩, ht⟩
      exact ⟨hv, hl, ht⟩
    · rintro ⟨hv, hl, ht⟩
      refine ⟨⟨⟨hv, hl⟩, ?_⟩, ht⟩
      simp only [totalPages, logsPerPage] at ht
      omega
  · simp only [renderedPageNumbers, h, Bool.false_eq_true, if_false]
  · have hr : renderedPageNumbers s = pageNumbers s.currentPage (totalPages s) := by
      simp only [renderedPageNumbers, h, if_true]
    rw [hr]
    obtain ⟨w1, w2, w3, w4, w5, w6, w7⟩ := pageNumbers_window s.currentPage (totalPages s) h1 h2
    exact ⟨w1, w2, w3, w4, w5, w6, w7, fun i hi => step_pageNumber env s i h hi⟩

/-- C22 amended, on the first of the three pages of thirty-seven entries and on the second of
the two pages of sixteen: the buttons are 1, 2, 3 and 1, 2. -/
theorem renderedPageNumbers_window_witness :
    paginationShown exThreePages = true ∧ (1 : Int) ≤ exThreePages.currentPage ∧
      exThreePages.currentPage ≤ totalPages exThreePages ∧
      renderedPageNumbers exThreePages = [1, 2, 3] ∧
      renderedPageNumbers exPageTwo = [1, 2] ∧
      (renderedPageNumbers exThreePages).length ≤ 5 ∧
      (step isoEnv (.pageNumber 3) exThreePages).currentPage = 3 :=
  ⟨by decide, by decide, by decide, by decide, by decide,
    ((renderedPageNumbers_window isoEnv exThreePages).2.2 (by decide) (by decide)
      (by decide)).2.2.2.2.2.1,
    ((renderedPageNumbers_window isoEnv exThreePages).2.2 (by decide) (by decide)
      (by decide)).2.2.2.2.2.2.2 3 (by decide)⟩

/-- C23: the export receives the content of `filteredLogs` in list order; the columns are
Timestamp, User Name, Role, Action and Details in that order and read the keys `timestamp`,
`user_name`, `role`, `action` and `details` of the entry; the file name is `audit_logs_`, the
UTC date of the clock reading as year (four digits), month (1 to 12) and day (1 to 31), each
padded with zeros and joined by `-`, and `.csv`. The year is written with four digits for the
years 0 to 9999. -/
theorem csvLink_exports_filtered_list (now : Int) (s : State)
    (hy : 0 ≤ (civilFromDays (utcDay now)).1 ∧ (civilFromDays (utcDay now)).1 ≤ 9999) :
    (csvLink now s).data = s.filteredList ∧
    (csvLink now s).headers.map CsvHeader.label =
      ["Timestamp", "User Name", "Role", "Action", "Details"] ∧
    (∀ log : Entry, csvRow (csvLink now s).headers log =
      [log.timestamp, log.user_name, log.role, log.action, log.details]) ∧
    (csvLink now s).filename =
      "audit_logs_" ++
        (padZero 4 (civilFromDays (utcDay now)).1.toNat ++ "-" ++
          padZero 2 (civilFromDays (utcDay now)).2.1 ++ "-" ++
          padZero 2 (civilFromDays (utcDay now)).2.2) ++ ".csv" ∧
    1 ≤ (civilFromDays (utcDay now)).2.1 ∧ (civilFromDays (utcDay now)).2.1 ≤ 12 ∧
    1 ≤ (civilFromDays (utcDay now)).2.2 ∧ (civilFromDays (utcDay now)).2.2 ≤ 31 := by
  refine ⟨rfl, rfl, fun log => rfl, ?_, civilFromDays_month_day _⟩
  simp only [csvLink, isoDate, isoYear, hy, and_self, if_true]

/-- C23 on the example: after Apply Filters with the role HR the export holds the one HR entry
while the raw list holds three, and on 10 March 2024 the file is `audit_logs_2024-03-10.csv`. -/
theorem csvLink_exports_filtered_list_witness :
    (0 ≤ (civilFromDays (utcDay exNow)).1 ∧ (civilFromDays (utcDay exNow)).1 ≤ 9999) ∧
      (step isoEnv (.applyClick exNow) exEdited).logsList = exLogs ∧
      (csvLink exNow (step isoEnv (.applyClick exNow) exEdited)).data = [exHrUpdate] ∧
      csvRow csvHeaders exHrUpdate =
        [.str "2024-03-02T10:30:00Z", .str "bob", .str "HR", .str "UPDATE_CLAIM", .null] ∧
      (csvLink exNow (step isoEnv (.applyClick exNow) exEdited)).filename =
        "audit_logs_2024-03-10.csv" :=
  ⟨by decide, by decide,
    (csvLink_exports_filtered_list exNow (step isoEnv (.applyClick exNow) exEdited)
      (by decide)).1.trans (by decide), by decide, by decide⟩

/-- C30, the code at an input where it breaks the claim: for an entry that carries the name
under the key `userName`, the table row shows `alice` while a search for `alice` drops the
entry, `uniqueUsers` is 0, `topUsers` counts the key `undefined`, and the export and the
detail view read `undefined`. For an entry that carries the name under `user_name`, the row
shows `Unknown User` while the search keeps the entry and `uniqueUsers` is 1. -/
theorem table_row_reads_another_key :
    rowUserName exCamelUser = .str "alice" ∧
      filterAndSort isoEnv exNow (searchOnly "alice") [exCamelUser] = .ok [] ∧
      uniqueUsers [exCamelUser] = 0 ∧
      topUsers [exCamelUser] = [⟨"undefined", .num 1⟩] ∧
      csvRow csvHeaders exCamelUser =
        [.str "2024-03-01T09:00:00Z", .undefined, .str "ADMIN", .str "LOGIN", .str "Signed in"] ∧
      detailUserName exCamelUser = .undefined ∧
      rowUserName exAdminLogin = .str "Unknown User" ∧
      filterAndSort isoEnv exNow (searchOnly "alice") [exAdminLogin] = .ok [exAdminLogin] ∧
      uniqueUsers [exAdminLogin] = 1 ∧ detailUserName exAdminLogin = .str "alice" :=
  ⟨by decide, by decide, by decide, by decide, by decide, by decide, by decide, by decide,
    by decide, by decide⟩

/-- C24: when `validateEmail` rejects the address of the login form, `handleLogin` issues no
request, writes nothing to the store, does not navigate, and ends with `errorEmail` set to
`Please enter a valid email address` and `loading` false, whatever the response would be; when
`validateEmail` rejects the address of the registration form or `validatePhone` its phone
number, `handleRegisterHr` issues no request and ends with `error` set to the message of the
first failed check, `loading` false and the form fields as they were. -/
theorem rejected_input_sends_no_request (env : Env) (jsonParse : String → Option Json)
    (response : LoginResponse) (s : LoginState) (token : Option String)
    (hrResponse : HrResponse) (h : HrState) :
    (AgentLogin.validateEmail s.email = false →
      (handleLogin env jsonParse response s).request = none ∧
        (handleLogin env jsonParse response s).state.errorEmail =
          .str "Please enter a valid email address" ∧
        (handleLogin env jsonParse response s).state.loading = false ∧
        (handleLogin env jsonParse response s).stored = [] ∧
        (handleLogin env jsonParse response s).navigated = none) ∧
    (HrRegister.validateEmail h.newHr.email = false ∨ validatePhone h.newHr.phoneNumber = false →
      (handleRegisterHr token hrResponse h).request = none ∧
        (handleRegisterHr token hrResponse h).state.error =
          (if HrRegister.validateEmail h.newHr.email = false then
            .str "⚠️ Please enter a valid email address (e.g., user@example.com)."
          else .str "⚠️ Please enter a valid 10-digit phone number.") ∧
        (handleRegisterHr token hrResponse h).state.loading = false ∧
        (handleRegisterHr token hrResponse h).state.newHr = h.newHr) := by
  refine ⟨fun hv => ?_, fun hv => ?_⟩
  · simp [handleLogin, hv]
  · cases he : HrRegister.validateEmail h.newHr.email with
    | false => simp [handleRegisterHr, he]
    | true =>
      have hp : validatePhone h.newHr.phoneNumber = false := by
        rcases hv with hv | hv
        · rw [he] at hv; cases hv
        · exact hv
      simp [handleRegisterHr, he, hp]

/-- C24 on the examples: the address `agent@example` is rejected and no login request is
issued; the registration form with the phone number `12345 67890` is rejected and no
registration request is issued; the login form with a well-formed address issues its request. -/
theorem rejected_input_sends_no_request_witness :
    AgentLogin.validateEmail "agent@example" = false ∧
      (handleLogin isoEnv parseJson (.http 200 "") { exLoginForm with email := "agent@example" }).request = none ∧
      (HrRegister.validateEmail exHrForm.newHr.email = false ∨
        validatePhone exHrForm.newHr.phoneNumber = false) ∧
      (handleRegisterHr (some "token") (.resolved (.str "ok")) exHrForm).request = none ∧
      (handleLogin isoEnv parseJson (.http 200 "") exLoginForm).request =
        some ⟨"agent@example.com", "secret"⟩ :=
  ⟨by decide,
    ((rejected_input_sends_no_request isoEnv parseJson (.http 200 "")
      { exLoginForm with email := "agent@example" } (some "token") (.resolved (.str "ok"))
      exHrForm).1 (by decide)).1,
    Or.inr (by decide),
    ((rejected_input_sends_no_request isoEnv parseJson (.http 200 "")
      { exLoginForm with email := "agent@example" } (some "token") (.resolved (.str "ok"))
      exHrForm).2 (Or.inr (by decide))).1,
    by decide⟩

/-- C25, the code at an input where it breaks the claim: a first attempt answered with 401 and
an empty body ends with `Invalid password.` on the password field. On the form that shows this
message, a second attempt with the same well-formed address ends with no message on either
field, for 401, for 404 and for 500 with the body `Server down`: the test
`!errorEmail && !errorPassword` reads the messages of the render the handler was created in,
not the ones its own setter calls have just cleared. -/
theorem repeated_rejection_shows_no_message :
    AgentLogin.validateEmail exLoginForm.email = true ∧
      (handleLogin isoEnv parseJson (.http 401 "") exLoginForm).state.errorPassword =
        .str "Invalid password." ∧
      exAfterRejection.email = exLoginForm.email ∧
      exAfterRejection.errorPassword = .str "Invalid password." ∧
      (handleLogin isoEnv parseJson (.http 401 "") exAfterRejection).state.errorPassword =
        .str "" ∧
      (handleLogin isoEnv parseJson (.http 401 "") exAfterRejection).state.errorEmail =
        .str "" ∧
      (handleLogin isoEnv parseJson (.http 404 "") exAfterRejection).state.errorEmail =
        .str "" ∧
      (handleLogin isoEnv parseJson (.http 404 "") exAfterRejection).state.errorPassword =
        .str "" ∧
      (handleLogin isoEnv parseJson (.http 500 "Server down") exAfterRejection).state.errorPassword =
        .str "" ∧
      (handleLogin isoEnv parseJson (.http 500 "Server down") exLoginForm).state.errorPassword =
        .str "Server down" :=
  ⟨by decide, rfl, rfl, rfl, rfl, rfl, rfl, rfl, rfl, rfl⟩

/-- C26, the code at an input where it breaks the claim: on a form that shows no message, a
404 response whose body carries `email` ends with `Agent not found.` on the email field, a
401 response whose body carries `password` ends with `Invalid password.` on the password
field, and a 423 response whose body carries `password` and `message` ends with the message
there. On a form that shows a message from an earlier attempt, the `email` of the same 404
body is shown as it is. -/
theorem status_message_replaces_field_error :
    parseJson "\x7b\"email\":\"No agent with this address\"\x7d" =
        some (.obj [("email", .str "No agent with this address")]) ∧
      (handleLogin isoEnv parseJson
        (.http 404 "\x7b\"email\":\"No agent with this address\"\x7d")
        exLoginForm).state.errorEmail = .str "Agent not found." ∧
      (handleLogin isoEnv parseJson (.http 401 "\x7b\"password\":\"Account locked\"\x7d")
        exLoginForm).state.errorPassword = .str "Invalid password." ∧
      (handleLogin isoEnv parseJson
        (.http 423 "\x7b\"password\":\"Account locked\",\"message\":\"Locked\"\x7d")
        exLoginForm).state.errorPassword = .str "Locked" ∧
      (handleLogin isoEnv parseJson
        (.http 404 "\x7b\"email\":\"No agent with this address\"\x7d")
        exAfterRejection).state.errorEmail = .str "No agent with this address" :=
  ⟨rfl, rfl, rfl, rfl, rfl⟩

/-- C27, the code at an input where it breaks the claim: for a token whose payload segment
decodes to the JSON string `"abc"`, `parseJwt` returns that string and `?.sub` reads the
method every string inherits, so the e-mail of the profile is a function, neither a field of
the payload nor `Not available`. For a payload object with `sub` the e-mail is that field; a
token without a dot, with a segment that is not base64, with bytes that are not UTF-8 or with
a text that is not JSON gives `null` and the e-mail `Not available`. -/
theorem profile_email_of_text_payload :
    parseJwt parseJson exTextToken = .str "abc" ∧
      (loadEmployeeData parseJson (some exTextToken) none none).email =
        .builtin "String.prototype.sub" ∧
      parseJwt parseJson exToken = .obj [("sub", .str "a@b.io")] ∧
      (loadEmployeeData parseJson (some exToken) none none).email = .json (.str "a@b.io") ∧
      parseJwt parseJson "no-dot" = .null ∧
      parseJwt parseJson "e30.b.sig" = .null ∧
      parseJwt parseJson "e30.wIA.sig" = .null ∧
      parseJwt parseJson "e30.YWJj.sig" = .null ∧
      (loadEmployeeData parseJson (some "e30.YWJj.sig") none none).email =
        .json (.str "Not available") ∧
      (loadEmployeeData parseJson none none none).email = .json (.str "Not available") :=
  ⟨rfl, rfl, rfl, rfl, rfl, rfl, rfl, rfl, rfl, rfl⟩

/-- C28 fails as stated: `1234567890` is a ten-digit number and `validatePhone` rejects it,
as it rejects `12345 67890`, the value `handlePhoneChange` stores for that input; the
pattern `^[6-9]\d{9}$` asks for a first digit from 6 to 9. -/
theorem validatePhone_rejects_ten_digits :
    removeAll nonDigitClass "1234567890" = "1234567890".data ∧
      (removeAll nonDigitClass "1234567890").length = 10 ∧
      validatePhone "1234567890" = false ∧
      (handlePhoneChange "1234567890" initialHrState).newHr.phoneNumber = "12345 67890" ∧
      validatePhone (handlePhoneChange "1234567890" initialHrState).newHr.phoneNumber = false ∧
      validatePhone "9876543210" = true :=
  ⟨by decide, by decide, by decide, by decide, by decide, by decide⟩

/-- C28, amended: `validatePhone(phone)` is true exactly when `phone` with every non-digit
removed has ten digits of which the first is 6, 7, 8 or 9; for an input with at least ten
digits `handlePhoneChange` stores the first five digits, a space and the next five, and
`validatePhone` accepts the stored value exactly when the first digit of the input is 6, 7, 8
or 9. -/
theorem validatePhone_accepts_ten_digits_from_six_to_nine (phone input : String) (s : HrState) :
    (validatePhone phone = true ↔
      (removeAll nonDigitClass phone).length = 10 ∧
        ∃ c, (removeAll nonDigitClass phone).head? = some c ∧ isSixToNine c = true) ∧
    (10 ≤ (removeAll nonDigitClass input).length →
      (handlePhoneChange input s).newHr.phoneNumber =
        String.mk ((removeAll nonDigitClass input).take 5) ++ " " ++
          String.mk (((removeAll nonDigitClass input).take 10).drop 5) ∧
      (validatePhone (handlePhoneChange input s).newHr.phoneNumber = true ↔
        ∃ c, (removeAll nonDigitClass input).head? = some c ∧ isSixToNine c = true)) := by
  have hiff : ∀ l : List Char, (decide (l.length = 10) && (l.head?.map isSixToNine).getD false) = true ↔
      l.length = 10 ∧ ∃ c, l.head? = some c ∧ isSixToNine c = true := by
    intro l
    cases l with
    | nil => simp
    | cons c l => simp
  refine ⟨?_, fun h => ?_⟩
  · rw [validatePhone_eq]
    exact hiff _
  · obtain ⟨h1, h2⟩ := handlePhoneChange_ten_digits input s h
    refine ⟨h1, ?_⟩
    rw [validatePhone_eq, h2, hiff]
    have hlen : ((removeAll nonDigitClass input).take 10).length = 10 := by
      rw [List.length_take]; omega
    have hhead : ((removeAll nonDigitClass input).take 10).head? =
        (removeAll nonDigitClass input).head? := by
      cases removeAll nonDigitClass input <;> rfl
    rw [hhead]
    exact ⟨fun hh => hh.2, fun hh => ⟨hlen, hh⟩⟩

/-- C28 amended, on an input with eleven digits, a hyphen and letters: the stored value is
`98765 43210` and it is accepted. -/
theorem validatePhone_accepts_ten_digits_from_six_to_nine_witness :
    10 ≤ (removeAll nonDigitClass "98765-43210 ext 7").length ∧
      (handlePhoneChange "98765-43210 ext 7" initialHrState).newHr.phoneNumber = "98765 43210" ∧
      validatePhone (handlePhoneChange "98765-43210 ext 7" initialHrState).newHr.phoneNumber = true :=
  ⟨by decide,
    ((validatePhone_accepts_ten_digits_from_six_to_nine "" "98765-43210 ext 7"
      initialHrState).2 (by decide)).1.trans (by decide),
    ((validatePhone_accepts_ten_digits_from_six_to_nine "" "98765-43210 ext 7"
      initialHrState).2 (by decide)).2.2 ⟨'9', by decide, by decide⟩⟩

/-- C29: `checkPasswordStrength` sets `passwordStrength` to 25 times the number of the four
requirements the password meets (length at least 8, an uppercase letter, a digit, a character
that is neither a letter nor a digit); the value is one of 0, 25, 50, 75 and 100, it is 100
exactly when all four are met, and the label is `Very Weak` for none, `Weak` for one,
`Medium` for two and `Strong` for three or four requirements met. `handlePasswordChange`
stores the password and that strength. -/
theorem checkPasswordStrength_counts_requirements (password : String) (s : HrState) :
    (checkPasswordStrength password s).passwordStrength = 25 * requirementsMet password ∧
    (checkPasswordStrength password s).passwordStrength ∈ [0, 25, 50, 75, 100] ∧
    ((checkPasswordStrength password s).passwordStrength = 100 ↔
      longEnough password = true ∧ hasUppercase password = true ∧ hasNumber password = true ∧
        hasSpecial password = true) ∧
    getPasswordStrengthText (checkPasswordStrength password s) =
      (if requirementsMet password = 0 then "Very Weak"
        else if requirementsMet password = 1 then "Weak"
        else if requirementsMet password = 2 then "Medium"
        else "Strong") ∧
    (handlePasswordChange password s).passwordStrength = 25 * requirementsMet password ∧
    (handlePasswordChange password s).newHr.password = password := by
  obtain ⟨hu, hn, hs⟩ := password_tests password
  have hstrength : (checkPasswordStrength password s).passwordStrength =
      25 * requirementsMet password := by
    simp only [checkPasswordStrength, hu, hn, hs, requirementsMet, longEnough, ge_iff_le,
      decide_eq_true_eq]
    split <;> split <;> split <;> split <;> rfl
  have hrange : requirementsMet password ≤ 4 := by
    simp only [requirementsMet]
    split <;> split <;> split <;> split <;> decide
  have hall : requirementsMet password = 4 ↔
      longEnough password = true ∧ hasUppercase password = true ∧ hasNumber password = true ∧
        hasSpecial password = true := by
    simp only [requirementsMet]
    cases longEnough password <;> cases hasUppercase password <;> cases hasNumber password <;>
      cases hasSpecial password <;> decide
  refine ⟨hstrength, ?_, ?_, ?_, ?_, rfl⟩
  · rw [hstrength]
    have : requirementsMet password = 0 ∨ requirementsMet password = 1 ∨
        requirementsMet password = 2 ∨ requirementsMet password = 3 ∨
        requirementsMet password = 4 := by omega
    rcases this with h | h | h | h | h <;> rw [h] <;> decide
  · rw [hstrength, ← hall]
    omega
  · simp only [getPasswordStrengthText, hstrength]
    have : requirementsMet password = 0 ∨ requirementsMet password = 1 ∨
        requirementsMet password = 2 ∨ requirementsMet password = 3 ∨
        requirementsMet password = 4 := by omega
    rcases this with h | h | h | h | h <;> rw [h] <;> decide
  · exact (show (handlePasswordChange password s).passwordStrength =
      (checkPasswordStrength password s).passwordStrength from rfl).trans hstrength

/-- C29 on passwords that meet none, one, two, three and all four of the requirements. -/
theorem checkPasswordStrength_counts_requirements_witness :
    (checkPasswordStrength "" initialHrState).passwordStrength = 0 ∧
      getPasswordStrengthText (checkPasswordStrength "" initialHrState) = "Very Weak" ∧
      (checkPasswordStrength "secret" initialHrState).passwordStrength = 0 ∧
      (checkPasswordStrength "Secret" initialHrState).passwordStrength = 25 ∧
      getPasswordStrengthText (checkPasswordStrength "Secret" initialHrState) = "Weak" ∧
      (checkPasswordStrength "Secret12" initialHrState).passwordStrength = 75 ∧
      getPasswordStrengthText (checkPasswordStrength "Secret12" initialHrState) = "Strong" ∧
      (checkPasswordStrength "Secret1!" initialHrState).passwordStrength = 100 ∧
      getPasswordStrengthText (checkPasswordStrength "Secret1!" initialHrState) = "Strong" ∧
      (checkPasswordStrength "Secret1" initialHrState).passwordStrength = 50 ∧
      getPasswordStrengthText (checkPasswordStrength "Secret1" initialHrState) = "Medium" :=
  ⟨by decide, by decide, by decide, by decide, by decide, by decide, by decide,
    (checkPasswordStrength_counts_requirements "Secret1!" initialHrState).1.trans (by decide),
    by decide, by decide, by decide⟩

end InsurAi
